import Mathlib

/-!
Verification development for the SurfSense MCPO connector
(`app/connectors/mcpo_connector.py`) and the MCPO branch of the
connector-configuration validator (`app/schemas/search_source_connector.py`).

Python strings are embedded as `String`, JSON/Python values as `PyVal`
(numbers split into `int` and `float`, the latter carried as `Rat`),
dictionaries as association lists in insertion order.  Network effects are
factored out: the pure response-processing functions take the decoded
response body as an argument, and fallible constructors return
`Except String`.
-/

namespace SurfSense

/-- Characters stripped by Python `str.strip()` (the ASCII whitespace set). -/
def isPySpace (c : Char) : Bool :=
  c = ' ' || c = '\t' || c = '\n' || c = '\r' || c = Char.ofNat 11 || c = Char.ofNat 12

/-- Drop the characters satisfying `p` from the end of a character list. -/
def rstripList (p : Char → Bool) (l : List Char) : List Char :=
  (l.reverse.dropWhile p).reverse

/-- Drop the characters satisfying `p` from the front of a character list. -/
def lstripList (p : Char → Bool) (l : List Char) : List Char :=
  l.dropWhile p

/-- Python `str.strip()` on a character list. -/
def stripWSList (l : List Char) : List Char :=
  rstripList isPySpace (lstripList isPySpace l)

/-- Python `str.strip()`. -/
def stripWS (s : String) : String :=
  String.mk (stripWSList s.toList)

/-- Python `str.rstrip("/")`. -/
def rstripSlash (s : String) : String :=
  String.mk (rstripList (fun c => c = '/') s.toList)

/-- Python `str.strip("/")`. -/
def stripSlash (s : String) : String :=
  String.mk (rstripList (fun c => c = '/') (lstripList (fun c => c = '/') s.toList))

/-- Python `str.split(sep)` for a one-character separator, on character lists.
Always returns at least one (possibly empty) part. -/
def splitOnCharList (sep : Char) : List Char → List (List Char)
  | [] => [[]]
  | c :: cs =>
      if c = sep then [] :: splitOnCharList sep cs
      else
        match splitOnCharList sep cs with
        | t :: ts => (c :: t) :: ts
        | [] => [[c]]

/-- Python `sep.join(parts)` for a one-character separator, on character lists. -/
def joinWithCharList (sep : Char) : List (List Char) → List Char
  | [] => []
  | [t] => t
  | t :: ts => t ++ sep :: joinWithCharList sep ts

/-- Python `str.split(sep)` for a one-character separator. -/
def splitOnChar (sep : Char) (s : String) : List String :=
  (splitOnCharList sep s.toList).map String.mk

/-- ASCII digit test. -/
def isDigitChar (c : Char) : Bool :=
  c.isDigit

/-- Python `str.isdigit()` restricted to ASCII digits. -/
def isDigitStr (s : String) : Bool :=
  !s.toList.isEmpty && s.toList.all isDigitChar

/-- Value of a string of ASCII digits, as Python `int(token)` computes it. -/
def natOfDigits (l : List Char) : Nat :=
  l.foldl (fun acc c => acc * 10 + (c.toNat - 48)) 0

/-- ASCII lowercasing, as Python `str.lower()` (ASCII subset). -/
def lowerChar (c : Char) : Char :=
  if 'A' ≤ c ∧ c ≤ 'Z' then Char.ofNat (c.toNat + 32) else c

/-- Python `str.lower()` (ASCII subset). -/
def lowerStr (s : String) : String :=
  String.mk (s.toList.map lowerChar)

/-- Python `s.startswith(pre)`. -/
def startsWithStr (s pre : String) : Bool :=
  pre.toList.isPrefixOf s.toList

/-- Code-point comparison of strings, as Python `sorted` orders them. -/
def leChars : List Char → List Char → Bool
  | [], _ => true
  | _ :: _, [] => false
  | a :: as, b :: bs => if a = b then leChars as bs else decide (a.toNat < b.toNat)

/-- Insertion into a sorted list of strings. -/
def insertSorted (x : String) : List String → List String
  | [] => [x]
  | y :: ys => if leChars x.toList y.toList then x :: y :: ys else y :: insertSorted x ys

/-- Python `sorted` on a list of strings. -/
def sortStrings : List String → List String
  | [] => []
  | x :: xs => insertSorted x (sortStrings xs)

/-- Python `sep.join(parts)`. -/
def joinStrings (sep : String) : List String → String
  | [] => ""
  | [t] => t
  | t :: u :: rest => t ++ sep ++ joinStrings sep (u :: rest)

/-- Python values, as produced by `json` decoding and used in the connector
configuration.  Numbers are split into `int` and `float`; floats are carried
exactly as rationals. -/
inductive PyVal where
  | none
  | bool (b : Bool)
  | int (n : Int)
  | float (q : Rat)
  | str (s : String)
  | list (xs : List PyVal)
  | dict (kvs : List (String × PyVal))

/-- Python dictionaries with string keys, in insertion order. -/
abbrev PyDict := List (String × PyVal)

/-- Python `d.get(key)` restricted to a present key: the first binding. -/
def getKey : PyDict → String → Option PyVal
  | [], _ => Option.none
  | (k, v) :: rest, key => if k = key then some v else getKey rest key

/-- Python `d[key] = v`: replace the binding in place, else append. -/
def setKey : PyDict → String → PyVal → PyDict
  | [], key, v => [(key, v)]
  | (k, w) :: rest, key, v =>
      if k = key then (k, v) :: rest else (k, w) :: setKey rest key v

/-- Python `d.pop(key, None)` / `del d[key]`: drop the binding if present. -/
def popKey : PyDict → String → PyDict
  | [], _ => []
  | (k, w) :: rest, key => if k = key then rest else (k, w) :: popKey rest key

/-- Python truthiness of a value. -/
def truthy : PyVal → Bool
  | .none => false
  | .bool b => b
  | .int n => n != 0
  | .float q => q != 0
  | .str s => s != ""
  | .list xs => !xs.isEmpty
  | .dict kvs => !kvs.isEmpty

/-- Python `a or b` on values: `a` when truthy, else `b`. -/
def pyOr (a b : PyVal) : PyVal :=
  if truthy a then a else b

/-- The single-quote character, used by Python `repr` of strings. -/
def squote : Char := Char.ofNat 39

/-- Opening brace character. -/
def lbrace : Char := Char.ofNat 123

/-- Closing brace character. -/
def rbrace : Char := Char.ofNat 125

/-- Escapes applied by Python `repr` inside a single-quoted string
(modelled: backslash, quote and the common control characters). -/
def pyReprEscapeChar (c : Char) : List Char :=
  if c = '\\' then ['\\', '\\']
  else if c = squote then ['\\', squote]
  else if c = '\n' then ['\\', 'n']
  else if c = '\r' then ['\\', 'r']
  else if c = '\t' then ['\\', 't']
  else [c]

/-- Modelled from Python `repr` of a string: single-quoted with escapes. -/
def pyReprStr (s : String) : String :=
  String.mk (squote :: (s.toList.map pyReprEscapeChar).flatten ++ [squote])

/-- Modelled from Python float rendering: floats with an integral value
print with a trailing `.0`; other rationals fall back to `Rat`'s own
rendering (not reached by any claim below). -/
def floatRepr (q : Rat) : String :=
  if q.den = 1 then toString q.num ++ ".0" else toString q

mutual

/-- Modelled from Python `repr` of a value. -/
def pyRepr : PyVal → String
  | .none => "None"
  | .bool b => if b then "True" else "False"
  | .int n => toString n
  | .float q => floatRepr q
  | .str s => pyReprStr s
  | .list xs => "[" ++ pyReprElems xs ++ "]"
  | .dict kvs => String.mk [lbrace] ++ pyReprFields kvs ++ String.mk [rbrace]

/-- Comma-separated `repr` of list elements. -/
def pyReprElems : List PyVal → String
  | [] => ""
  | [x] => pyRepr x
  | x :: y :: xs => pyRepr x ++ ", " ++ pyReprElems (y :: xs)

/-- Comma-separated `repr` of dictionary entries. -/
def pyReprFields : List (String × PyVal) → String
  | [] => ""
  | [(k, v)] => pyReprStr k ++ ": " ++ pyRepr v
  | (k, v) :: kv :: kvs =>
      pyReprStr k ++ ": " ++ pyRepr v ++ ", " ++ pyReprFields (kv :: kvs)

end

/-- Python `str()` of a value. -/
def pyStr (v : PyVal) : String :=
  match v with
  | .str s => s
  | _ => pyRepr v

/-- Lowercase hexadecimal digit. -/
def jsonHexDigit (n : Nat) : Char :=
  if n < 10 then Char.ofNat (48 + n) else Char.ofNat (97 + n - 10)

/-- Escapes applied by `json.dumps` inside a string literal
(`ensure_ascii=False`: characters above the control range pass through). -/
def jsonEscapeChar (c : Char) : List Char :=
  if c = '"' then ['\\', '"']
  else if c = '\\' then ['\\', '\\']
  else if c = '\n' then ['\\', 'n']
  else if c = '\r' then ['\\', 'r']
  else if c = '\t' then ['\\', 't']
  else if c = Char.ofNat 8 then ['\\', 'b']
  else if c = Char.ofNat 12 then ['\\', 'f']
  else if c.toNat < 32 then
    ['\\', 'u', '0', '0', jsonHexDigit (c.toNat / 16), jsonHexDigit (c.toNat % 16)]
  else [c]

/-- JSON string literal as `json.dumps(..., ensure_ascii=False)` renders it. -/
def jsonQuote (s : String) : String :=
  String.mk ('"' :: (s.toList.map jsonEscapeChar).flatten ++ ['"'])

/-- A run of `n` spaces. -/
def padding (n : Nat) : String :=
  String.mk (List.replicate n ' ')

/-- Separator emitted between container items by `json.dumps`: `", "`
without indent, comma plus newline plus padding with indent. -/
def jsonSep (indent : Option Nat) (pad : Nat) : String :=
  match indent with
  | some _ => ",\n" ++ padding pad
  | Option.none => ", "

mutual

/-- Modelled from `json.dumps(..., ensure_ascii=False)` with optional
`indent` (the keyword the connector passes as `indent=2`). -/
def jsonDumpsVal (indent : Option Nat) (pad : Nat) : PyVal → String
  | .none => "null"
  | .bool b => if b then "true" else "false"
  | .int n => toString n
  | .float q => floatRepr q
  | .str s => jsonQuote s
  | .list [] => "[]"
  | .list (x :: xs) =>
      match indent with
      | some step =>
          "[\n" ++ padding (pad + step) ++ jsonDumpsVal indent (pad + step) x ++
            jsonDumpsElems indent (pad + step) xs ++ "\n" ++ padding pad ++ "]"
      | Option.none =>
          "[" ++ jsonDumpsVal indent pad x ++ jsonDumpsElems indent pad xs ++ "]"
  | .dict [] => "\x7b\x7d"
  | .dict ((k, v) :: kvs) =>
      match indent with
      | some step =>
          "\x7b\n" ++ padding (pad + step) ++ jsonQuote k ++ ": " ++
            jsonDumpsVal indent (pad + step) v ++
            jsonDumpsFields indent (pad + step) kvs ++ "\n" ++ padding pad ++ "\x7d"
      | Option.none =>
          "\x7b" ++ jsonQuote k ++ ": " ++ jsonDumpsVal indent pad v ++
            jsonDumpsFields indent pad kvs ++ "\x7d"

/-- Remaining list items, each led by the separator. -/
def jsonDumpsElems (indent : Option Nat) (pad : Nat) : List PyVal → String
  | [] => ""
  | x :: xs =>
      jsonSep indent pad ++ jsonDumpsVal indent pad x ++ jsonDumpsElems indent pad xs

/-- Remaining dictionary entries, each led by the separator. -/
def jsonDumpsFields (indent : Option Nat) (pad : Nat) : List (String × PyVal) → String
  | [] => ""
  | (k, v) :: kvs =>
      jsonSep indent pad ++ jsonQuote k ++ ": " ++ jsonDumpsVal indent pad v ++
        jsonDumpsFields indent pad kvs

end

/-- `json.dumps(v, ensure_ascii=False, indent=indent)`. -/
def jsonDumps (indent : Option Nat) (v : PyVal) : String :=
  jsonDumpsVal indent 0 v

/-- Python `s[:n]` on a string. -/
def takePre (n : Nat) (s : String) : String :=
  String.mk (s.toList.take n)

/-- Python `d.get(k)`: `None` when the key is absent. -/
def dictGet (kvs : PyDict) (k : String) : PyVal :=
  (getKey kvs k).getD .none

/-- Normalized representation of a result returned by an MCPO tool
(the `MCPOResult` dataclass). -/
structure MCPOResult where
  title : String
  description : String
  content : String
  metadata : PyDict
  url : Option String

/-- `MCPOConnector._stringify`: strings pass through, containers render as
two-space-indented JSON, other scalars as their plain JSON literal.  (The
Python fallback `str(value)` for JSON-unencodable values is unreachable
over `PyVal`.) -/
def stringifyVal (v : PyVal) : String :=
  match v with
  | .str s => s
  | .list xs => jsonDumps (some 2) (.list xs)
  | .dict kvs => jsonDumps (some 2) (.dict kvs)
  | other => jsonDumps Option.none other

/-- `MCPOConnector._normalize_item`: convert a raw payload item into a
normalized result.  The final `metadata if isinstance(metadata, dict) else
{"value": metadata}` guard of the source is embedded as written, though the
variable is a dictionary in every branch. -/
def normalizeItem (item : PyVal) (position : Nat) : MCPOResult :=
  let title0 := "MCPO Result " ++ toString position
  match item with
  | .dict kvs =>
      let title := pyStr (pyOr (dictGet kvs "title")
        (pyOr (dictGet kvs "name") (pyOr (dictGet kvs "id") (.str title0))))
      let urlValue := pyOr (dictGet kvs "url") (dictGet kvs "link")
      let url : Option String :=
        match urlValue with
        | .str u => some u
        | _ => Option.none
      let descValue := pyOr (dictGet kvs "description")
        (pyOr (dictGet kvs "summary") (dictGet kvs "snippet"))
      let description0 :=
        match descValue with
        | .str d => d
        | _ => ""
      let content :=
        match dictGet kvs "content" with
        | .none => jsonDumps (some 2) (.dict kvs)
        | cv => stringifyVal cv
      let description :=
        if description0 = "" ∧ content ≠ "" then takePre 200 content else description0
      let metaVal : PyVal := .dict kvs
      { title := title, description := description, content := content,
        metadata := (match metaVal with
          | .dict m => m
          | other => [("value", other)]),
        url := url }
  | .str s =>
      let content := s
      let description := if content ≠ "" then takePre 200 content else ""
      { title := title0, description := description, content := content,
        metadata := [], url := Option.none }
  | other =>
      let content := stringifyVal other
      let description := if content ≠ "" then takePre 200 content else ""
      { title := title0, description := description, content := content,
        metadata := [], url := Option.none }

/-- The `enumerate(..., start=pos)` normalization loop inside `search`. -/
def normalizeFrom (pos : Nat) : List PyVal → List MCPOResult
  | [] => []
  | x :: xs => normalizeItem x pos :: normalizeFrom (pos + 1) xs

/-- Characters allowed in a URL scheme (`urllib.parse.scheme_chars`). -/
def schemeChar (c : Char) : Bool :=
  c.isAlpha || c.isDigit || c = '+' || c = '-' || c = '.'

/-- The split produced by `urllib.parse.urlsplit`. -/
structure SplitUrl where
  scheme : String
  netloc : String
  path : String
  query : String
  fragment : String

/-- Scheme detection of `urlsplit`: the text before the first colon when it
is non-empty, starts with a letter and uses only scheme characters. -/
def splitSchemeChars (l : List Char) : Option (List Char × List Char) :=
  let pre := l.takeWhile (fun c => c ≠ ':')
  let rest := l.dropWhile (fun c => c ≠ ':')
  match rest with
  | [] => Option.none
  | _ :: after =>
      match pre with
      | [] => Option.none
      | c0 :: _ => if c0.isAlpha ∧ pre.all schemeChar then some (pre, after) else Option.none

/-- True away from the characters that terminate a network location. -/
def urlNotDelim (c : Char) : Bool :=
  ¬ (c = '/' ∨ c = '?' ∨ c = '#')

/-- Modelled from `urllib.parse.urlsplit`: leading control-or-space
characters are dropped, tab/CR/LF removed, then scheme, network location,
fragment and query are split off in that order.  (IPv6 bracket validation
is omitted.) -/
def urlsplitStr (url : String) : SplitUrl :=
  let l0 := (url.toList.dropWhile (fun c => c.toNat ≤ 32)).filter
    (fun c => ¬ (c = '\t' ∨ c = '\r' ∨ c = '\n'))
  let schemeSplit := splitSchemeChars l0
  let sch := match schemeSplit with
    | some (pre, _) => String.mk (pre.map lowerChar)
    | Option.none => ""
  let l1 := match schemeSplit with
    | some (_, after) => after
    | Option.none => l0
  let hasNetloc := l1.take 2 = ['/', '/']
  let nl := if hasNetloc then (l1.drop 2).takeWhile urlNotDelim else []
  let l2 := if hasNetloc then (l1.drop 2).dropWhile urlNotDelim else l1
  let l3 := l2.takeWhile (fun c => c ≠ '#')
  let frag := match l2.dropWhile (fun c => c ≠ '#') with
    | [] => []
    | _ :: t => t
  let l4 := l3.takeWhile (fun c => c ≠ '?')
  let q := match l3.dropWhile (fun c => c ≠ '?') with
    | [] => []
    | _ :: t => t
  ⟨sch, String.mk nl, String.mk l4, String.mk q, String.mk frag⟩

/-- Schemes whose URLs may use parameters (`urllib.parse.uses_params`). -/
def usesParams : List String :=
  ["", "ftp", "hdl", "prospero", "http", "imap", "https", "shttp", "rtsp",
   "rtspu", "sip", "sips", "mms", "sftp", "tel"]

/-- Schemes that support relative references (`urllib.parse.uses_relative`). -/
def usesRelative : List String :=
  ["", "ftp", "http", "gopher", "nntp", "imap", "wais", "file", "https",
   "shttp", "mms", "prospero", "rtsp", "rtspu", "sftp", "svn", "svn+ssh",
   "ws", "wss"]

/-- Schemes that use a network location (`urllib.parse.uses_netloc`). -/
def usesNetloc : List String :=
  ["", "ftp", "http", "gopher", "nntp", "telnet", "imap", "wais", "file",
   "mms", "https", "shttp", "snews", "prospero", "rtsp", "rtspu", "rsync",
   "svn", "svn+ssh", "sftp", "nfs", "git", "git+ssh", "ws", "wss",
   "itms-services"]

/-- `urllib.parse._splitparams` applied to a path: cut at the first
semicolon in the final segment. -/
def paramCut (l : List Char) : List Char :=
  if l.contains '/' then
    let revSpan := l.reverse.span (fun c => c ≠ '/')
    let lastSeg := revSpan.1.reverse
    let pre := revSpan.2.reverse
    if lastSeg.contains ';' then pre ++ lastSeg.takeWhile (fun c => c ≠ ';') else l
  else l.takeWhile (fun c => c ≠ ';')

/-- The `.path` attribute of `urllib.parse.urlparse(url)`: the split path
with parameters removed for the schemes that use them. -/
def urlparsePath (url : String) : String :=
  let r := urlsplitStr url
  if r.scheme ∈ usesParams ∧ r.path.toList.contains ';' then
    String.mk (paramCut r.path.toList)
  else r.path

/-- `urllib.parse.urlunsplit`. -/
def urlunsplit (r : SplitUrl) : String :=
  let url0 := r.path
  let url1 :=
    if r.netloc ≠ "" ∨ (url0 ≠ "" ∧ url0.toList.take 2 = ['/', '/']) then
      "//" ++ r.netloc ++
        (if url0 ≠ "" ∧ url0.toList.head? ≠ some '/' then "/" ++ url0 else url0)
    else url0
  let url2 := if r.scheme ≠ "" then r.scheme ++ ":" ++ url1 else url1
  let url3 := if r.query ≠ "" then url2 ++ "?" ++ r.query else url2
  if r.fragment ≠ "" then url3 ++ "#" ++ r.fragment else url3

/-- Interior-segment filter of `urljoin`: `segments[1:-1] =
filter(None, segments[1:-1])`, applied here to `segments[1:]` (the last
element is kept even when empty). -/
def filterMidSegs : List String → List String
  | [] => []
  | [last] => [last]
  | s :: t :: rest =>
      if s = "" then filterMidSegs (t :: rest) else s :: filterMidSegs (t :: rest)

/-- Dot-segment resolution loop of `urljoin`. -/
def resolveSegs (segments : List String) : List String :=
  let r := segments.foldl (fun acc seg =>
    if seg = ".." then acc.dropLast
    else if seg = "." then acc
    else acc ++ [seg]) []
  if segments.getLast? = some "." ∨ segments.getLast? = some ".." then r ++ [""] else r

/-- Modelled from `urllib.parse.urljoin`.  Parameter (`;`) splitting is
omitted: every call site in the connector passes a base ending in `/`,
whose final segment is empty, so parameter splitting never fires there. -/
def urljoin (base url : String) : String :=
  if base = "" then url
  else if url = "" then base
  else
    let b := urlsplitStr base
    let u := urlsplitStr url
    let scheme := if u.scheme = "" then b.scheme else u.scheme
    if scheme ≠ b.scheme ∨ ¬ scheme ∈ usesRelative then url
    else if scheme ∈ usesNetloc ∧ u.netloc ≠ "" then
      urlunsplit ⟨scheme, u.netloc, u.path, u.query, u.fragment⟩
    else
      let netloc := if scheme ∈ usesNetloc then b.netloc else u.netloc
      if u.path = "" then
        urlunsplit ⟨scheme, netloc, b.path,
          (if u.query = "" then b.query else u.query), u.fragment⟩
      else
        let baseParts0 := (splitOnCharList '/' b.path.toList).map String.mk
        let baseParts :=
          if baseParts0.getLast? ≠ some "" then baseParts0.dropLast else baseParts0
        let segments :=
          if u.path.toList.head? = some '/' then splitOnChar '/' u.path
          else
            match baseParts ++ splitOnChar '/' u.path with
            | s0 :: restSegs => s0 :: filterMidSegs restSegs
            | [] => []
        let newPath0 := joinStrings "/" (resolveSegs segments)
        let newPath := if newPath0 = "" then "/" else newPath0
        urlunsplit ⟨scheme, netloc, newPath, u.query, u.fragment⟩

/-- The mismatched-bracket test `urlsplit` applies to the network location:
`ValueError("Invalid IPv6 URL")` is raised when one of `[` and `]` occurs
in it without the other. -/
def badBrackets (nl : List Char) : Bool :=
  (nl.contains '[' && !nl.contains ']') || (nl.contains ']' && !nl.contains '[')

/-- `urllib.parse.urlsplit` including its `Invalid IPv6 URL` failure. -/
def urlsplitE (url : String) : Except String SplitUrl :=
  if badBrackets (urlsplitStr url).netloc.toList then .error "Invalid IPv6 URL"
  else .ok (urlsplitStr url)

/-- `urllib.parse.urljoin` including the `Invalid IPv6 URL` failures of the
two splits it performs (the base is parsed first, after the two
empty-argument short-circuits). -/
def urljoinE (base url : String) : Except String String :=
  if base = "" then .ok url
  else if url = "" then .ok base
  else
    match urlsplitE base with
    | .error e => .error e
    | .ok _ =>
        match urlsplitE url with
        | .error e => .error e
        | .ok _ => .ok (urljoin base url)

/-- `urllib.parse.urlparse(url).path` including the split failure. -/
def urlparsePathE (url : String) : Except String String :=
  match urlsplitE url with
  | .error e => .error e
  | .ok _ => .ok (urlparsePath url)

/-- Client state built by `MCPOConnector.__init__`. -/
structure MCPOConnector where
  base_url : String
  server : String
  tool : Option String
  api_key : Option String
  query_param : Option String
  static_args : PyDict
  result_path_tokens : List String
  timeout : Option Rat
  openapi_url : Option String

/-- The `query_param` keyword's default value in `MCPOConnector.__init__`. -/
def defaultQueryParam : Option String := some "query"

/-- The `timeout` keyword's default value in `MCPOConnector.__init__`. -/
def defaultTimeout : Option Rat := some 30

/-- Result-path tokenisation in `__init__`:
`[token.strip() for token in result_path.split(".") if token.strip()]`,
guarded by `if result_path else []`. -/
def resultPathTokens (result_path : Option String) : List String :=
  match result_path with
  | Option.none => []
  | some s =>
      if s = "" then []
      else (splitOnChar '.' s).filterMap (fun t =>
        if stripWS t = "" then Option.none else some (stripWS t))

/-- The default discovery address branch of `__init__`:
`urljoin(f"{server_base}/", "openapi.json") if server_base else None`; the
join can raise `Invalid IPv6 URL`. -/
def defaultOpenapiE (serverBase : String) : Except String (Option String) :=
  if serverBase ≠ "" then
    match urljoinE (serverBase ++ "/") "openapi.json" with
    | .error e => .error e
    | .ok u => .ok (some u)
  else .ok Option.none

/-- The combined server base `__init__` computes before the discovery
address: `f"{base}/{server}"` on the trimmed fields, with trailing slashes
trimmed again. -/
def serverBaseOf (base_url server : String) : String :=
  let base := rstripSlash base_url
  let srv := stripSlash server
  rstripSlash (if srv ≠ "" then base ++ "/" ++ srv else base)

/-- The discovery-address computation at the end of `__init__` (both
`urljoin` calls can raise `Invalid IPv6 URL`). -/
def initOpenapi (serverBase : String) (openapi_url : Option String) :
    Except String (Option String) :=
  match openapi_url with
  | some ou =>
      if ou ≠ "" then
        let candidate := stripWS ou
        if candidate ≠ "" then
          if startsWithStr candidate "http://" ∨ startsWithStr candidate "https://" then
            .ok (some candidate)
          else
            match urljoinE (serverBase ++ "/") candidate with
            | .error e => .error e
            | .ok u => .ok (some u)
        else .ok Option.none
      else defaultOpenapiE serverBase
  | Option.none => defaultOpenapiE serverBase

/-- `MCPOConnector.__init__`; `ValueError` is embedded as `Except.error`. -/
def MCPOConnector.init (base_url server : String) (tool : Option String)
    (api_key : Option String) (query_param : Option String)
    (static_args : Option PyDict) (result_path : Option String)
    (timeout : Option Rat) (openapi_url : Option String) :
    Except String MCPOConnector :=
  if base_url = "" then .error "MCPO base URL cannot be empty"
  else if server = "" then .error "MCPO server identifier cannot be empty"
  else
    let base := rstripSlash base_url
    let srv := stripSlash server
    let toolRes : Except String (Option String) :=
      match tool with
      | Option.none => .ok Option.none
      | some t =>
          let st := stripWS t
          if st = "" then .error "MCPO tool name cannot be empty"
          else .ok (some (stripSlash st))
    match toolRes with
    | .error e => .error e
    | .ok toolV =>
      let apiKey := match api_key with
        | some s => if s ≠ "" then some (stripWS s) else Option.none
        | Option.none => Option.none
      let queryParam := match query_param with
        | some s => if s ≠ "" then some (stripWS s) else Option.none
        | Option.none => Option.none
      let staticArgs := static_args.getD []
      let tokens := resultPathTokens result_path
      let serverBase1 := if srv ≠ "" then base ++ "/" ++ srv else base
      let serverBase := rstripSlash serverBase1
      match initOpenapi serverBase openapi_url with
      | .error e => .error e
      | .ok openapi =>
          .ok ⟨base, srv, toolV, apiKey, queryParam, staticArgs, tokens, timeout, openapi⟩

/-- The request body built at the top of `search` (`payload.update(...)`
embedded as a left fold of key assignment). -/
def buildPayload (c : MCPOConnector) (query : String) : PyDict :=
  let payload : PyDict := []
  let payload :=
    if !c.static_args.isEmpty then
      c.static_args.foldl (fun acc kv => setKey acc kv.1 kv.2) payload
    else payload
  match c.query_param with
  | some qp => if qp ≠ "" then setKey payload qp (.str query) else payload
  | Option.none => payload

/-- The result-path walk of `_extract_result_container`; `Option.none`
records the early `return None` exits, while a missing dictionary key
continues the walk carrying Python `None`.  The digit test is the ASCII
restriction of `str.isdigit()`. -/
def walkResultPath : List String → PyVal → Option PyVal
  | [], v => some v
  | token :: ts, v =>
      match v with
      | .dict kvs => walkResultPath ts (dictGet kvs token)
      | .list xs =>
          if isDigitStr token then
            match xs.get? (natOfDigits token.toList) with
            | some w => walkResultPath ts w
            | Option.none => Option.none
          else Option.none
      | _ => Option.none

/-- The conventional-key probe at the end of `_extract_result_container`. -/
def probeKeys : List String → PyDict → PyVal
  | [], kvs => .dict kvs
  | k :: ks, kvs =>
      match getKey kvs k with
      | some (.list xs) => .list xs
      | _ => probeKeys ks kvs

/-- `MCPOConnector._extract_result_container`. -/
def extractResultContainer (tokens : List String) (data : PyVal) : PyVal :=
  match walkResultPath tokens data with
  | Option.none => .none
  | some (.dict kvs) => probeKeys ["results", "items", "data", "documents"] kvs
  | some v => v

/-- The pure tail of `search`: extraction and normalization of an
already-decoded response body. -/
def searchResults (c : MCPOConnector) (responseData : PyVal) : List MCPOResult :=
  match extractResultContainer c.result_path_tokens responseData with
  | .list xs => normalizeFrom 1 xs
  | .none => []
  | v => [normalizeItem v 1]

/-- `MCPOConnector.with_tool`. -/
def withTool (c : MCPOConnector) (tool : String) : Except String MCPOConnector :=
  MCPOConnector.init c.base_url c.server (some tool) c.api_key c.query_param
    (some c.static_args)
    (if !c.result_path_tokens.isEmpty then
        some (joinStrings "." c.result_path_tokens)
      else Option.none)
    c.timeout c.openapi_url

/-- The configuration check at the top of `list_tools`
(`if not self.openapi_url: raise ValueError(...)`); the network fetch
itself is outside the embedding. -/
def listToolsGuard (c : MCPOConnector) : Except String Unit :=
  match c.openapi_url with
  | Option.none => .error "MCPO OpenAPI URL is not configured"
  | some u =>
      if u = "" then .error "MCPO OpenAPI URL is not configured" else .ok ()

/-- Path segmentation in `_extract_tools_from_openapi`:
`raw_path.strip("/").split("/")`, keeping segments that are non-empty and
do not start with a brace (path-parameter placeholders). -/
def toolPathSegs (raw : String) : List String :=
  (splitOnChar '/' (stripSlash raw)).filter
    (fun seg => seg ≠ "" ∧ ¬ startsWithStr seg (String.mk [lbrace]))

/-- Non-empty `/`-separated segments of a string. -/
def nonEmptySegs (s : String) : List String :=
  (splitOnChar '/' s).filter (fun seg => seg ≠ "")

/-- Base-path segments contributed by one entry of the discovery
document's `servers` list. -/
def serverEntrySegs (entry : PyVal) : Option (List String) :=
  match entry with
  | .dict kvs =>
      match getKey kvs "url" with
      | some (.str u) =>
          let p0 := urlparsePath u
          let p := if p0 = "" then (if startsWithStr u "/" then u else "/" ++ u) else p0
          let segs := nonEmptySegs p
          if segs ≠ [] then some segs else Option.none
      | _ => Option.none
  | _ => Option.none

/-- The first-occurrence deduplication loop used twice in
`_extract_tools_from_openapi` (`if x not in acc: acc.append(x)`). -/
def dedupLoop {α : Type} [DecidableEq α] (acc : List α) : List α → List α
  | [] => acc
  | x :: xs => if x ∈ acc then dedupLoop acc xs else dedupLoop (acc ++ [x]) xs

/-- First-occurrence deduplication. -/
def dedupKeep {α : Type} [DecidableEq α] (l : List α) : List α :=
  dedupLoop [] l

/-- The deduplicated base-path list of `_extract_tools_from_openapi`: the
server identifier's segments first, then each declared server URL's path
segments in document order. -/
def basePathsOf (serverPre : String) (payload : PyDict) : List (List String) :=
  let fromServer : List (List String) :=
    if serverPre ≠ "" then [nonEmptySegs serverPre] else []
  let fromEntries : List (List String) :=
    match getKey payload "servers" with
    | some (.list entries) => entries.filterMap serverEntrySegs
    | _ => []
  dedupKeep (fromServer ++ fromEntries)

/-- The per-path candidate computation inside the loop of
`_extract_tools_from_openapi`; `Option.none` records a `continue`. -/
def candidateOf (serverPre : String) (basePaths : List (List String))
    (rawPath : String) (ops : PyVal) : Option String :=
  match ops with
  | .dict opKvs =>
      let segments := toolPathSegs rawPath
      if segments = [] then Option.none
      else
        let normalized :=
          match basePaths.find? (fun bp => !bp.isEmpty && bp.isPrefixOf segments) with
          | some bp => segments.drop bp.length
          | Option.none => segments
        if normalized = [] then Option.none
        else if !(opKvs.any (fun kv => lowerStr kv.1 == "post")) then Option.none
        else
          match normalized.getLast? with
          | some cand =>
              if cand = "" ∨ cand = serverPre then Option.none
              else
                let candKey := stripWS cand
                let lowered := lowerStr candKey
                if lowered = "openapi.json" ∨ lowered = "openapi" ∨ lowered = "docs" then
                  Option.none
                else some candKey
          | Option.none => Option.none
  | _ => Option.none

/-- The main loop of `_extract_tools_from_openapi` over `paths.items()`,
carrying the `seen` set and the `tools` accumulator. -/
def toolsLoop (serverPre : String) (basePaths : List (List String)) :
    List (String × PyVal) → List String → List String → List String
  | [], _, tools => tools
  | (rawPath, ops) :: rest, seen, tools =>
      match candidateOf serverPre basePaths rawPath ops with
      | some name =>
          if name ∈ seen then toolsLoop serverPre basePaths rest seen tools
          else toolsLoop serverPre basePaths rest (seen ++ [name]) (tools ++ [name])
      | Option.none => toolsLoop serverPre basePaths rest seen tools

/-- Whether the `servers` loop of `_extract_tools_from_openapi` reaches a
URL whose parse raises `Invalid IPv6 URL` (entries that are not mappings
or lack a string `url` are skipped before parsing). -/
def serversRaise (payload : PyDict) : Bool :=
  match getKey payload "servers" with
  | some (.list entries) =>
      entries.any (fun e =>
        match e with
        | .dict kvs =>
            match getKey kvs "url" with
            | some (.str u) => badBrackets (urlsplitStr u).netloc.toList
            | _ => false
        | _ => false)
  | _ => false

/-- `MCPOConnector._extract_tools_from_openapi` (taking the client's
`server` field as its first argument); the `urlparse` of a declared server
URL can raise `Invalid IPv6 URL`, embedded as `Except.error`. -/
def extractToolsFromOpenapi (server : String) (payload : PyVal) :
    Except String (List String) :=
  match payload with
  | .dict topKvs =>
      match getKey topKvs "paths" with
      | some (.dict pathKvs) =>
          if serversRaise topKvs then .error "Invalid IPv6 URL"
          else
            let serverPre := stripSlash server
            .ok (toolsLoop serverPre (basePathsOf serverPre topKvs) pathKvs [] [])
      | _ => .ok []
  | _ => .ok []

/-- JSON whitespace skip. -/
def jsonSkipWS (l : List Char) : List Char :=
  l.dropWhile (fun c => c = ' ' ∨ c = '\t' ∨ c = '\n' ∨ c = '\r')

/-- Value of a hexadecimal digit. -/
def hexVal (c : Char) : Option Nat :=
  if c.isDigit then some (c.toNat - 48)
  else if 'a' ≤ c ∧ c ≤ 'f' then some (c.toNat - 87)
  else if 'A' ≤ c ∧ c ≤ 'F' then some (c.toNat - 55)
  else Option.none

/-- Parse a JSON string body after the opening quote (modelled escapes:
the standard single-character escapes and `\uXXXX`). -/
def parseJsonStringBody : Nat → List Char → Option (List Char × List Char)
  | 0, _ => Option.none
  | fuel + 1, l =>
    match l with
    | [] => Option.none
    | '"' :: rest => some ([], rest)
    | '\\' :: e :: rest =>
        let dec : Option (List Char × List Char) :=
          if e = '"' then some (['"'], rest)
          else if e = '\\' then some (['\\'], rest)
          else if e = '/' then some (['/'], rest)
          else if e = 'n' then some (['\n'], rest)
          else if e = 't' then some (['\t'], rest)
          else if e = 'r' then some (['\r'], rest)
          else if e = 'b' then some ([Char.ofNat 8], rest)
          else if e = 'f' then some ([Char.ofNat 12], rest)
          else if e = 'u' then
            match rest with
            | h1 :: h2 :: h3 :: h4 :: rest2 =>
                match hexVal h1, hexVal h2, hexVal h3, hexVal h4 with
                | some a, some b, some c, some d =>
                    some ([Char.ofNat (((a * 16 + b) * 16 + c) * 16 + d)], rest2)
                | _, _, _, _ => Option.none
            | _ => Option.none
          else Option.none
        match dec with
        | some (cs, rest2) =>
            (parseJsonStringBody fuel rest2).map (fun r => (cs ++ r.1, r.2))
        | Option.none => Option.none
    | c :: rest =>
        if c.toNat < 32 then Option.none
        else (parseJsonStringBody fuel rest).map (fun r => (c :: r.1, r.2))

/-- Parse a JSON number (modelled: optional minus, digits, optional
fraction and exponent; an integer literal yields `PyVal.int`, anything
else `PyVal.float`). -/
def parseJsonNumber (l : List Char) : Option (PyVal × List Char) :=
  let (neg, l1) :=
    match l with
    | '-' :: t => (true, t)
    | _ => (false, l)
  let ds := l1.takeWhile isDigitChar
  let r1 := l1.dropWhile isDigitChar
  if ds.isEmpty then Option.none
  else
    let (hasDot, fracDs, r2) :=
      match r1 with
      | '.' :: t => (true, t.takeWhile isDigitChar, t.dropWhile isDigitChar)
      | _ => (false, ([] : List Char), r1)
    if hasDot ∧ fracDs.isEmpty then Option.none
    else
      let (hasExp, expPart) :=
        match r2 with
        | 'e' :: t => (true, t)
        | 'E' :: t => (true, t)
        | _ => (false, r2)
      let (expNeg, e1) :=
        match expPart with
        | '-' :: t => (true, t)
        | '+' :: t => (false, t)
        | _ => (false, expPart)
      let eds := e1.takeWhile isDigitChar
      let r3 := e1.dropWhile isDigitChar
      if hasExp ∧ eds.isEmpty then Option.none
      else
        let rest := if hasExp then r3 else r2
        if ¬ hasDot ∧ ¬ hasExp then
          let v : Int := natOfDigits ds
          some (.int (if neg then -v else v), rest)
        else
          let mant : Rat :=
            (natOfDigits ds : Rat) + (natOfDigits fracDs : Rat) / ((10 : Rat) ^ fracDs.length)
          let scaled : Rat :=
            if hasExp then
              if expNeg then mant / ((10 : Rat) ^ natOfDigits eds)
              else mant * ((10 : Rat) ^ natOfDigits eds)
            else mant
          some (.float (if neg then -scaled else scaled), rest)

mutual

/-- Modelled from the recursive-descent JSON value parser behind
`json.loads`, driven by a fuel argument (one unit per nesting step). -/
def parseJsonVal : Nat → List Char → Option (PyVal × List Char)
  | 0, _ => Option.none
  | fuel + 1, l =>
    match jsonSkipWS l with
    | [] => Option.none
    | c :: r =>
        if c = 'n' then
          match r with
          | 'u' :: 'l' :: 'l' :: r2 => some (.none, r2)
          | _ => Option.none
        else if c = 't' then
          match r with
          | 'r' :: 'u' :: 'e' :: r2 => some (.bool true, r2)
          | _ => Option.none
        else if c = 'f' then
          match r with
          | 'a' :: 'l' :: 's' :: 'e' :: r2 => some (.bool false, r2)
          | _ => Option.none
        else if c = '"' then
          (parseJsonStringBody (fuel + 1) r).map (fun p => (.str (String.mk p.1), p.2))
        else if c = '[' then
          match jsonSkipWS r with
          | ']' :: r2 => some (.list [], r2)
          | r2 =>
              match parseJsonVal fuel r2 with
              | some (v, r3) =>
                  (parseJsonItems fuel r3).map (fun p => (.list (v :: p.1), p.2))
              | Option.none => Option.none
        else if c = lbrace then
          match jsonSkipWS r with
          | d :: r2 =>
              if d = rbrace then some (.dict [], r2)
              else
                match parseJsonPair fuel (d :: r2) with
                | some (kv, r3) =>
                    (parseJsonFields fuel r3).map (fun p => (.dict (kv :: p.1), p.2))
                | Option.none => Option.none
          | [] => Option.none
        else parseJsonNumber (c :: r)

/-- Continuation of a JSON array after one parsed item. -/
def parseJsonItems : Nat → List Char → Option (List PyVal × List Char)
  | 0, _ => Option.none
  | fuel + 1, l =>
    match jsonSkipWS l with
    | ']' :: r => some ([], r)
    | ',' :: r =>
        match parseJsonVal fuel r with
        | some (v, r2) => (parseJsonItems fuel r2).map (fun p => (v :: p.1, p.2))
        | Option.none => Option.none
    | _ => Option.none

/-- One `"key": value` pair of a JSON object. -/
def parseJsonPair : Nat → List Char → Option ((String × PyVal) × List Char)
  | 0, _ => Option.none
  | fuel + 1, l =>
    match jsonSkipWS l with
    | '"' :: r =>
        match parseJsonStringBody (fuel + 1) r with
        | some (k, r2) =>
            match jsonSkipWS r2 with
            | ':' :: r3 =>
                match parseJsonVal fuel r3 with
                | some (v, r4) => some ((String.mk k, v), r4)
                | Option.none => Option.none
            | _ => Option.none
        | Option.none => Option.none
    | _ => Option.none

/-- Continuation of a JSON object after one parsed pair. -/
def parseJsonFields : Nat → List Char → Option (PyDict × List Char)
  | 0, _ => Option.none
  | fuel + 1, l =>
    match jsonSkipWS l with
    | c :: r =>
        if c = rbrace then some ([], r)
        else if c = ',' then
          match parseJsonPair fuel r with
          | some (kv, r2) => (parseJsonFields fuel r2).map (fun p => (kv :: p.1, p.2))
          | Option.none => Option.none
        else Option.none
    | [] => Option.none

end

/-- Modelled from `json.loads`: parse one JSON document and require only
whitespace to follow. -/
def jsonLoads (s : String) : Option PyVal :=
  match parseJsonVal (s.length + 1) s.toList with
  | some (v, rest) => if jsonSkipWS rest = [] then some v else Option.none
  | Option.none => Option.none

/-- Modelled from Python `float(str)`: optional sign, decimal digits with
optional fraction and exponent (`inf`/`nan`/underscore spellings omitted). -/
def parseFloatChars (chars : List Char) : Option Rat :=
  let l := stripWSList chars
  let (neg, l1) :=
    match l with
    | '-' :: t => (true, t)
    | '+' :: t => (false, t)
    | _ => (false, l)
  let ds := l1.takeWhile isDigitChar
  let r1 := l1.dropWhile isDigitChar
  let (fracDs, r2) :=
    match r1 with
    | '.' :: t => (t.takeWhile isDigitChar, t.dropWhile isDigitChar)
    | _ => (([] : List Char), r1)
  if ds.isEmpty ∧ fracDs.isEmpty then Option.none
  else
    let (hasExp, expPart) :=
      match r2 with
      | 'e' :: t => (true, t)
      | 'E' :: t => (true, t)
      | _ => (false, r2)
    let (expNeg, e1) :=
      match expPart with
      | '-' :: t => (true, t)
      | '+' :: t => (false, t)
      | _ => (false, expPart)
    let eds := e1.takeWhile isDigitChar
    let r3 := e1.dropWhile isDigitChar
    if hasExp ∧ eds.isEmpty then Option.none
    else
      let rest := if hasExp then r3 else r2
      if ¬ rest.isEmpty then Option.none
      else
        let mant : Rat :=
          (natOfDigits ds : Rat) + (natOfDigits fracDs : Rat) / ((10 : Rat) ^ fracDs.length)
        let scaled : Rat :=
          if hasExp then
            if expNeg then mant / ((10 : Rat) ^ natOfDigits eds)
            else mant * ((10 : Rat) ^ natOfDigits eds)
          else mant
        some (if neg then -scaled else scaled)

/-- Modelled from Python `float(value)` as the validator applies it to
`MCPO_TIMEOUT`; `TypeError`/`ValueError` map to `Option.none`. -/
def pyFloat : PyVal → Option Rat
  | .float q => some q
  | .int n => some (n : Rat)
  | .bool b => some (if b then 1 else 0)
  | .str s => parseFloatChars s.toList
  | _ => Option.none

/-- Python `v in (None, "")`, the validator's sentinel test. -/
def isNoneOrEmptyStr : PyVal → Bool
  | .none => true
  | .str s => s == ""
  | _ => false

/-- Required configuration keys of the MCPO connector kind. -/
def mcpoRequiredKeys : List String := ["MCPO_BASE_URL", "MCPO_SERVER"]

/-- Optional configuration keys of the MCPO connector kind. -/
def mcpoOptionalKeys : List String :=
  ["MCPO_API_KEY", "MCPO_QUERY_PARAM", "MCPO_STATIC_ARGS", "MCPO_RESULT_PATH",
   "MCPO_TIMEOUT", "MCPO_OPENAPI_URL", "MCPO_TOOLS", "MCPO_TOOL"]

/-- The keys of a configuration dictionary, in order. -/
def keysOf (c : PyDict) : List String :=
  c.map Prod.fst

/-- `", ".join(sorted(keys))` as the validator's error messages build it. -/
def sortedJoin (ks : List String) : String :=
  String.intercalate ", " (sortStrings ks)

/-- Unexpected-key check of the validator's MCPO branch. -/
def mcpoCheckUnexpected (config : PyDict) : Except String PyDict :=
  let allowed := mcpoRequiredKeys ++ mcpoOptionalKeys
  let unexpected := dedupKeep ((keysOf config).filter (fun k => k ∉ allowed))
  if unexpected ≠ [] then
    .error ("For MCPO_CONNECTOR connector type, config contains unexpected keys: "
      ++ sortedJoin unexpected)
  else .ok config

/-- Missing-required-key check of the validator's MCPO branch. -/
def mcpoCheckMissing (config : PyDict) : Except String PyDict :=
  let missing := mcpoRequiredKeys.filter (fun k => (getKey config k).isNone)
  if missing ≠ [] then
    .error ("Missing required MCPO connector config values: " ++ sortedJoin missing)
  else .ok config

/-- `MCPO_BASE_URL` sanitization: a non-blank string, stripped of
whitespace and then of trailing slashes. -/
def mcpoBaseStage (config : PyDict) : Except String PyDict :=
  match getKey config "MCPO_BASE_URL" with
  | some (.str s) =>
      if stripWS s = "" then .error "MCPO_BASE_URL must be a non-empty string"
      else .ok (setKey config "MCPO_BASE_URL" (.str (rstripSlash (stripWS s))))
  | _ => .error "MCPO_BASE_URL must be a non-empty string"

/-- `MCPO_SERVER` sanitization: a non-blank string, stripped of whitespace
and then of enclosing slashes. -/
def mcpoServerStage (config : PyDict) : Except String PyDict :=
  match getKey config "MCPO_SERVER" with
  | some (.str s) =>
      if stripWS s = "" then .error "MCPO_SERVER must be a non-empty string"
      else .ok (setKey config "MCPO_SERVER" (.str (stripSlash (stripWS s))))
  | _ => .error "MCPO_SERVER must be a non-empty string"

/-- `MCPO_OPENAPI_URL` sanitization: blank normalized to absent, otherwise
a stripped string. -/
def mcpoOpenapiStage (config : PyDict) : Except String PyDict :=
  let v := dictGet config "MCPO_OPENAPI_URL"
  if isNoneOrEmptyStr v then .ok (popKey config "MCPO_OPENAPI_URL")
  else
    match v with
    | .str s =>
        let st := stripWS s
        if st ≠ "" then .ok (setKey config "MCPO_OPENAPI_URL" (.str st))
        else .ok (popKey config "MCPO_OPENAPI_URL")
    | _ => .error "MCPO_OPENAPI_URL must be a string if provided"

/-- `MCPO_STATIC_ARGS` sanitization: a mapping, a JSON-object string, or
blank (normalized to the empty mapping). -/
def mcpoStaticStage (config : PyDict) : Except String PyDict :=
  let v := dictGet config "MCPO_STATIC_ARGS"
  if isNoneOrEmptyStr v then .ok (setKey config "MCPO_STATIC_ARGS" (.dict []))
  else
    match v with
    | .str s =>
        (match jsonLoads s with
         | Option.none => .error "MCPO_STATIC_ARGS must be a valid JSON object string"
         | some (.dict kvs) => .ok (setKey config "MCPO_STATIC_ARGS" (.dict kvs))
         | some _ => .error "MCPO_STATIC_ARGS must decode to a JSON object")
    | .dict kvs => .ok (setKey config "MCPO_STATIC_ARGS" (.dict kvs))
    | _ => .error "MCPO_STATIC_ARGS must be provided as a dictionary"

/-- `MCPO_RESULT_PATH` sanitization: trimmed, dropped when blank. -/
def mcpoResultPathStage (config : PyDict) : Except String PyDict :=
  match dictGet config "MCPO_RESULT_PATH" with
  | .str s =>
      let st := stripWS s
      if st ≠ "" then .ok (setKey config "MCPO_RESULT_PATH" (.str st))
      else .ok (popKey config "MCPO_RESULT_PATH")
  | .none => .ok config
  | _ => .error "MCPO_RESULT_PATH must be a string if provided"

/-- `MCPO_QUERY_PARAM` sanitization: trimmed to `None` when blank. -/
def mcpoQueryParamStage (config : PyDict) : Except String PyDict :=
  let v := dictGet config "MCPO_QUERY_PARAM"
  match v with
  | .str s =>
      let st := stripWS s
      .ok (setKey config "MCPO_QUERY_PARAM" (if st ≠ "" then .str st else .none))
  | _ =>
      if isNoneOrEmptyStr v then .ok config
      else .error "MCPO_QUERY_PARAM must be a string if provided"

/-- `MCPO_TIMEOUT` sanitization: dropped when blank, else coerced with
`float(...)`. -/
def mcpoTimeoutStage (config : PyDict) : Except String PyDict :=
  let v := dictGet config "MCPO_TIMEOUT"
  if isNoneOrEmptyStr v then .ok (popKey config "MCPO_TIMEOUT")
  else
    match pyFloat v with
    | some q => .ok (setKey config "MCPO_TIMEOUT" (.float q))
    | Option.none => .error "MCPO_TIMEOUT must be a number"

/-- The entry-sanitizing loop over a tool list: each entry must be a
non-blank string and is stripped. -/
def sanitizeToolsList : List PyVal → Except String (List String)
  | [] => .ok []
  | x :: xs =>
      match x with
      | .str s =>
          if stripWS s = "" then .error "MCPO_TOOLS entries must be non-empty strings"
          else
            match sanitizeToolsList xs with
            | .ok ts => .ok (stripWS s :: ts)
            | .error e => .error e
      | _ => .error "MCPO_TOOLS entries must be non-empty strings"

/-- `MCPO_TOOLS`/`MCPO_TOOL` sanitization: accept a list or JSON array of
tool names, merge the deprecated singular field, de-duplicate preserving
order, drop when empty. -/
def mcpoToolsStage (config : PyDict) : Except String PyDict :=
  let v := dictGet config "MCPO_TOOLS"
  let sanitized : Except String (List String) :=
    if isNoneOrEmptyStr v then .ok []
    else
      match v with
      | .str s =>
          (match jsonLoads s with
           | Option.none => .error "MCPO_TOOLS must be a JSON array of tool names"
           | some (.list items) => sanitizeToolsList items
           | some _ => .error "MCPO_TOOLS must be a JSON array of tool names")
      | .list items => sanitizeToolsList items
      | _ => .error "MCPO_TOOLS must be provided as a list of strings"
  match sanitized with
  | .error e => .error e
  | .ok ts =>
      let merged :=
        match getKey config "MCPO_TOOL" with
        | some tv =>
            if !isNoneOrEmptyStr tv then
              let toolName := stripWS (pyStr tv)
              ((if toolName ≠ "" then ts ++ [toolName] else ts),
                popKey config "MCPO_TOOL")
            else (ts, config)
        | Option.none => (ts, config)
      let uniqueTools := dedupKeep merged.1
      if uniqueTools ≠ [] then
        .ok (setKey merged.2 "MCPO_TOOLS" (.list (uniqueTools.map PyVal.str)))
      else .ok (popKey merged.2 "MCPO_TOOLS")

/-- The `MCPO_CONNECTOR` branch of
`SearchSourceConnectorBase.validate_config_for_connector_type`. -/
def validateMCPOConfig (config : PyDict) : Except String PyDict := do
  let c ← mcpoCheckUnexpected config
  let c ← mcpoCheckMissing c
  let c ← mcpoBaseStage c
  let c ← mcpoServerStage c
  let c ← mcpoOpenapiStage c
  let c ← mcpoStaticStage c
  let c ← mcpoResultPathStage c
  let c ← mcpoQueryParamStage c
  let c ← mcpoTimeoutStage c
  mcpoToolsStage c

/-! ### Specification-side definitions

The following definitions formalise sentences of the specification (and of
the claims under verification); the theorems below compare them with the
definitions embedded from the source. -/

/-- Whether the value under key `k` is a sequence. -/
def isListAt (kvs : PyDict) (k : String) : Bool :=
  match getKey kvs k with
  | some (.list _) => true
  | _ => false

/-- Spec-side conventional-key probe (claim C1): the value of the first
key among `results`, `items`, `data`, `documents` whose value is a
sequence, else the mapping itself as a single logical item. -/
def specFirstConv (kvs : PyDict) : PyVal :=
  match ["results", "items", "data", "documents"].find? (isListAt kvs) with
  | some k => (getKey kvs k).getD .none
  | Option.none => .dict kvs

/-- Whether a discovery document is a mapping with a `paths` mapping. -/
def hasPathsDict : PyVal → Bool
  | .dict topKvs =>
      match getKey topKvs "paths" with
      | some (.dict _) => true
      | _ => false
  | _ => false

/-- Spec-side base-path list for claim C3: the server identifier's own
segments first, then each declared server URL's path segments in document
order (without the code's deduplication pass, which the claim does not
mention and which cannot change the first match). -/
def specBasePaths (server : String) (payload : PyDict) : List (List String) :=
  (if stripSlash server ≠ "" then [nonEmptySegs (stripSlash server)] else []) ++
  (match getKey payload "servers" with
   | some (.list entries) => entries.filterMap serverEntrySegs
   | _ => [])

/-- Spec-side survival conditions of claim C3 for one path entry: drop
empty and brace-placeholder segments, strip the first matching base-path
prefix, require surviving segments and a declared POST operation, and keep
the final segment unless it is the server identifier or a conventional
non-tool name. -/
def specSurvives (server : String) (basePaths : List (List String))
    (rawPath : String) (ops : PyVal) : Option String :=
  match ops with
  | .dict opKvs =>
      let segs := toolPathSegs rawPath
      let remaining :=
        match basePaths.find? (fun bp => !bp.isEmpty && bp.isPrefixOf segs) with
        | some bp => segs.drop bp.length
        | Option.none => segs
      if remaining = [] then Option.none
      else if ¬ (opKvs.any (fun kv => lowerStr kv.1 == "post")) then Option.none
      else
        match remaining.getLast? with
        | some cand =>
            if cand = stripSlash server ∨ cand = "openapi.json" ∨ cand = "openapi" ∨
                cand = "docs" then Option.none
            else some cand
        | Option.none => Option.none
  | _ => Option.none

/-- Spec-side title derivation of claim C6 (fallback string as the code
builds it): the first truthy value among `title`, `name`, `id`, rendered
with `str(...)`, else the positional fallback. -/
def specTitle (kvs : PyDict) (position : Nat) : String :=
  match [dictGet kvs "title", dictGet kvs "name", dictGet kvs "id"].find? truthy with
  | some v => pyStr v
  | Option.none => "MCPO Result " ++ toString position

/-! ### Proof-support definitions -/

/-- The field values `__init__` stores on its success path, given the
discovery address `op` its `initOpenapi` computation succeeded with. -/
def initFields (b s : String) (tool api qp : Option String) (st : Option PyDict)
    (rp : Option String) (tmo : Option Rat) (op : Option String) : MCPOConnector :=
  { base_url := rstripSlash b
    server := stripSlash s
    tool := tool.map (fun t => stripSlash (stripWS t))
    api_key :=
      match api with
      | some x => if x ≠ "" then some (stripWS x) else Option.none
      | Option.none => Option.none
    query_param :=
      match qp with
      | some x => if x ≠ "" then some (stripWS x) else Option.none
      | Option.none => Option.none
    static_args := st.getD []
    result_path_tokens := resultPathTokens rp
    timeout := tmo
    openapi_url := op }

/-- Decidable fitness of a server base for plain `/`-joining (used by the
amended claim C4): the split of `<base>/` has no query or fragment, a
scheme usable for relative references with a network location whose
brackets are balanced, reassembles to `<base>/`, and a path that ends in a
separator with no empty interior segment and no dot segments. -/
def joinReady (x : String) : Bool :=
  let r := urlsplitStr (x ++ "/")
  let parts := (splitOnCharList '/' r.path.toList).map String.mk
  r.query == "" && r.fragment == "" &&
  decide (r.scheme ∈ usesRelative) && decide (r.scheme ∈ usesNetloc) &&
  (urlunsplit ⟨r.scheme, r.netloc, r.path, "", ""⟩ == x ++ "/") &&
  (parts.getLast? == some "") && !parts.dropLast.isEmpty &&
  parts.dropLast.all (fun seg => seg ≠ "." ∧ seg ≠ "..") &&
  parts.dropLast.tail.all (fun seg => seg ≠ "") &&
  !badBrackets r.netloc.toList

/-- The continuation of the tools stage after list sanitization (proof
support; definitionally equal to the tail of `mcpoToolsStage`). -/
def toolsFinish (c : PyDict) (ts0 : List String) : Except String PyDict :=
  let merged :=
    match getKey c "MCPO_TOOL" with
    | some tv =>
        if !isNoneOrEmptyStr tv then
          ((if stripWS (pyStr tv) ≠ "" then ts0 ++ [stripWS (pyStr tv)] else ts0),
            popKey c "MCPO_TOOL")
        else (ts0, c)
    | Option.none => (ts0, c)
  if dedupKeep merged.1 ≠ [] then
    .ok (setKey merged.2 "MCPO_TOOLS" (.list ((dedupKeep merged.1).map PyVal.str)))
  else .ok (popKey merged.2 "MCPO_TOOLS")

/-! ## Theorems -/

/-! ### Support lemmas -/

theorem probeKeys_eq_find (ks : List String) (kvs : PyDict) :
    probeKeys ks kvs =
      (match ks.find? (isListAt kvs) with
       | some k => (getKey kvs k).getD .none
       | Option.none => .dict kvs) := by
  induction ks with
  | nil => rfl
  | cons k ks ih =>
      unfold probeKeys
      rcases hg : getKey kvs k with _ | v
      · have hl : isListAt kvs k = false := by simp [isListAt, hg]
        simp [List.find?_cons, hl, ih, hg]
      · cases v with
        | list xs =>
            have hl : isListAt kvs k = true := by simp [isListAt, hg]
            simp [List.find?_cons, hl, hg]
        | none =>
            have hl : isListAt kvs k = false := by simp [isListAt, hg]
            simp [List.find?_cons, hl, ih, hg]
        | bool b =>
            have hl : isListAt kvs k = false := by simp [isListAt, hg]
            simp [List.find?_cons, hl, ih, hg]
        | int n =>
            have hl : isListAt kvs k = false := by simp [isListAt, hg]
            simp [List.find?_cons, hl, ih, hg]
        | float q =>
            have hl : isListAt kvs k = false := by simp [isListAt, hg]
            simp [List.find?_cons, hl, ih, hg]
        | str s =>
            have hl : isListAt kvs k = false := by simp [isListAt, hg]
            simp [List.find?_cons, hl, ih, hg]
        | dict d =>
            have hl : isListAt kvs k = false := by simp [isListAt, hg]
            simp [List.find?_cons, hl, ih, hg]

/-! ### Claims C1 and C6 -/

/-- C1: for every response value reached after result-path traversal, a
mapping is probed for the first of the conventional keys `results`,
`items`, `data`, `documents` (in that order) whose value is a sequence and
that value is returned, else the mapping itself as a single logical item;
a sequence is returned unchanged and `search` yields exactly one
normalized record per element, in order. -/
theorem extract_container_spec (tokens : List String) (data v : PyVal)
    (h : walkResultPath tokens data = some v) :
    (∀ kvs, v = .dict kvs → extractResultContainer tokens data = specFirstConv kvs) ∧
    (∀ xs, v = .list xs → extractResultContainer tokens data = .list xs) ∧
    (∀ (xs : List PyVal) (c : MCPOConnector),
      extractResultContainer tokens data = .list xs → c.result_path_tokens = tokens →
        searchResults c data = normalizeFrom 1 xs) := by
  refine ⟨?_, ?_, ?_⟩
  · rintro kvs rfl
    unfold extractResultContainer
    rw [h]
    simpa [specFirstConv] using probeKeys_eq_find ["results", "items", "data", "documents"] kvs
  · rintro xs rfl
    unfold extractResultContainer
    rw [h]
  · intro xs c he hc
    unfold searchResults
    rw [hc, he]

theorem extract_container_spec_witness :
    extractResultContainer ["data"]
      (.dict [("data", .dict [("results",
        .list [.dict [("title", .str "a")], .dict [("title", .str "b")]])])])
      = .list [.dict [("title", .str "a")], .dict [("title", .str "b")]] ∧
    (searchResults
      ⟨"http://h", "s", some "t", Option.none, some "query", [], ["data"], some 30, Option.none⟩
      (.dict [("data", .dict [("results",
        .list [.dict [("title", .str "a")], .dict [("title", .str "b")]])])])).map
        (fun r => r.title) = ["a", "b"] := by
  have h := extract_container_spec ["data"]
    (.dict [("data", .dict [("results",
      .list [.dict [("title", .str "a")], .dict [("title", .str "b")]])])])
    (.dict [("results", .list [.dict [("title", .str "a")], .dict [("title", .str "b")]])])
    (by rfl)
  have he : extractResultContainer ["data"]
      (.dict [("data", .dict [("results",
        .list [.dict [("title", .str "a")], .dict [("title", .str "b")]])])])
      = .list [.dict [("title", .str "a")], .dict [("title", .str "b")]] := by
    rw [h.1 _ rfl]
    rfl
  refine ⟨he, ?_⟩
  rw [h.2.2 [.dict [("title", .str "a")], .dict [("title", .str "b")]]
    ⟨"http://h", "s", some "t", Option.none, some "query", [], ["data"], some 30,
      Option.none⟩ he rfl]
  rfl

/-- C6 (amended): for a mapping item, the record title is `str(...)` of
the first truthy value among `title`, `name`, `id`, else the positional
fallback string `"MCPO Result <position>"`. -/
theorem normalize_title_spec (kvs : PyDict) (position : Nat) :
    (normalizeItem (.dict kvs) position).title = specTitle kvs position := by
  unfold normalizeItem specTitle
  by_cases h1 : truthy (dictGet kvs "title") = true
  · simp [List.find?, pyOr, h1]
  · by_cases h2 : truthy (dictGet kvs "name") = true
    · simp [List.find?, pyOr, h1, h2]
    · by_cases h3 : truthy (dictGet kvs "id") = true
      · simp [List.find?, pyOr, h1, h2, h3]
      · simp [List.find?, pyOr, h1, h2, h3, pyStr]

/-- C6 counterexample: at the empty mapping and position 1 the code's
title is `"MCPO Result 1"`, not the claimed fallback `"Result 1"`. -/
theorem normalize_title_fallback_cex :
    (normalizeItem (.dict []) 1).title = "MCPO Result 1" ∧
    (normalizeItem (.dict []) 1).title ≠ "Result 1" := by
  exact ⟨rfl, by decide⟩



/-! ### Dictionary-operation lemmas -/

theorem getKey_setKey_self (l : PyDict) (k : String) (v : PyVal) :
    getKey (setKey l k v) k = some v := by
  induction l with
  | nil => simp [setKey, getKey]
  | cons kv rest ih =>
      obtain ⟨k0, v0⟩ := kv
      by_cases hk : k0 = k
      · simp [setKey, getKey, hk]
      · simp [setKey, getKey, hk, ih]

theorem getKey_cons (k0 : String) (v0 : PyVal) (l : PyDict) (k : String) :
    getKey ((k0, v0) :: l) k = if k0 = k then some v0 else getKey l k := rfl

theorem getKey_setKey_ne (l : PyDict) (k k' : String) (v : PyVal) (h : k' ≠ k) :
    getKey (setKey l k v) k' = getKey l k' := by
  induction l with
  | nil => simp [setKey, getKey, Ne.symm h]
  | cons kv rest ih =>
      obtain ⟨k0, v0⟩ := kv
      unfold setKey
      by_cases hk : k0 = k
      · rw [if_pos hk]
        have hne : ¬ k0 = k' := fun hh => h (hh.symm.trans hk)
        rw [getKey_cons, if_neg hne, getKey_cons, if_neg hne]
      · rw [if_neg hk]
        by_cases hk' : k0 = k'
        · rw [getKey_cons, if_pos hk', getKey_cons, if_pos hk']
        · rw [getKey_cons, if_neg hk', getKey_cons, if_neg hk']
          exact ih

theorem setKey_absent (l : PyDict) (k : String) (v : PyVal)
    (h : getKey l k = Option.none) : setKey l k v = l ++ [(k, v)] := by
  induction l with
  | nil => rfl
  | cons kv rest ih =>
      obtain ⟨k0, v0⟩ := kv
      unfold getKey at h
      by_cases hk : k0 = k
      · rw [if_pos hk] at h
        exact absurd h (by simp)
      · rw [if_neg hk] at h
        unfold setKey
        rw [if_neg hk, ih h]
        rfl

theorem getKey_append_left_none (a b : PyDict) (k : String)
    (h : getKey a k = Option.none) : getKey (a ++ b) k = getKey b k := by
  induction a with
  | nil => rfl
  | cons kv rest ih =>
      obtain ⟨k0, v0⟩ := kv
      rw [getKey_cons] at h
      by_cases hk : k0 = k
      · rw [if_pos hk] at h
        exact absurd h (by simp)
      · rw [if_neg hk] at h
        show getKey ((k0, v0) :: (rest ++ b)) k = getKey b k
        rw [getKey_cons, if_neg hk]
        exact ih h

theorem foldl_setKey_disjoint : ∀ (l acc : PyDict),
    (l.map Prod.fst).Nodup → (∀ kv ∈ l, getKey acc kv.1 = Option.none) →
    l.foldl (fun acc kv => setKey acc kv.1 kv.2) acc = acc ++ l := by
  intro l
  induction l with
  | nil => intro acc _ _; simp
  | cons kv rest ih =>
      intro acc hnd hdis
      obtain ⟨k, v⟩ := kv
      simp only [List.foldl_cons]
      rw [setKey_absent acc k v (hdis (k, v) (by simp))]
      rw [List.map_cons] at hnd
      have hparts := List.nodup_cons.mp hnd
      have hnd' : (rest.map Prod.fst).Nodup := hparts.2
      have hknm : k ∉ rest.map Prod.fst := hparts.1
      have hdis' : ∀ kv' ∈ rest, getKey (acc ++ [(k, v)]) kv'.1 = Option.none := by
        intro kv' hm
        have hne : kv'.1 ≠ k := by
          intro hcon
          exact hknm (hcon ▸ List.mem_map_of_mem Prod.fst hm)
        rw [getKey_append_left_none _ _ _ (hdis kv' (List.mem_cons_of_mem _ hm))]
        simp [getKey, Ne.symm hne]
      rw [ih (acc ++ [(k, v)]) hnd' hdis']
      simp

/-! ### `__init__` characterization -/

theorem init_err_base (b s : String) (tool api qp : Option String) (st : Option PyDict)
    (rp : Option String) (tmo : Option Rat) (ou : Option String) (hb : b = "") :
    MCPOConnector.init b s tool api qp st rp tmo ou = .error "MCPO base URL cannot be empty" := by
  unfold MCPOConnector.init
  rw [if_pos hb]

theorem init_err_server (b s : String) (tool api qp : Option String) (st : Option PyDict)
    (rp : Option String) (tmo : Option Rat) (ou : Option String) (hb : b ≠ "") (hs : s = "") :
    MCPOConnector.init b s tool api qp st rp tmo ou =
      .error "MCPO server identifier cannot be empty" := by
  unfold MCPOConnector.init
  rw [if_neg hb, if_pos hs]

theorem init_err_tool (b s t : String) (api qp : Option String) (st : Option PyDict)
    (rp : Option String) (tmo : Option Rat) (ou : Option String)
    (hb : b ≠ "") (hs : s ≠ "") (ht : stripWS t = "") :
    MCPOConnector.init b s (some t) api qp st rp tmo ou =
      .error "MCPO tool name cannot be empty" := by
  unfold MCPOConnector.init
  rw [if_neg hb, if_neg hs]
  simp only [ht]
  rfl

theorem init_ok (b s : String) (tool api qp : Option String) (st : Option PyDict)
    (rp : Option String) (tmo : Option Rat) (ou : Option String)
    (hb : b ≠ "") (hs : s ≠ "") (ht : ∀ t, tool = some t → stripWS t ≠ "")
    (op : Option String) (hop : initOpenapi (serverBaseOf b s) ou = .ok op) :
    MCPOConnector.init b s tool api qp st rp tmo ou =
      .ok (initFields b s tool api qp st rp tmo op) := by
  simp only [MCPOConnector.init, initFields]
  rw [if_neg hb, if_neg hs]
  have hsb : rstripSlash (if stripSlash s ≠ "" then rstripSlash b ++ "/" ++ stripSlash s
      else rstripSlash b) = serverBaseOf b s := rfl
  cases tool with
  | none =>
      rw [hsb, hop]
      exact rfl
  | some t =>
      have hne := ht t rfl
      simp only [if_neg hne]
      rw [hsb, hop]
      exact rfl

theorem init_err_openapi (b s : String) (tool api qp : Option String) (st : Option PyDict)
    (rp : Option String) (tmo : Option Rat) (ou : Option String)
    (hb : b ≠ "") (hs : s ≠ "") (ht : ∀ t, tool = some t → stripWS t ≠ "")
    (e : String) (hop : initOpenapi (serverBaseOf b s) ou = .error e) :
    MCPOConnector.init b s tool api qp st rp tmo ou = .error e := by
  simp only [MCPOConnector.init]
  rw [if_neg hb, if_neg hs]
  have hsb : rstripSlash (if stripSlash s ≠ "" then rstripSlash b ++ "/" ++ stripSlash s
      else rstripSlash b) = serverBaseOf b s := rfl
  cases tool with
  | none =>
      rw [hsb, hop]
  | some t =>
      have hne := ht t rfl
      simp only [if_neg hne]
      rw [hsb, hop]

theorem urlsplitE_cases (u : String) :
    urlsplitE u = .error "Invalid IPv6 URL" ∨ urlsplitE u = .ok (urlsplitStr u) := by
  unfold urlsplitE
  by_cases h : badBrackets (urlsplitStr u).netloc.toList = true
  · rw [if_pos h]
    exact Or.inl rfl
  · rw [if_neg h]
    exact Or.inr rfl

theorem urljoinE_openapi (sb : String) :
    (urlsplitE (sb ++ "/") = .error "Invalid IPv6 URL" →
      urljoinE (sb ++ "/") "openapi.json" = .error "Invalid IPv6 URL") ∧
    (∀ r, urlsplitE (sb ++ "/") = .ok r →
      urljoinE (sb ++ "/") "openapi.json" = .ok (urljoin (sb ++ "/") "openapi.json")) := by
  have hbne : ¬ (sb ++ "/" = "") := by
    intro h
    have h2 := congrArg String.length h
    rw [String.length_append] at h2
    simp at h2
    exact absurd h2.2 (by decide)
  constructor
  · intro h
    unfold urljoinE
    rw [if_neg hbne, if_neg (show ¬ (("openapi.json" : String) = "") from by decide), h]
  · intro r h
    unfold urljoinE
    rw [if_neg hbne, if_neg (show ¬ (("openapi.json" : String) = "") from by decide), h]
    rw [show urlsplitE "openapi.json" = .ok (urlsplitStr "openapi.json") from rfl]

theorem initOpenapi_none_empty (sb : String) (hne : ¬ sb ≠ "") :
    initOpenapi sb Option.none = .ok Option.none := by
  simp only [initOpenapi, defaultOpenapiE]
  rw [if_neg hne]

theorem initOpenapi_none_err (sb : String) (hne : sb ≠ "")
    (h : urlsplitE (sb ++ "/") = .error "Invalid IPv6 URL") :
    initOpenapi sb Option.none = .error "Invalid IPv6 URL" := by
  simp only [initOpenapi, defaultOpenapiE]
  rw [if_pos hne, (urljoinE_openapi sb).1 h]

theorem initOpenapi_none_ok (sb : String) (hne : sb ≠ "") (r : SplitUrl)
    (h : urlsplitE (sb ++ "/") = .ok r) :
    initOpenapi sb Option.none = .ok (some (urljoin (sb ++ "/") "openapi.json")) := by
  simp only [initOpenapi, defaultOpenapiE]
  rw [if_pos hne, (urljoinE_openapi sb).2 r h]

theorem init_fields_eq (b s : String) (tool api qp : Option String) (st : Option PyDict)
    (rp : Option String) (tmo : Option Rat) (ou : Option String) (c : MCPOConnector)
    (h : MCPOConnector.init b s tool api qp st rp tmo ou = .ok c) :
    (∃ op, initOpenapi (serverBaseOf b s) ou = .ok op ∧
      c = initFields b s tool api qp st rp tmo op) ∧ b ≠ "" ∧ s ≠ "" := by
  by_cases hb : b = ""
  · rw [init_err_base b s tool api qp st rp tmo ou hb] at h
    exact absurd h (by simp)
  · by_cases hs : s = ""
    · rw [init_err_server b s tool api qp st rp tmo ou hb hs] at h
      exact absurd h (by simp)
    · have ht : ∀ t, tool = some t → stripWS t ≠ "" := by
        intro t htt hws
        rw [htt, init_err_tool b s t api qp st rp tmo ou hb hs hws] at h
        exact absurd h (by simp)
      rcases hop : initOpenapi (serverBaseOf b s) ou with e | op
      · rw [init_err_openapi b s tool api qp st rp tmo ou hb hs ht e hop] at h
        exact absurd h (by simp)
      · rw [init_ok b s tool api qp st rp tmo ou hb hs ht op hop] at h
        exact ⟨⟨op, rfl, (Except.ok.inj h).symm⟩, hb, hs⟩

/-! ### Claims C8, C10, C5 -/

theorem buildPayload_eq (c : MCPOConnector) (q : String)
    (hnd : (c.static_args.map Prod.fst).Nodup) :
    buildPayload c q =
      (match c.query_param with
       | some qp => if qp ≠ "" then setKey c.static_args qp (.str q) else c.static_args
       | Option.none => c.static_args) := by
  have hfold : (if !c.static_args.isEmpty then
      c.static_args.foldl (fun acc kv => setKey acc kv.1 kv.2) ([] : PyDict)
    else ([] : PyDict)) = c.static_args := by
    by_cases he : c.static_args.isEmpty
    · rw [if_neg (by simp [he])]
      rw [List.isEmpty_iff.mp he]
    · rw [if_pos (by simp [he])]
      rw [foldl_setKey_disjoint c.static_args [] hnd (fun kv _ => rfl)]
      rfl
  simp only [buildPayload]
  rw [hfold]

/-- C8: `invoke` builds its body as the static parameter map with, exactly
when a query-parameter name is configured, an added entry mapping that name
to the query string; static keys distinct from the query-parameter name
keep their values, and without a configured query-parameter name the query
string is not included at all. -/
theorem invoke_body_spec (c : MCPOConnector) (q : String)
    (hnd : (c.static_args.map Prod.fst).Nodup) :
    ((c.query_param = Option.none ∨ c.query_param = some "") →
        buildPayload c q = c.static_args) ∧
    (∀ p, c.query_param = some p → p ≠ "" →
      getKey (buildPayload c q) p = some (.str q) ∧
      ∀ k, k ≠ p → getKey (buildPayload c q) k = getKey c.static_args k) := by
  have hb := buildPayload_eq c q hnd
  constructor
  · rintro (hq | hq) <;> rw [hb, hq] <;> simp
  · intro p hp hne
    rw [hb, hp]
    simp only [if_pos hne]
    exact ⟨getKey_setKey_self c.static_args p (.str q),
      fun k hk => getKey_setKey_ne c.static_args p k (.str q) hk⟩

theorem invoke_body_spec_witness :
    buildPayload ⟨"http://h", "s", some "t", Option.none, Option.none,
        [("a", .int 1)], [], some 30, Option.none⟩ "hi" = [("a", .int 1)] ∧
    getKey (buildPayload ⟨"http://h", "s", some "t", Option.none, some "query",
        [("a", .int 1)], [], some 30, Option.none⟩ "hi") "query" = some (.str "hi") ∧
    getKey (buildPayload ⟨"http://h", "s", some "t", Option.none, some "query",
        [("a", .int 1)], [], some 30, Option.none⟩ "hi") "a"
      = getKey [("a", .int 1)] "a" := by
  refine ⟨(invoke_body_spec _ "hi" (by simp)).1 (Or.inl rfl), ?_, ?_⟩
  · exact ((invoke_body_spec _ "hi" (by simp)).2 "query" rfl (by simp)).1
  · exact ((invoke_body_spec _ "hi" (by simp)).2 "query" rfl (by simp)).2 "a" (by simp)

/-- C10: constructed without an explicit query-parameter argument the
query-parameter name defaults to `"query"`, so `invoke` includes the query
string under the key `"query"`; the static-only body arises exactly when
the argument is explicitly `None` or a blank string. -/
theorem default_query_param_spec (b s : String) (tool api qp : Option String)
    (st : Option PyDict) (rp : Option String) (tmo : Option Rat) (ou : Option String)
    (c : MCPOConnector) (h : MCPOConnector.init b s tool api qp st rp tmo ou = .ok c) :
    (qp = defaultQueryParam → c.query_param = some "query" ∧
      ∀ q, getKey (buildPayload c q) "query" = some (.str q)) ∧
    ((c.query_param = Option.none ∨ c.query_param = some "") ↔
      (qp = Option.none ∨ ∃ x, qp = some x ∧ stripWS x = "")) := by
  obtain ⟨⟨op, hop, rfl⟩, -, -⟩ := init_fields_eq b s tool api qp st rp tmo ou c h
  constructor
  · rintro rfl
    have hqp : (initFields b s tool api defaultQueryParam st rp tmo op).query_param
        = some "query" := rfl
    refine ⟨hqp, fun q => ?_⟩
    simp only [buildPayload]
    rw [hqp]
    simp only [if_pos (by decide : ("query" : String) ≠ "")]
    exact getKey_setKey_self _ "query" (.str q)
  · cases qp with
    | none => simp [initFields]
    | some x =>
        by_cases hx : x = ""
        · subst hx
          simp only [initFields]
          constructor
          · intro _
            exact Or.inr ⟨"", rfl, rfl⟩
          · intro _
            exact Or.inl rfl
        · simp only [initFields, if_pos hx]
          constructor
          · rintro (hc | hc)
            · exact absurd hc (by simp)
            · exact Or.inr ⟨x, rfl, by simpa using hc⟩
          · rintro (hc | ⟨y, hy, hws⟩)
            · exact absurd hc (by simp)
            · right
              cases Option.some.inj hy
              simp [hws]

theorem default_query_param_spec_witness :
    MCPOConnector.init "http://h" "s" Option.none Option.none defaultQueryParam
        Option.none Option.none (some 30) Option.none
      = .ok ⟨"http://h", "s", Option.none, Option.none, some "query", [], [],
          some 30, some "http://h/s/openapi.json"⟩ ∧
    (⟨"http://h", "s", Option.none, Option.none, some "query", [], [],
        some 30, some "http://h/s/openapi.json"⟩ : MCPOConnector).query_param
      = some "query" ∧
    getKey (buildPayload ⟨"http://h", "s", Option.none, Option.none, some "query", [], [],
        some 30, some "http://h/s/openapi.json"⟩ "hi") "query" = some (.str "hi") := by
  have h := (default_query_param_spec "http://h" "s" Option.none Option.none
    defaultQueryParam Option.none Option.none (some 30) Option.none
    ⟨"http://h", "s", Option.none, Option.none, some "query", [], [],
      some 30, some "http://h/s/openapi.json"⟩ (by rfl)).1 rfl
  exact ⟨by rfl, h.1, h.2 "hi"⟩

/-- C5 (amended): an explicit whitespace-only, non-empty discovery-address
override leaves the client with no discovery address, construction
succeeds, and only tool discovery later fails with a configuration error.
(An override that is the empty string instead falls back to the default
discovery address.) -/
theorem blank_openapi_override (base server s : String) (api qp : Option String)
    (st : Option PyDict) (rp : Option String) (tmo : Option Rat)
    (hb : base ≠ "") (hs : server ≠ "") (hne : s ≠ "") (hws : stripWS s = "") :
    (MCPOConnector.init base server Option.none api qp st rp tmo (some s)).map
        (fun c => (c.openapi_url, listToolsGuard c))
      = .ok (Option.none, .error "MCPO OpenAPI URL is not configured") := by
  have hop : initOpenapi (serverBaseOf base server) (some s) = .ok Option.none := by
    simp only [initOpenapi]
    rw [if_pos hne, hws]
    rw [if_neg (fun hx => hx rfl)]
  rw [init_ok base server Option.none api qp st rp tmo (some s) hb hs
    (fun t ht => nomatch ht) Option.none hop]
  simp [Except.map, initFields, listToolsGuard]

theorem blank_openapi_override_witness :
    (MCPOConnector.init "http://h" "s" Option.none Option.none (some "query") Option.none
        Option.none (some 30) (some " ")).map (fun c => (c.openapi_url, listToolsGuard c))
      = .ok (Option.none, .error "MCPO OpenAPI URL is not configured") :=
  blank_openapi_override "http://h" "s" " " Option.none (some "query") Option.none
    Option.none (some 30) (by decide) (by decide) (by decide) (by rfl)

/-- C5 counterexample: overriding the discovery address with the empty
string does not leave the client without a discovery address — the default
address is used and tool discovery succeeds its configuration check. -/
theorem empty_openapi_override_cex :
    (MCPOConnector.init "http://h" "s" Option.none Option.none (some "query") Option.none
        Option.none (some 30) (some "")).map
      (fun c => (c.openapi_url, (listToolsGuard c).isOk))
    = .ok (some "http://h/s/openapi.json", true) ∧
    some "http://h/s/openapi.json" ≠ (Option.none : Option String) := by
  exact ⟨rfl, by simp⟩

/-! ### Deduplication lemmas -/

theorem dedupLoop_split {α : Type} [DecidableEq α] : ∀ (n : Nat) (l acc : List α), l.length ≤ n →
    dedupLoop acc l = acc ++ dedupKeep (l.filter (fun x => decide (x ∉ acc))) := by
  intro n
  induction n with
  | zero =>
      intro l acc hl
      rw [List.eq_nil_of_length_eq_zero (Nat.le_zero.mp hl)]
      simp [dedupLoop, dedupKeep]
  | succ n ih =>
      intro l acc hl
      cases l with
      | nil => simp [dedupLoop, dedupKeep]
      | cons x xs =>
          have hlen : xs.length ≤ n := by
            simpa using Nat.le_of_succ_le_succ (by simpa using hl)
          by_cases hx : x ∈ acc
          · rw [show dedupLoop acc (x :: xs) = dedupLoop acc xs from by
              simp [dedupLoop, hx]]
            rw [ih xs acc hlen]
            have : (x :: xs).filter (fun y => decide (y ∉ acc))
                = xs.filter (fun y => decide (y ∉ acc)) := by
              simp [List.filter_cons, hx]
            rw [this]
          · rw [show dedupLoop acc (x :: xs) = dedupLoop (acc ++ [x]) xs from by
              simp [dedupLoop, hx]]
            rw [ih xs (acc ++ [x]) hlen]
            have hfcons : (x :: xs).filter (fun y => decide (y ∉ acc))
                = x :: xs.filter (fun y => decide (y ∉ acc)) := by
              simp [List.filter_cons, hx]
            rw [hfcons]
            have hdk : dedupKeep (x :: xs.filter (fun y => decide (y ∉ acc)))
                = x :: dedupKeep ((xs.filter (fun y => decide (y ∉ acc))).filter
                    (fun y => decide (y ∉ ([x] : List α)))) := by
              show dedupLoop [] (x :: xs.filter (fun y => decide (y ∉ acc))) = _
              rw [show dedupLoop ([] : List α) (x :: xs.filter (fun y => decide (y ∉ acc)))
                  = dedupLoop ([] ++ [x]) (xs.filter (fun y => decide (y ∉ acc))) from by
                simp [dedupLoop]]
              rw [ih (xs.filter (fun y => decide (y ∉ acc))) ([] ++ [x])
                (Nat.le_trans (List.length_filter_le _ _) hlen)]
              rfl
            rw [hdk]
            have hff : (xs.filter (fun y => decide (y ∉ acc))).filter
                  (fun y => decide (y ∉ ([x] : List α)))
                = xs.filter (fun y => decide (y ∉ acc ++ [x])) := by
              rw [List.filter_filter]
              apply List.filter_congr
              intro a _
              simp [List.mem_append, not_or, Bool.and_comm]
            rw [hff]
            simp

theorem dedupKeep_cons {α : Type} [DecidableEq α] (x : α) (xs : List α) :
    dedupKeep (x :: xs) = x :: dedupKeep (xs.filter (fun y => decide (y ≠ x))) := by
  show dedupLoop [] (x :: xs) = _
  rw [show dedupLoop ([] : List α) (x :: xs) = dedupLoop ([] ++ [x]) xs from by
    simp [dedupLoop]]
  rw [dedupLoop_split xs.length xs ([] ++ [x]) (Nat.le_refl _)]
  have : xs.filter (fun y => decide (y ∉ ([] ++ [x] : List α)))
      = xs.filter (fun y => decide (y ≠ x)) := by
    apply List.filter_congr
    intro a _
    simp
  rw [this]
  rfl

theorem find?_filter_ne {α : Type} [DecidableEq α] (p : α → Bool) (x : α) (hpx : p x = false) :
    ∀ xs : List α, (xs.filter (fun y => decide (y ≠ x))).find? p = xs.find? p := by
  intro xs
  induction xs with
  | nil => rfl
  | cons y ys ih =>
      by_cases hyx : y = x
      · subst hyx
        rw [show (y :: ys).filter (fun z => decide (z ≠ y)) =
            ys.filter (fun z => decide (z ≠ y)) from by simp [List.filter_cons]]
        rw [ih]
        rw [List.find?_cons_of_neg _ (by simp [hpx])]
      · rw [show (y :: ys).filter (fun z => decide (z ≠ x)) =
            y :: ys.filter (fun z => decide (z ≠ x)) from by simp [List.filter_cons, hyx]]
        by_cases hpy : p y = true
        · rw [List.find?_cons_of_pos _ hpy, List.find?_cons_of_pos _ hpy]
        · rw [List.find?_cons_of_neg _ (by simpa using hpy),
            List.find?_cons_of_neg _ (by simpa using hpy), ih]

theorem find?_dedupKeep {α : Type} [DecidableEq α] (p : α → Bool) : ∀ (n : Nat) (l : List α),
    l.length ≤ n → (dedupKeep l).find? p = l.find? p := by
  intro n
  induction n with
  | zero =>
      intro l hl
      rw [List.eq_nil_of_length_eq_zero (Nat.le_zero.mp hl)]
      rfl
  | succ n ih =>
      intro l hl
      cases l with
      | nil => rfl
      | cons x xs =>
          have hlen : xs.length ≤ n := by
            simpa using Nat.le_of_succ_le_succ (by simpa using hl)
          rw [dedupKeep_cons]
          by_cases hpx : p x = true
          · rw [List.find?_cons_of_pos _ hpx, List.find?_cons_of_pos _ hpx]
          · have hf : p x = false := by simpa using hpx
            rw [List.find?_cons_of_neg _ (by simpa using hpx),
              List.find?_cons_of_neg _ (by simpa using hpx)]
            rw [ih _ (Nat.le_trans (List.length_filter_le _ _) hlen)]
            exact find?_filter_ne p x hf xs

theorem mem_dedupKeep {α : Type} [DecidableEq α] (a : α) : ∀ (n : Nat) (l : List α),
    l.length ≤ n → a ∈ dedupKeep l → a ∈ l := by
  intro n
  induction n with
  | zero =>
      intro l hl ha
      rw [List.eq_nil_of_length_eq_zero (Nat.le_zero.mp hl)] at ha
      simpa [dedupKeep, dedupLoop] using ha
  | succ n ih =>
      intro l hl ha
      cases l with
      | nil => simpa [dedupKeep, dedupLoop] using ha
      | cons x xs =>
          have hlen : xs.length ≤ n := by
            simpa using Nat.le_of_succ_le_succ (by simpa using hl)
          rw [dedupKeep_cons] at ha
          rcases List.mem_cons.mp ha with rfl | ha
          · exact List.mem_cons_self _ _
          · have := ih _ (Nat.le_trans (List.length_filter_le _ _) hlen) ha
            exact List.mem_cons_of_mem _ (List.mem_of_mem_filter this)

/-! ### Discovery loop structure -/

theorem toolsLoop_eq (sp : String) (bps : List (List String)) :
    ∀ (entries : List (String × PyVal)) (l : List String),
    toolsLoop sp bps entries l l
      = dedupLoop l (entries.filterMap (fun e => candidateOf sp bps e.1 e.2)) := by
  intro entries
  induction entries with
  | nil => intro l; rfl
  | cons e rest ih =>
      intro l
      obtain ⟨rawPath, ops⟩ := e
      show (match candidateOf sp bps rawPath ops with
        | some name =>
            if name ∈ l then toolsLoop sp bps rest l l
            else toolsLoop sp bps rest (l ++ [name]) (l ++ [name])
        | Option.none => toolsLoop sp bps rest l l) = _
      rcases hc : candidateOf sp bps rawPath ops with _ | name
      · simpa [List.filterMap_cons, hc] using ih l
      · simp only [List.filterMap_cons, hc]
        by_cases hm : name ∈ l
        · rw [if_pos hm]
          rw [show dedupLoop l (name :: rest.filterMap (fun e => candidateOf sp bps e.1 e.2))
              = dedupLoop l (rest.filterMap (fun e => candidateOf sp bps e.1 e.2)) from by
            simp [dedupLoop, hm]]
          exact ih l
        · rw [if_neg hm]
          rw [show dedupLoop l (name :: rest.filterMap (fun e => candidateOf sp bps e.1 e.2))
              = dedupLoop (l ++ [name]) (rest.filterMap (fun e => candidateOf sp bps e.1 e.2))
            from by simp [dedupLoop, hm]]
          exact ih (l ++ [name])

theorem basePathsOf_eq_spec (server : String) (topKvs : PyDict) :
    basePathsOf (stripSlash server) topKvs = dedupKeep (specBasePaths server topKvs) := rfl

theorem candidate_tail (sv cand name : String)
    (h : (if cand = "" ∨ cand = sv then Option.none
          else if lowerStr (stripWS cand) = "openapi.json" ∨
              lowerStr (stripWS cand) = "openapi" ∨ lowerStr (stripWS cand) = "docs"
            then Option.none
          else some (stripWS cand)) = some name) :
    (if cand = sv ∨ cand = "openapi.json" ∨ cand = "openapi" ∨ cand = "docs"
      then Option.none else some cand) = some cand ∧ name = stripWS cand := by
  by_cases hsv : cand = "" ∨ cand = sv
  · rw [if_pos hsv] at h
    exact absurd h (by simp)
  · rw [if_neg hsv] at h
    by_cases hcv : lowerStr (stripWS cand) = "openapi.json" ∨
        lowerStr (stripWS cand) = "openapi" ∨ lowerStr (stripWS cand) = "docs"
    · rw [if_pos hcv] at h
      exact absurd h (by simp)
    · rw [if_neg hcv] at h
      have hns : ¬ (cand = sv ∨ cand = "openapi.json" ∨ cand = "openapi" ∨ cand = "docs") := by
        rintro (hc | hc | hc | hc)
        · exact hsv (Or.inr hc)
        · exact hcv (by subst hc; exact Or.inl (by rfl))
        · exact hcv (by subst hc; exact Or.inr (Or.inl (by rfl)))
        · exact hcv (by subst hc; exact Or.inr (Or.inr (by rfl)))
      exact ⟨by rw [if_neg hns], (Option.some.inj h).symm⟩

theorem candidate_spec (server : String) (topKvs : PyDict) (rawPath : String)
    (ops : PyVal) (name : String)
    (h : candidateOf (stripSlash server) (basePathsOf (stripSlash server) topKvs)
        rawPath ops = some name) :
    ∃ cand, specSurvives server (specBasePaths server topKvs) rawPath ops = some cand ∧
      name = stripWS cand := by
  cases ops with
  | dict opKvs =>
      rw [basePathsOf_eq_spec server topKvs] at h
      simp only [candidateOf] at h
      rw [find?_dedupKeep _ (specBasePaths server topKvs).length _ (Nat.le_refl _)] at h
      simp only [specSurvives]
      by_cases hseg : toolPathSegs rawPath = []
      · rw [if_pos hseg] at h
        exact absurd h (by simp)
      · rw [if_neg hseg] at h
        rcases hfind : (specBasePaths server topKvs).find?
            (fun bp => !bp.isEmpty && bp.isPrefixOf (toolPathSegs rawPath)) with _ | bp
        · rw [hfind] at h ⊢
          simp only [] at h ⊢
          rw [if_neg hseg] at h ⊢
          by_cases hp : opKvs.any (fun kv => lowerStr kv.1 == "post") = true
          · rw [if_neg (by simp [hp])] at h ⊢
            rcases hlast : (toolPathSegs rawPath).getLast? with _ | cand
            · rw [hlast] at h
              exact absurd h (by simp)
            · rw [hlast] at h
              obtain ⟨hgoal, hname⟩ := candidate_tail (stripSlash server) cand name h
              exact ⟨cand, hgoal, hname⟩
          · rw [if_pos (by simpa using hp)] at h
            exact absurd h (by simp)
        · rw [hfind] at h ⊢
          simp only [] at h ⊢
          by_cases hrem : (toolPathSegs rawPath).drop bp.length = []
          · rw [if_pos hrem] at h
            exact absurd h (by simp)
          · rw [if_neg hrem] at h ⊢
            by_cases hp : opKvs.any (fun kv => lowerStr kv.1 == "post") = true
            · rw [if_neg (by simp [hp])] at h ⊢
              rcases hlast : ((toolPathSegs rawPath).drop bp.length).getLast? with _ | cand
              · rw [hlast] at h
                exact absurd h (by simp)
              · rw [hlast] at h
                obtain ⟨hgoal, hname⟩ := candidate_tail (stripSlash server) cand name h
                exact ⟨cand, hgoal, hname⟩
            · rw [if_pos (by simpa using hp)] at h
              exact absurd h (by simp)
  | none => exact absurd h (by simp [candidateOf])
  | bool b => exact absurd h (by simp [candidateOf])
  | int n => exact absurd h (by simp [candidateOf])
  | float q => exact absurd h (by simp [candidateOf])
  | str s => exact absurd h (by simp [candidateOf])
  | list xs => exact absurd h (by simp [candidateOf])

/-- C3 (amended): a document that is not a mapping or lacks a `paths`
mapping yields the empty tool list; when some declared server URL makes
`urlparse` raise `Invalid IPv6 URL`, discovery fails with that error
instead of returning a list; otherwise extraction returns the
first-seen-order deduplication of the per-path candidates, and a name is
kept only under the survival conditions (after dropping empty and
brace-placeholder segments and stripping the first matching base-path
prefix — server identifier first, then declared server URLs in document
order — segments remain, a POST operation is declared, and the final
segment is neither the server identifier nor a conventional non-tool
name). -/
theorem discovery_tools_spec (server : String) (payload : PyVal) :
    (hasPathsDict payload = false → extractToolsFromOpenapi server payload = .ok []) ∧
    (∀ topKvs pathKvs, payload = .dict topKvs →
      getKey topKvs "paths" = some (.dict pathKvs) →
      (serversRaise topKvs = true →
        extractToolsFromOpenapi server payload = .error "Invalid IPv6 URL") ∧
      (serversRaise topKvs = false →
        extractToolsFromOpenapi server payload
          = .ok (dedupKeep (pathKvs.filterMap (fun e =>
              candidateOf (stripSlash server) (basePathsOf (stripSlash server) topKvs)
                e.1 e.2))) ∧
        ∀ name ∈ dedupKeep (pathKvs.filterMap (fun e =>
            candidateOf (stripSlash server) (basePathsOf (stripSlash server) topKvs)
              e.1 e.2)),
          ∃ e ∈ pathKvs, ∃ cand,
            specSurvives server (specBasePaths server topKvs) e.1 e.2 = some cand ∧
            name = stripWS cand)) := by
  constructor
  · intro hbad
    cases payload with
    | dict topKvs =>
        unfold hasPathsDict at hbad
        unfold extractToolsFromOpenapi
        simp only [] at hbad ⊢
        rcases hg : getKey topKvs "paths" with _ | v
        · rfl
        · cases v with
          | dict d =>
              rw [hg] at hbad
              exact absurd hbad (by simp)
          | none => rfl
          | bool b => rfl
          | int n => rfl
          | float q => rfl
          | str s => rfl
          | list xs => rfl
    | none => rfl
    | bool b => rfl
    | int n => rfl
    | float q => rfl
    | str s => rfl
    | list xs => rfl
  · rintro topKvs pathKvs rfl hpaths
    constructor
    · intro hraise
      unfold extractToolsFromOpenapi
      simp only []
      rw [hpaths]
      simp only [hraise]
      exact rfl
    · intro hnoraise
      have heq : extractToolsFromOpenapi server (.dict topKvs)
          = .ok (dedupKeep (pathKvs.filterMap (fun e =>
              candidateOf (stripSlash server) (basePathsOf (stripSlash server) topKvs)
                e.1 e.2))) := by
        unfold extractToolsFromOpenapi
        simp only []
        rw [hpaths]
        simp only [hnoraise]
        exact congrArg Except.ok (toolsLoop_eq (stripSlash server)
          (basePathsOf (stripSlash server) topKvs) pathKvs [])
      refine ⟨heq, ?_⟩
      intro name hmem
      have hmem2 := mem_dedupKeep name
        (pathKvs.filterMap (fun e =>
          candidateOf (stripSlash server) (basePathsOf (stripSlash server) topKvs)
            e.1 e.2)).length _ (Nat.le_refl _) hmem
      obtain ⟨e, he, hc⟩ := List.mem_filterMap.mp hmem2
      obtain ⟨cand, hspec, hname⟩ := candidate_spec server topKvs e.1 e.2 name hc
      exact ⟨e, he, cand, hspec, hname⟩

/-- C3 counterexample: a discovery document that is a mapping with a
`paths` mapping — declaring a POST path — but whose `servers` list holds
the URL `"http://["` makes the program raise `Invalid IPv6 URL` at
`urlparse` instead of returning a tool list. -/
theorem discovery_tools_cex :
    hasPathsDict (.dict [("paths", .dict [("/x", .dict [("post", .dict [])])]),
      ("servers", .list [.dict [("url", .str "http://[")]])]) = true ∧
    extractToolsFromOpenapi "math"
      (.dict [("paths", .dict [("/x", .dict [("post", .dict [])])]),
        ("servers", .list [.dict [("url", .str "http://[")]])])
      = .error "Invalid IPv6 URL" :=
  ⟨rfl, rfl⟩

theorem discovery_tools_spec_witness :
    extractToolsFromOpenapi "math"
      (.dict [("paths", .dict [("/math/add", .dict [("post", .dict [])])])]) = .ok ["add"] ∧
    extractToolsFromOpenapi "math"
      (.dict [("paths", .dict [("/math/add", .dict [("get", .dict [])])])]) = .ok [] ∧
    extractToolsFromOpenapi "math" (.str "no-document") = .ok [] := by
  have h := ((discovery_tools_spec "math"
    (.dict [("paths", .dict [("/math/add", .dict [("post", .dict [])])])])).2
    [("paths", .dict [("/math/add", .dict [("post", .dict [])])])]
    [("/math/add", .dict [("post", .dict [])])] rfl (by rfl)).2 (by rfl)
  have hg := ((discovery_tools_spec "math"
    (.dict [("paths", .dict [("/math/add", .dict [("get", .dict [])])])])).2
    [("paths", .dict [("/math/add", .dict [("get", .dict [])])])]
    [("/math/add", .dict [("get", .dict [])])] rfl (by rfl)).2 (by rfl)
  refine ⟨?_, ?_, (discovery_tools_spec "math" (.str "no-document")).1 (by rfl)⟩
  · rw [h.1]
    rfl
  · rw [hg.1]
    rfl

/-! ### Token split/join lemmas -/

theorem splitOnCharList_cons (sep c : Char) (cs : List Char) :
    splitOnCharList sep (c :: cs) =
      (if c = sep then [] :: splitOnCharList sep cs
       else
         match splitOnCharList sep cs with
         | t :: ts => (c :: t) :: ts
         | [] => [[c]]) := rfl

theorem splitOnCharList_no_sep (sep : Char) : ∀ (l : List Char),
    sep ∉ l → splitOnCharList sep l = [l] := by
  intro l
  induction l with
  | nil => intro _; rfl
  | cons c cs ih =>
      intro h
      have hc : ¬ c = sep := fun hcc => h (by rw [hcc]; exact List.mem_cons_self _ _)
      have hcs : sep ∉ cs := fun hm => h (List.mem_cons_of_mem _ hm)
      rw [splitOnCharList_cons, if_neg hc, ih hcs]

theorem splitOnCharList_append_sep (sep : Char) : ∀ (t tail : List Char),
    sep ∉ t →
    splitOnCharList sep (t ++ sep :: tail) = t :: splitOnCharList sep tail := by
  intro t
  induction t with
  | nil =>
      intro tail _
      show splitOnCharList sep (sep :: tail) = [] :: splitOnCharList sep tail
      rw [splitOnCharList_cons, if_pos rfl]
  | cons c cs ih =>
      intro tail h
      have hc : ¬ c = sep := fun hcc => h (by rw [hcc]; exact List.mem_cons_self _ _)
      have hcs : sep ∉ cs := fun hm => h (List.mem_cons_of_mem _ hm)
      show splitOnCharList sep (c :: (cs ++ sep :: tail)) = (c :: cs) :: splitOnCharList sep tail
      rw [splitOnCharList_cons, if_neg hc, ih tail hcs]

theorem joinStrings_toList (c : Char) : ∀ (ts : List String),
    (joinStrings (String.mk [c]) ts).toList = joinWithCharList c (ts.map String.toList) := by
  intro ts
  induction ts with
  | nil => rfl
  | cons t rest ih =>
      cases rest with
      | nil => rfl
      | cons u rest2 =>
          have happ : ∀ (a b : String), (a ++ b).toList = a.toList ++ b.toList :=
            fun a b => rfl
          show (t ++ String.mk [c] ++ joinStrings (String.mk [c]) (u :: rest2)).toList = _
          rw [happ, happ, ih]
          show t.toList ++ [c] ++ joinWithCharList c (List.map String.toList (u :: rest2))
              = t.toList ++ c :: joinWithCharList c (List.map String.toList (u :: rest2))
          simp

theorem filterMap_eq_self {α : Type} (f : α → Option α) : ∀ (l : List α),
    (∀ x ∈ l, f x = some x) → l.filterMap f = l := by
  intro l
  induction l with
  | nil => intro _; rfl
  | cons x xs ih =>
      intro h
      rw [List.filterMap_cons, h x (by simp)]
      rw [ih (fun y hy => h y (List.mem_cons_of_mem _ hy))]

theorem resultPathTokens_join (tokens : List String) (hne : tokens ≠ [])
    (h : ∀ t ∈ tokens, t ≠ "" ∧ stripWS t = t ∧ ('.' : Char) ∉ t.toList) :
    resultPathTokens (some (joinStrings "." tokens)) = tokens := by
  have hdot : ("." : String) = String.mk ['.'] := rfl
  have hjoin : (joinStrings "." tokens).toList
      = joinWithCharList '.' (tokens.map String.toList) := by
    rw [hdot]
    exact joinStrings_toList '.' tokens
  have hsplit : splitOnCharList '.' (joinWithCharList '.' (tokens.map String.toList))
      = tokens.map String.toList := by
    -- induction over the token list
    clear hjoin
    induction tokens with
    | nil => exact absurd rfl hne
    | cons t rest ih =>
        cases rest with
        | nil =>
            show splitOnCharList '.' t.toList = [t.toList]
            exact splitOnCharList_no_sep '.' t.toList (h t (by simp)).2.2
        | cons u rest2 =>
            show splitOnCharList '.'
                (t.toList ++ '.' :: joinWithCharList '.' ((u :: rest2).map String.toList))
              = t.toList :: (u :: rest2).map String.toList
            rw [splitOnCharList_append_sep '.' t.toList _ (h t (by simp)).2.2]
            rw [ih (by simp) (fun x hx => h x (List.mem_cons_of_mem _ hx))]
  have hnonempty : joinStrings "." tokens ≠ "" := by
    intro hemp
    have : (joinStrings "." tokens).toList = [] := by rw [hemp]; rfl
    rw [hjoin] at this
    cases tokens with
    | nil => exact hne rfl
    | cons t rest =>
        cases rest with
        | nil =>
            have ht := (h t (by simp)).1
            exact ht (by
              have : t.toList = [] := this
              cases t
              simp_all)
        | cons u rest2 =>
            have : t.toList ++ '.' :: joinWithCharList '.' ((u :: rest2).map String.toList)
                = [] := this
            simp at this
  show (if joinStrings "." tokens = "" then []
    else (splitOnChar '.' (joinStrings "." tokens)).filterMap
      (fun t => if stripWS t = "" then Option.none else some (stripWS t))) = tokens
  rw [if_neg hnonempty]
  unfold splitOnChar
  rw [hjoin, hsplit]
  have hmapmk : (tokens.map String.toList).map String.mk = tokens := by
    rw [List.map_map]
    have : (String.mk ∘ String.toList) = id := by
      funext s
      cases s
      rfl
    rw [this, List.map_id]
  rw [hmapmk]
  apply filterMap_eq_self
  intro t htm
  obtain ⟨h1, h2, _⟩ := h t htm
  rw [h2, if_neg h1]

/-! ### Claim C7 -/

/-- C7 (amended): for a client whose stored settings are in the
constructor's normal form — non-empty base and server fixed by their
separator-stripping, credential and query-parameter name absent or
non-blank and whitespace-stripped, result-path tokens non-blank without
separators, and a discovery address that is an explicit `http(s)` URL —
cloning with a valid new tool yields a client whose tool is the new name
and whose every other setting equals the original's. -/
theorem with_tool_frame (c : MCPOConnector) (tool : String) (hb : c.base_url ≠ "")
    (hbr : rstripSlash c.base_url = c.base_url) (hs : c.server ≠ "")
    (hss : stripSlash c.server = c.server) (ht : stripWS tool ≠ "")
    (hapi : c.api_key = Option.none ∨ ∃ a, c.api_key = some a ∧ a ≠ "" ∧ stripWS a = a)
    (hqp : c.query_param = Option.none ∨ ∃ p, c.query_param = some p ∧ p ≠ "" ∧ stripWS p = p)
    (htok : ∀ t ∈ c.result_path_tokens, t ≠ "" ∧ stripWS t = t ∧ ('.' : Char) ∉ t.toList)
    (hou : ∃ u, c.openapi_url = some u ∧ u ≠ "" ∧ stripWS u = u ∧
        (startsWithStr u "http://" = true ∨ startsWithStr u "https://" = true)) :
    ∃ c', withTool c tool = .ok c' ∧
      c'.tool = some (stripSlash (stripWS tool)) ∧ c'.base_url = c.base_url ∧
      c'.server = c.server ∧ c'.api_key = c.api_key ∧ c'.query_param = c.query_param ∧
      c'.static_args = c.static_args ∧ c'.result_path_tokens = c.result_path_tokens ∧
      c'.timeout = c.timeout ∧ c'.openapi_url = c.openapi_url := by
  obtain ⟨u, hu, hune, huw, hhttp⟩ := hou
  have hop : initOpenapi (serverBaseOf c.base_url c.server) c.openapi_url
      = .ok (some u) := by
    rw [hu]
    simp only [initOpenapi]
    rw [if_pos hune, huw, if_pos hune, if_pos (by simpa using hhttp)]
  unfold withTool
  rw [init_ok _ _ _ _ _ _ _ _ _ hb hs (fun t htt => by cases Option.some.inj htt; exact ht)
    (some u) hop]
  refine ⟨_, rfl, rfl, hbr, hss, ?_, ?_, rfl, ?_, rfl, hu.symm⟩
  · rcases hapi with hn | ⟨a, ha, hane, haw⟩
    · rw [hn]
      rfl
    · rw [ha]
      show (if a ≠ "" then some (stripWS a) else Option.none) = some a
      rw [if_pos hane, haw]
  · rcases hqp with hn | ⟨p, hp, hpne, hpw⟩
    · rw [hn]
      rfl
    · rw [hp]
      show (if p ≠ "" then some (stripWS p) else Option.none) = some p
      rw [if_pos hpne, hpw]
  · by_cases he : c.result_path_tokens.isEmpty
    · rw [show c.result_path_tokens = [] from List.isEmpty_iff.mp he]
      rfl
    · show resultPathTokens (if !c.result_path_tokens.isEmpty then
          some (joinStrings "." c.result_path_tokens)
        else Option.none) = c.result_path_tokens
      rw [if_pos (by simp [he])]
      exact resultPathTokens_join c.result_path_tokens
        (fun hn => he (by simp [hn])) htok

/-- C7 counterexample: a client built with a whitespace-only credential
stores the credential `""`, but its clone-with-new-tool stores no
credential at all — the setting is not carried over unchanged. -/
theorem with_tool_frame_cex :
    (MCPOConnector.init "http://h" "s" Option.none (some " ") (some "query")
        Option.none Option.none (some 30) Option.none).map (fun c => c.api_key)
      = .ok (some "") ∧
    ((MCPOConnector.init "http://h" "s" Option.none (some " ") (some "query")
        Option.none Option.none (some 30) Option.none).bind
      (fun c => withTool c "t")).map (fun c => c.api_key) = .ok Option.none ∧
    some "" ≠ (Option.none : Option String) :=
  ⟨rfl, rfl, by simp⟩

theorem with_tool_frame_witness :
    (withTool ⟨"http://h", "s", Option.none, some "k", some "query", [("a", .int 1)],
        ["data"], some 30, some "http://h/s/openapi.json"⟩ "t").map
      (fun x => (x.tool, x.api_key, x.openapi_url, x.result_path_tokens))
    = .ok (some "t", some "k", some "http://h/s/openapi.json", ["data"]) := by
  obtain ⟨c', hw, h1, h2, h3, h4, h5, h6, h7, h8, h9⟩ :=
    with_tool_frame ⟨"http://h", "s", Option.none, some "k", some "query", [("a", .int 1)],
        ["data"], some 30, some "http://h/s/openapi.json"⟩ "t"
      (by decide) (by rfl) (by decide) (by rfl) (by decide)
      (Or.inr ⟨"k", rfl, by decide, by rfl⟩)
      (Or.inr ⟨"query", rfl, by decide, by rfl⟩)
      (by
        intro t htm
        have : t = "data" := by simpa using htm
        subst this
        exact ⟨by decide, by rfl, by decide⟩)
      ⟨"http://h/s/openapi.json", rfl, by decide, by rfl, Or.inl (by rfl)⟩
  rw [hw]
  simp only [Except.map]
  rw [h1, h4, h9, h7]
  rfl

/-! ### String gluing lemmas -/

theorem toList_append_str (a b : String) : (a ++ b).toList = a.toList ++ b.toList := rfl

theorem mk_toList_str (s : String) : String.mk s.toList = s := by
  cases s
  rfl

theorem str_eq_of_toList (a b : String) (h : a.toList = b.toList) : a = b :=
  congrArg String.mk h

theorem str_ne_empty_of_toList (a : String) (h : a.toList ≠ []) : a ≠ "" := by
  intro hcon
  rw [hcon] at h
  exact h rfl

theorem joinStrings_cons2 (sep t u : String) (rest : List String) :
    joinStrings sep (t :: u :: rest) = t ++ sep ++ joinStrings sep (u :: rest) := rfl

theorem joinStrings_append_last (sep t : String) : ∀ (l : List String), l ≠ [] →
    joinStrings sep (l ++ [t]) = joinStrings sep l ++ sep ++ t := by
  intro l
  induction l with
  | nil => intro h; exact absurd rfl h
  | cons x xs ih =>
      intro _
      cases xs with
      | nil => rfl
      | cons y ys =>
          calc joinStrings sep ((x :: y :: ys) ++ [t])
              = x ++ sep ++ joinStrings sep ((y :: ys) ++ [t]) := rfl
            _ = x ++ sep ++ (joinStrings sep (y :: ys) ++ sep ++ t) :=
                congrArg (fun z => x ++ sep ++ z) (ih (by simp))
            _ = joinStrings sep (x :: y :: ys) ++ sep ++ t := by
                apply str_eq_of_toList
                rw [joinStrings_cons2]
                have hd : ∀ a b : String, (a ++ b).toList = a.toList ++ b.toList :=
                  fun _ _ => rfl
                simp [hd, List.append_assoc]

theorem splitOnCharList_ne_nil (sep : Char) : ∀ (l : List Char),
    splitOnCharList sep l ≠ [] := by
  intro l
  cases l with
  | nil => simp [splitOnCharList]
  | cons c cs =>
      rw [splitOnCharList_cons]
      by_cases hc : c = sep
      · rw [if_pos hc]
        simp
      · rw [if_neg hc]
        rcases hs : splitOnCharList sep cs with _ | ⟨t, ts⟩


        · simp
        · simp

theorem join_split_roundtrip (sep : Char) : ∀ (l : List Char),
    joinWithCharList sep (splitOnCharList sep l) = l := by
  intro l
  induction l with
  | nil => rfl
  | cons c cs ih =>
      rw [splitOnCharList_cons]
      by_cases hc : c = sep
      · rw [if_pos hc]
        subst hc
        rcases hs : splitOnCharList c cs with _ | ⟨t, ts⟩
        · exact absurd hs (splitOnCharList_ne_nil c cs)
        · rw [hs] at ih
          show joinWithCharList c ([] :: t :: ts) = c :: cs
          show [] ++ c :: joinWithCharList c (t :: ts) = c :: cs
          rw [List.nil_append, ih]
      · rw [if_neg hc]
        rcases hs : splitOnCharList sep cs with _ | ⟨t, ts⟩
        · exact absurd hs (splitOnCharList_ne_nil sep cs)
        · rw [hs] at ih
          cases ts with
          | nil =>
              show (c :: t) = c :: cs
              rw [show joinWithCharList sep [t] = t from rfl] at ih
              rw [ih]
          | cons u ts2 =>
              show (c :: t) ++ sep :: joinWithCharList sep (u :: ts2) = c :: cs
              rw [show joinWithCharList sep (t :: u :: ts2)
                  = t ++ sep :: joinWithCharList sep (u :: ts2) from rfl] at ih
              rw [← ih]
              rfl

theorem joinStrings_map_mk (sep : Char) : ∀ (css : List (List Char)),
    joinStrings (String.mk [sep]) (css.map String.mk)
      = String.mk (joinWithCharList sep css) := by
  intro css
  apply str_eq_of_toList
  rw [joinStrings_toList]
  rw [List.map_map]
  have : (String.toList ∘ String.mk) = id := by
    funext l
    rfl
  rw [this, List.map_id]
  rfl

theorem path_eq_join_parts (p : String) :
    joinStrings "/" ((splitOnCharList '/' p.toList).map String.mk) = p := by
  rw [show ("/" : String) = String.mk ['/'] from rfl]
  rw [joinStrings_map_mk]
  rw [join_split_roundtrip]
  exact mk_toList_str p

theorem filterMidSegs_append_last (t : String) : ∀ (l : List String),
    filterMidSegs (l ++ [t]) = l.filter (fun s => s ≠ "") ++ [t] := by
  intro l
  induction l with
  | nil => rfl
  | cons s l' ih =>
      show filterMidSegs (s :: (l' ++ [t])) = _
      cases l' with
      | nil =>
          show filterMidSegs [s, t] = [s].filter (fun s => s ≠ "") ++ [t]
          by_cases hs : s = ""
          · subst hs
            rfl
          · show (if s = "" then filterMidSegs [t] else s :: filterMidSegs [t]) = _
            rw [if_neg hs]
            simp [List.filter_cons, hs, filterMidSegs]
      | cons u l'' =>
          show (if s = "" then filterMidSegs ((u :: l'') ++ [t])
            else s :: filterMidSegs ((u :: l'') ++ [t])) = _
          by_cases hs : s = ""
          · rw [if_pos hs, ih]
            simp [List.filter_cons, hs]
          · rw [if_neg hs, ih]
            simp [List.filter_cons, hs]

theorem foldl_resolve_append : ∀ (l acc : List String),
    (∀ s ∈ l, s ≠ "." ∧ s ≠ "..") →
    l.foldl (fun acc seg =>
      if seg = ".." then acc.dropLast else if seg = "." then acc else acc ++ [seg]) acc
      = acc ++ l := by
  intro l
  induction l with
  | nil => intro acc _; simp
  | cons s l' ih =>
      intro acc h
      have hs := h s (by simp)
      rw [List.foldl_cons, if_neg hs.2, if_neg hs.1]
      rw [ih (acc ++ [s]) (fun x hx => h x (List.mem_cons_of_mem _ hx))]
      simp

theorem getLast?_mem_str : ∀ (l : List String) (a : String), l.getLast? = some a → a ∈ l := by
  intro l
  induction l with
  | nil => intro a h; exact absurd h (by simp)
  | cons x xs ih =>
      intro a h
      cases xs with
      | nil =>
          rw [show (([x] : List String).getLast? ) = some x from rfl] at h
          rw [Option.some.inj h]
          exact List.mem_cons_self _ _
      | cons y ys =>
          rw [show ((x :: y :: ys).getLast?) = (y :: ys).getLast? from rfl] at h
          exact List.mem_cons_of_mem _ (ih a h)

theorem resolveSegs_id (l : List String) (h : ∀ s ∈ l, s ≠ "." ∧ s ≠ "..") :
    resolveSegs l = l := by
  unfold resolveSegs
  rw [foldl_resolve_append l [] h]
  have hcond : ¬ (l.getLast? = some "." ∨ l.getLast? = some "..") := by
    rintro (hc | hc)
    · exact (h "." (getLast?_mem_str l "." hc)).1 rfl
    · exact (h ".." (getLast?_mem_str l ".." hc)).2 rfl
  rw [if_neg hcond]
  simp

theorem dropLast_append_getLast?_str : ∀ (l : List String) (a : String),
    l.getLast? = some a → l = l.dropLast ++ [a] := by
  intro l
  induction l with
  | nil => intro a h; exact absurd h (by simp)
  | cons x xs ih =>
      intro a h
      cases xs with
      | nil =>
          rw [show (([x] : List String).getLast?) = some x from rfl] at h
          rw [Option.some.inj h]
          rfl
      | cons y ys =>
          rw [show ((x :: y :: ys).getLast?) = (y :: ys).getLast? from rfl] at h
          show x :: (y :: ys) = (x :: (y :: ys).dropLast) ++ [a]
          rw [show (x :: (y :: ys).dropLast) ++ [a] = x :: ((y :: ys).dropLast ++ [a]) from rfl]
          rw [← ih a h]

theorem append_assoc_str (a b c : String) : (a ++ b) ++ c = a ++ (b ++ c) := by
  apply str_eq_of_toList
  rw [toList_append_str, toList_append_str, toList_append_str, toList_append_str,
    List.append_assoc]

theorem ne_nil_of_isEmpty_false {α : Type} (l : List α) (h : l.isEmpty = false) :
    l ≠ [] := by
  intro hc
  subst hc
  exact Bool.noConfusion h

theorem filter_eq_self_of_all {α : Type} (p : α → Bool) : ∀ (l : List α),
    (∀ a ∈ l, p a = true) → l.filter p = l := by
  intro l
  induction l with
  | nil => intro _; rfl
  | cons a l' ih =>
      intro h
      rw [List.filter_cons, if_pos (h a (by simp))]
      rw [ih (fun b hb => h b (List.mem_cons_of_mem _ hb))]

/-- `urlunsplit` commutes with appending a segment that does not start with
a slash to a non-empty path, when query and fragment are empty. -/
theorem urlunsplit_append (s n p t : String) (hp : p ≠ "")
    (ht : t.toList.head? ≠ some '/') :
    urlunsplit ⟨s, n, p ++ t, "", ""⟩ = urlunsplit ⟨s, n, p, "", ""⟩ ++ t := by
  have hpl : p.toList ≠ [] := fun hc => hp (str_eq_of_toList p "" hc)
  have hpt : p ++ t ≠ "" := by
    intro hc
    have h0 : (p ++ t).toList = [] := by rw [hc]; rfl
    rw [toList_append_str] at h0
    exact hpl (List.append_eq_nil.mp h0).1
  have hhead : (p ++ t).toList.head? = p.toList.head? := by
    rw [toList_append_str]
    cases hc : p.toList with
    | nil => exact absurd hc hpl
    | cons c cs => rfl
  have htake : (p ++ t).toList.take 2 = ['/', '/'] ↔ p.toList.take 2 = ['/', '/'] := by
    rw [toList_append_str]
    cases hc : p.toList with
    | nil => exact absurd hc hpl
    | cons c cs =>
        cases cs with
        | nil =>
            constructor
            · intro h
              have h1 : c = '/' ∧ t.toList.take 1 = ['/'] := by
                rw [show ([c] ++ t.toList).take 2 = c :: t.toList.take 1 from rfl] at h
                exact ⟨List.head_eq_of_cons_eq h, List.tail_eq_of_cons_eq h⟩
              exfalso
              apply ht
              cases hct : t.toList with
              | nil => rw [hct] at h1; exact absurd h1.2 (by simp)
              | cons d ds =>
                  rw [hct] at h1
                  rw [show (d :: ds).take 1 = [d] from rfl] at h1
                  rw [List.head_eq_of_cons_eq h1.2]
                  rfl
            · intro h
              rw [show ([c] : List Char).take 2 = [c] from rfl] at h
              exact absurd h (by simp)
        | cons d ds => simp
  have hfin : ∀ u1 : String, urlunsplit ⟨s, n, u1, "", ""⟩
      = if s ≠ "" then
          s ++ ":" ++ (if n ≠ "" ∨ (u1 ≠ "" ∧ u1.toList.take 2 = ['/', '/']) then
            "//" ++ n ++ (if u1 ≠ "" ∧ u1.toList.head? ≠ some '/' then "/" ++ u1 else u1)
          else u1)
        else (if n ≠ "" ∨ (u1 ≠ "" ∧ u1.toList.take 2 = ['/', '/']) then
            "//" ++ n ++ (if u1 ≠ "" ∧ u1.toList.head? ≠ some '/' then "/" ++ u1 else u1)
          else u1) := by
    intro u1
    rfl
  rw [hfin (p ++ t), hfin p]
  have key : (if n ≠ "" ∨ ((p ++ t) ≠ "" ∧ (p ++ t).toList.take 2 = ['/', '/']) then
        "//" ++ n ++
          (if (p ++ t) ≠ "" ∧ (p ++ t).toList.head? ≠ some '/' then "/" ++ (p ++ t)
           else p ++ t)
      else p ++ t)
      = (if n ≠ "" ∨ (p ≠ "" ∧ p.toList.take 2 = ['/', '/']) then
        "//" ++ n ++ (if p ≠ "" ∧ p.toList.head? ≠ some '/' then "/" ++ p else p)
      else p) ++ t := by
    by_cases hc : n ≠ "" ∨ (p ≠ "" ∧ p.toList.take 2 = ['/', '/'])
    · have hc2 : n ≠ "" ∨ ((p ++ t) ≠ "" ∧ (p ++ t).toList.take 2 = ['/', '/']) := by
        rcases hc with h | h
        · exact Or.inl h
        · exact Or.inr ⟨hpt, htake.mpr h.2⟩
      rw [if_pos hc, if_pos hc2]
      by_cases hd : p.toList.head? = some '/'
      · have hd1 : ¬ (p ≠ "" ∧ p.toList.head? ≠ some '/') := fun h => h.2 hd
        have hd2 : ¬ ((p ++ t) ≠ "" ∧ (p ++ t).toList.head? ≠ some '/') := by
          intro h
          exact h.2 (hhead.trans hd)
        rw [if_neg hd1, if_neg hd2]
        apply str_eq_of_toList
        simp [toList_append_str, List.append_assoc]
      · have hd1 : p ≠ "" ∧ p.toList.head? ≠ some '/' := ⟨hp, hd⟩
        have hd2 : (p ++ t) ≠ "" ∧ (p ++ t).toList.head? ≠ some '/' :=
          ⟨hpt, by rw [hhead]; exact hd⟩
        rw [if_pos hd1, if_pos hd2]
        apply str_eq_of_toList
        simp [toList_append_str, List.append_assoc]
    · have hc2 : ¬ (n ≠ "" ∨ ((p ++ t) ≠ "" ∧ (p ++ t).toList.take 2 = ['/', '/'])) := by
        intro h
        apply hc
        rcases h with h | h
        · exact Or.inl h
        · exact Or.inr ⟨hp, htake.mp h.2⟩
      rw [if_neg hc, if_neg hc2]
  rw [key]
  by_cases hs : s ≠ ""
  · rw [if_pos hs, if_pos hs]
    apply str_eq_of_toList
    simp [toList_append_str, List.append_assoc]
  · rw [if_neg hs, if_neg hs]

/-- Joining `openapi.json` onto a join-ready prefix followed by `/` is plain
string concatenation. -/
theorem urljoin_ready (x : String) (hjr : joinReady x = true) :
    urljoin (x ++ "/") "openapi.json" = (x ++ "/") ++ "openapi.json" := by
  simp only [joinReady, Bool.and_eq_true, beq_iff_eq, decide_eq_true_eq,
    List.all_eq_true, Bool.not_eq_true'] at hjr
  obtain ⟨⟨⟨⟨⟨⟨⟨⟨⟨hq, hf⟩, hrel⟩, hnet⟩, hun⟩, hlast⟩, hemp⟩, hall1⟩, hall2⟩, -⟩ := hjr
  have hbase : ¬ (x ++ "/" = "") := by
    apply str_ne_empty_of_toList
    rw [toList_append_str]
    simp
  have hurl : ¬ (("openapi.json" : String) = "") := by decide
  have hus : (urlsplitStr "openapi.json").scheme = "" := rfl
  have hunl : (urlsplitStr "openapi.json").netloc = "" := rfl
  have hup : (urlsplitStr "openapi.json").path = "openapi.json" := rfl
  have huq : (urlsplitStr "openapi.json").query = "" := rfl
  have huf : (urlsplitStr "openapi.json").fragment = "" := rfl
  simp only [urljoin]
  rw [if_neg hbase, if_neg hurl, hus, hunl, hup, huq, huf]
  rw [if_pos (rfl : ("" : String) = "")]
  rw [if_neg (show ¬ ((urlsplitStr (x ++ "/")).scheme ≠ (urlsplitStr (x ++ "/")).scheme
      ∨ ¬ (urlsplitStr (x ++ "/")).scheme ∈ usesRelative) from by
    rintro (h | h)
    · exact h rfl
    · exact h hrel)]
  rw [if_neg (show ¬ ((urlsplitStr (x ++ "/")).scheme ∈ usesNetloc ∧ ("" : String) ≠ "")
      from fun h => h.2 rfl)]
  rw [if_pos hnet]
  rw [if_neg hurl]
  rw [if_neg (show ¬ ("openapi.json".toList.head? = some '/') from by decide)]
  set parts := List.map String.mk (splitOnCharList '/' (urlsplitStr (x ++ "/")).path.toList)
    with hparts
  rw [if_neg (show ¬ (parts.getLast? ≠ some "") from fun h => h hlast)]
  rw [show splitOnChar '/' "openapi.json" = ["openapi.json"] from rfl]
  have hpj : joinStrings "/" parts = (urlsplitStr (x ++ "/")).path :=
    path_eq_join_parts ((urlsplitStr (x ++ "/")).path)
  have hdecomp : parts = parts.dropLast ++ [""] :=
    dropLast_append_getLast?_str parts "" hlast
  cases hdl : parts.dropLast with
  | nil => exact absurd hdl (ne_nil_of_isEmpty_false _ hemp)
  | cons p0 prest =>
  rw [hdl] at hdecomp hall1 hall2
  simp only [List.tail_cons] at hall2
  rw [hdecomp]
  simp only [List.cons_append]
  rw [filterMidSegs_append_last "openapi.json" (prest ++ [""])]
  rw [List.filter_append]
  rw [show (([""] : List String).filter (fun s => s ≠ "")) = [] from rfl]
  rw [List.append_nil]
  rw [filter_eq_self_of_all _ prest (fun a ha => decide_eq_true (hall2 a ha))]
  have hpf : ∀ s ∈ p0 :: (prest ++ ["openapi.json"]), s ≠ "." ∧ s ≠ ".." := by
    intro s hs
    rcases List.mem_cons.mp hs with h | h
    · subst h
      exact hall1 s (List.mem_cons_self _ _)
    · rcases List.mem_append.mp h with h2 | h2
      · exact hall1 s (List.mem_cons_of_mem _ h2)
      · rw [List.mem_singleton.mp h2]
        exact ⟨by decide, by decide⟩
  rw [resolveSegs_id (p0 :: (prest ++ ["openapi.json"])) hpf]
  rw [show p0 :: (prest ++ (["openapi.json"] : List String))
      = (p0 :: prest) ++ ["openapi.json"] from rfl]
  rw [joinStrings_append_last "/" "openapi.json" (p0 :: prest) (by simp)]
  rw [hdecomp] at hpj
  rw [show ((p0 :: prest) ++ ([""] : List String)) = p0 :: (prest ++ [""]) from rfl] at hpj
  rw [show p0 :: (prest ++ ([""] : List String)) = (p0 :: prest) ++ [""] from rfl] at hpj
  rw [joinStrings_append_last "/" "" (p0 :: prest) (by simp)] at hpj
  have hslashemp : (joinStrings "/" (p0 :: prest) ++ "/" ++ "" : String)
      = joinStrings "/" (p0 :: prest) ++ "/" := by
    apply str_eq_of_toList
    rw [toList_append_str, toList_append_str]
    simp
  rw [hslashemp] at hpj
  rw [if_neg (show ¬ (joinStrings "/" (p0 :: prest) ++ "/" ++ "openapi.json" = "") from by
    apply str_ne_empty_of_toList
    rw [toList_append_str]
    simp)]
  rw [hpj]
  rw [urlunsplit_append (urlsplitStr (x ++ "/")).scheme (urlsplitStr (x ++ "/")).netloc
    (urlsplitStr (x ++ "/")).path "openapi.json"
    (by
      rw [← hpj]
      apply str_ne_empty_of_toList
      rw [toList_append_str]
      simp)
    (by decide)]
  rw [hun]

set_option maxHeartbeats 1600000 in
/-- C4 (amended): construction fails exactly when the base address or the
server identifier is empty as given (the code tests emptiness before
trimming), or when the default discovery join raises `Invalid IPv6 URL`
because the combined address has a network location with unbalanced
brackets; and for every base/server pair whose trimmed combination is
stable under slash-trimming and join-ready, construction with no explicit
discovery override succeeds with discovery address
`<trimmed base>/<trimmed server>/openapi.json`. -/
theorem construction_contract (base server : String) :
    ((∃ e, MCPOConnector.init base server Option.none Option.none (some "query")
        Option.none Option.none Option.none Option.none = .error e)
      ↔ (base = "" ∨ server = "" ∨ (serverBaseOf base server ≠ "" ∧
          urlsplitE (serverBaseOf base server ++ "/") = .error "Invalid IPv6 URL"))) ∧
    (base ≠ "" → server ≠ "" → stripSlash server ≠ "" →
      rstripSlash (rstripSlash base ++ "/" ++ stripSlash server)
        = rstripSlash base ++ "/" ++ stripSlash server →
      joinReady (rstripSlash base ++ "/" ++ stripSlash server) = true →
      (MCPOConnector.init base server Option.none Option.none (some "query")
          Option.none Option.none Option.none Option.none).map (fun c => c.openapi_url)
        = .ok (some (rstripSlash base ++ "/" ++ stripSlash server ++ "/openapi.json"))) := by
  constructor
  · constructor
    · rintro ⟨e, he⟩
      by_contra hno
      have hb : base ≠ "" := fun h => hno (Or.inl h)
      have hs : server ≠ "" := fun h => hno (Or.inr (Or.inl h))
      by_cases hsbe : serverBaseOf base server = ""
      · rw [init_ok base server Option.none Option.none (some "query") Option.none
          Option.none Option.none Option.none hb hs (fun t ht => Option.noConfusion ht)
          Option.none (initOpenapi_none_empty _ (fun h => h hsbe))] at he
        exact Except.noConfusion he
      · rcases urlsplitE_cases (serverBaseOf base server ++ "/") with herr | hok
        · exact hno (Or.inr (Or.inr ⟨hsbe, herr⟩))
        · rw [init_ok base server Option.none Option.none (some "query") Option.none
            Option.none Option.none Option.none hb hs (fun t ht => Option.noConfusion ht)
            _ (initOpenapi_none_ok _ hsbe _ hok)] at he
          exact Except.noConfusion he
    · rintro (hb | hs | ⟨hsbne, herr⟩)
      · exact ⟨_, init_err_base _ _ _ _ _ _ _ _ _ hb⟩
      · by_cases hb : base = ""
        · exact ⟨_, init_err_base _ _ _ _ _ _ _ _ _ hb⟩
        · exact ⟨_, init_err_server _ _ _ _ _ _ _ _ _ hb hs⟩
      · by_cases hb : base = ""
        · exact ⟨_, init_err_base _ _ _ _ _ _ _ _ _ hb⟩
        · by_cases hs : server = ""
          · exact ⟨_, init_err_server _ _ _ _ _ _ _ _ _ hb hs⟩
          · exact ⟨_, init_err_openapi base server Option.none Option.none (some "query")
              Option.none Option.none Option.none Option.none hb hs
              (fun t ht => Option.noConfusion ht) _ (initOpenapi_none_err _ hsbne herr)⟩
  · intro hb hs hsv hstable hready
    have hXne : rstripSlash base ++ "/" ++ stripSlash server ≠ "" := by
      apply str_ne_empty_of_toList
      rw [toList_append_str]
      simp
    have hsb2 : serverBaseOf base server = rstripSlash base ++ "/" ++ stripSlash server := by
      simp only [serverBaseOf]
      rw [if_pos hsv]
      exact hstable
    have hbb : badBrackets (urlsplitStr
        (rstripSlash base ++ "/" ++ stripSlash server ++ "/")).netloc.toList = false := by
      have h2 := hready
      simp only [joinReady, Bool.and_eq_true, Bool.not_eq_true'] at h2
      exact h2.2
    have hsplit : urlsplitE (rstripSlash base ++ "/" ++ stripSlash server ++ "/")
        = .ok (urlsplitStr (rstripSlash base ++ "/" ++ stripSlash server ++ "/")) := by
      unfold urlsplitE
      rw [hbb]
      exact rfl
    have hop : initOpenapi (serverBaseOf base server) Option.none
        = .ok (some (urljoin (rstripSlash base ++ "/" ++ stripSlash server ++ "/")
            "openapi.json")) := by
      rw [hsb2]
      exact initOpenapi_none_ok _ hXne _ hsplit
    rw [init_ok base server Option.none Option.none (some "query") Option.none
      Option.none Option.none Option.none hb hs (fun t ht => Option.noConfusion ht) _ hop]
    have hopen : (initFields base server Option.none Option.none (some "query")
        Option.none Option.none Option.none
        (some (urljoin (rstripSlash base ++ "/" ++ stripSlash server ++ "/")
          "openapi.json"))).openapi_url
        = some (rstripSlash base ++ "/" ++ stripSlash server ++ "/openapi.json") := by
      rw [show (initFields base server Option.none Option.none (some "query")
          Option.none Option.none Option.none
          (some (urljoin (rstripSlash base ++ "/" ++ stripSlash server ++ "/")
            "openapi.json"))).openapi_url
        = some (urljoin (rstripSlash base ++ "/" ++ stripSlash server ++ "/")
            "openapi.json") from rfl]
      rw [urljoin_ready _ hready]
      congr 1
      apply str_eq_of_toList
      simp [toList_append_str, List.append_assoc]
    simp only [Except.map]
    rw [hopen]

/-- C4 counterexample: the spec says construction fails when the base address
is empty after trimming; base `"/"` is empty after the constructor's own
slash-trim, yet construction succeeds. -/
theorem construction_contract_cex :
    rstripSlash "/" = "" ∧
    (MCPOConnector.init "/" "math" Option.none Option.none (some "query")
      Option.none Option.none Option.none Option.none).isOk = true :=
  ⟨rfl, rfl⟩

theorem construction_contract_witness :
    (MCPOConnector.init "http://localhost:8000" "math" Option.none Option.none
        (some "query") Option.none Option.none Option.none Option.none).map
      (fun c => c.openapi_url)
      = .ok (some "http://localhost:8000/math/openapi.json") := by
  have h := (construction_contract "http://localhost:8000" "math").2
    (by decide) (by decide) (by decide) (by rfl) (by rfl)
  rw [h]
  rfl

/-! ### Dictionary algebra for the validator idempotence claim -/

theorem setKey_cons (k0 : String) (v0 : PyVal) (l : PyDict) (k : String) (v : PyVal) :
    setKey ((k0, v0) :: l) k v
      = if k0 = k then (k0, v) :: l else (k0, v0) :: setKey l k v := rfl

theorem popKey_cons (k0 : String) (v0 : PyVal) (l : PyDict) (k : String) :
    popKey ((k0, v0) :: l) k
      = if k0 = k then l else (k0, v0) :: popKey l k := rfl

theorem setKey_of_getKey_eq : ∀ (c : PyDict) (k : String) (v : PyVal),
    getKey c k = some v → setKey c k v = c := by
  intro c
  induction c with
  | nil => intro k v h; exact Option.noConfusion h
  | cons kv rest ih =>
      intro k v h
      obtain ⟨k0, v0⟩ := kv
      rw [getKey_cons] at h
      rw [setKey_cons]
      by_cases hk : k0 = k
      · rw [if_pos hk] at h ⊢
        rw [Option.some.inj h]
      · rw [if_neg hk] at h ⊢
        rw [ih k v h]

theorem popKey_of_getKey_none : ∀ (c : PyDict) (k : String),
    getKey c k = Option.none → popKey c k = c := by
  intro c
  induction c with
  | nil => intro k _; rfl
  | cons kv rest ih =>
      intro k h
      obtain ⟨k0, v0⟩ := kv
      rw [getKey_cons] at h
      rw [popKey_cons]
      by_cases hk : k0 = k
      · rw [if_pos hk] at h
        exact absurd h (by simp)
      · rw [if_neg hk] at h
        rw [if_neg hk, ih k h]

theorem getKey_popKey_ne : ∀ (c : PyDict) (k k' : String), k' ≠ k →
    getKey (popKey c k) k' = getKey c k' := by
  intro c
  induction c with
  | nil => intro k k' _; rfl
  | cons kv rest ih =>
      intro k k' hne
      obtain ⟨k0, v0⟩ := kv
      rw [popKey_cons]
      by_cases hk : k0 = k
      · rw [if_pos hk]
        rw [getKey_cons, if_neg (fun hc => hne ((hc.symm.trans hk)))]
      · rw [if_neg hk, getKey_cons, getKey_cons]
        by_cases hk' : k0 = k'
        · rw [if_pos hk', if_pos hk']
        · rw [if_neg hk', if_neg hk']
          exact ih k k' hne

theorem mem_keysOf_cons (k0 : String) (v0 : PyVal) (l : PyDict) (k : String) :
    (k ∈ keysOf ((k0, v0) :: l)) ↔ (k = k0 ∨ k ∈ keysOf l) := by
  show (k ∈ k0 :: keysOf l) ↔ _
  exact List.mem_cons

theorem mem_keysOf_setKey : ∀ (c : PyDict) (k : String) (v : PyVal) (k' : String),
    k' ∈ keysOf (setKey c k v) → k' = k ∨ k' ∈ keysOf c := by
  intro c
  induction c with
  | nil =>
      intro k v k' h
      rcases (mem_keysOf_cons k v [] k').mp h with h | h
      · exact Or.inl h
      · exact absurd h (by simp [keysOf])
  | cons kv rest ih =>
      intro k v k' h
      obtain ⟨k0, v0⟩ := kv
      rw [setKey_cons] at h
      by_cases hk : k0 = k
      · rw [if_pos hk] at h
        rcases (mem_keysOf_cons k0 v rest k').mp h with h | h
        · exact Or.inr ((mem_keysOf_cons k0 v0 rest k').mpr (Or.inl h))
        · exact Or.inr ((mem_keysOf_cons k0 v0 rest k').mpr (Or.inr h))
      · rw [if_neg hk] at h
        rcases (mem_keysOf_cons k0 v0 (setKey rest k v) k').mp h with h | h
        · exact Or.inr ((mem_keysOf_cons k0 v0 rest k').mpr (Or.inl h))
        · rcases ih k v k' h with h2 | h2
          · exact Or.inl h2
          · exact Or.inr ((mem_keysOf_cons k0 v0 rest k').mpr (Or.inr h2))

theorem mem_keysOf_popKey : ∀ (c : PyDict) (k : String) (k' : String),
    k' ∈ keysOf (popKey c k) → k' ∈ keysOf c := by
  intro c
  induction c with
  | nil => intro k k' h; exact h
  | cons kv rest ih =>
      intro k k' h
      obtain ⟨k0, v0⟩ := kv
      rw [popKey_cons] at h
      by_cases hk : k0 = k
      · rw [if_pos hk] at h
        exact (mem_keysOf_cons k0 v0 rest k').mpr (Or.inr h)
      · rw [if_neg hk] at h
        rcases (mem_keysOf_cons k0 v0 (popKey rest k) k').mp h with h | h
        · exact (mem_keysOf_cons k0 v0 rest k').mpr (Or.inl h)
        · exact (mem_keysOf_cons k0 v0 rest k').mpr (Or.inr (ih k k' h))

theorem keysOf_setKey_of_mem : ∀ (c : PyDict) (k : String) (v w : PyVal),
    getKey c k = some w → keysOf (setKey c k v) = keysOf c := by
  intro c
  induction c with
  | nil => intro k v w h; exact Option.noConfusion h
  | cons kv rest ih =>
      intro k v w h
      obtain ⟨k0, v0⟩ := kv
      rw [getKey_cons] at h
      rw [setKey_cons]
      by_cases hk : k0 = k
      · rw [if_pos hk]
        rfl
      · rw [if_neg hk] at h ⊢
        show k0 :: keysOf (setKey rest k v) = k0 :: keysOf rest
        rw [ih k v w h]

theorem nodup_keysOf_setKey (c : PyDict) (k : String) (v : PyVal)
    (h : (keysOf c).Nodup) : (keysOf (setKey c k v)).Nodup := by
  rcases hg : getKey c k with _ | w
  · rw [setKey_absent c k v hg]
    have hnm : k ∉ keysOf c := by
      intro hm
      induction c with
      | nil => exact absurd hm (by simp [keysOf])
      | cons kv rest ih =>
          obtain ⟨k0, v0⟩ := kv
          rw [getKey_cons] at hg
          rcases (mem_keysOf_cons k0 v0 rest k).mp hm with h2 | h2
          · rw [if_pos h2.symm] at hg
            exact Option.noConfusion hg
          · by_cases hk : k0 = k
            · rw [if_pos hk] at hg
              exact Option.noConfusion hg
            · rw [if_neg hk] at hg
              exact ih (List.Nodup.of_cons h) hg h2
    have hkeys : keysOf (c ++ [(k, v)]) = keysOf c ++ [k] := by
      unfold keysOf
      rw [List.map_append]
      rfl
    rw [hkeys]
    simp [List.nodup_append, h, hnm]
  · rw [keysOf_setKey_of_mem c k v w hg]
    exact h

theorem nodup_keysOf_popKey : ∀ (c : PyDict) (k : String),
    (keysOf c).Nodup → (keysOf (popKey c k)).Nodup := by
  intro c
  induction c with
  | nil => intro k h; exact h
  | cons kv rest ih =>
      intro k h
      obtain ⟨k0, v0⟩ := kv
      rw [popKey_cons]
      by_cases hk : k0 = k
      · rw [if_pos hk]
        exact List.Nodup.of_cons h
      · rw [if_neg hk]
        show (k0 :: keysOf (popKey rest k)).Nodup
        rw [List.nodup_cons]
        refine ⟨fun hm => ?_, ih k (List.Nodup.of_cons h)⟩
        exact (List.nodup_cons.mp h).1 (mem_keysOf_popKey rest k k0 hm)

theorem getKey_popKey_self : ∀ (c : PyDict) (k : String),
    (keysOf c).Nodup → getKey (popKey c k) k = Option.none := by
  intro c
  induction c with
  | nil => intro k _; rfl
  | cons kv rest ih =>
      intro k h
      obtain ⟨k0, v0⟩ := kv
      rw [popKey_cons]
      by_cases hk : k0 = k
      · rw [if_pos hk]
        subst hk
        rcases hg : getKey rest k0 with _ | w
        · rfl
        · exfalso
          apply (List.nodup_cons.mp h).1
          clear ih h
          induction rest with
          | nil => exact Option.noConfusion hg
          | cons kv2 rest2 ih2 =>
              obtain ⟨k1, v1⟩ := kv2
              rw [getKey_cons] at hg
              by_cases hk1 : k1 = k0
              · exact (mem_keysOf_cons k1 v1 rest2 k0).mpr (Or.inl hk1.symm)
              · rw [if_neg hk1] at hg
                exact (mem_keysOf_cons k1 v1 rest2 k0).mpr (Or.inr (ih2 hg))
      · rw [if_neg hk, getKey_cons, if_neg hk]
        exact ih k (List.Nodup.of_cons h)

/-! ### Idempotence of the string trims -/

theorem dropWhile_idem (p : Char → Bool) : ∀ (l : List Char),
    (l.dropWhile p).dropWhile p = l.dropWhile p := by
  intro l
  induction l with
  | nil => rfl
  | cons c cs ih =>
      rw [List.dropWhile_cons]
      by_cases hc : p c = true
      · rw [if_pos hc]
        exact ih
      · rw [if_neg hc, List.dropWhile_cons, if_neg hc]

theorem dropWhile_tail_ex (p : Char → Bool) : ∀ (l : List Char),
    ∃ t, l = t ++ l.dropWhile p := by
  intro l
  induction l with
  | nil => exact ⟨[], rfl⟩
  | cons c cs ih =>
      rw [List.dropWhile_cons]
      by_cases hc : p c = true
      · rw [if_pos hc]
        obtain ⟨t, ht⟩ := ih
        exact ⟨c :: t, by rw [List.cons_append, ← ht]⟩
      · rw [if_neg hc]
        exact ⟨[], rfl⟩

theorem rstripList_front_ex (p : Char → Bool) (l : List Char) :
    ∃ t, l = rstripList p l ++ t := by
  obtain ⟨t, ht⟩ := dropWhile_tail_ex p l.reverse
  refine ⟨t.reverse, ?_⟩
  have h2 := congrArg List.reverse ht
  rw [List.reverse_reverse, List.reverse_append] at h2
  exact h2

theorem rstripList_idem (p : Char → Bool) (l : List Char) :
    rstripList p (rstripList p l) = rstripList p l := by
  unfold rstripList
  rw [List.reverse_reverse, dropWhile_idem]

theorem length_dropWhile_le_own (p : Char → Bool) : ∀ (l : List Char),
    (l.dropWhile p).length ≤ l.length := by
  intro l
  induction l with
  | nil => exact Nat.le_refl _
  | cons c cs ih =>
      rw [List.dropWhile_cons]
      by_cases hc : p c = true
      · rw [if_pos hc]
        exact Nat.le_trans ih (Nat.le_succ _)
      · rw [if_neg hc]

theorem lstrip_rstrip_lstrip (p : Char → Bool) (l : List Char) :
    lstripList p (rstripList p (lstripList p l)) = rstripList p (lstripList p l) := by
  have hmd : List.dropWhile p (lstripList p l) = lstripList p l := dropWhile_idem p l
  obtain ⟨t, ht⟩ := rstripList_front_ex p (lstripList p l)
  cases hr : rstripList p (lstripList p l) with
  | nil => rfl
  | cons c rest =>
      have hpc : p c = false := by
        rw [hr] at ht
        cases hpcv : p c with
        | false => rfl
        | true =>
            exfalso
            rw [ht, List.cons_append, List.dropWhile_cons, if_pos hpcv] at hmd
            have hlen := congrArg List.length hmd
            rw [List.length_cons] at hlen
            have hle := length_dropWhile_le_own p (rest ++ t)
            omega
      show lstripList p (c :: rest) = c :: rest
      unfold lstripList
      rw [List.dropWhile_cons, if_neg (by simp [hpc])]

theorem stripPair_idem (p : Char → Bool) (l : List Char) :
    rstripList p (lstripList p (rstripList p (lstripList p l)))
      = rstripList p (lstripList p l) := by
  rw [lstrip_rstrip_lstrip, rstripList_idem]

theorem stripWS_idem (s : String) : stripWS (stripWS s) = stripWS s :=
  congrArg String.mk (stripPair_idem isPySpace s.toList)

theorem stripSlash_idem (s : String) : stripSlash (stripSlash s) = stripSlash s :=
  congrArg String.mk (stripPair_idem (fun c => c = '/') s.toList)

theorem rstripSlash_idem (s : String) : rstripSlash (rstripSlash s) = rstripSlash s :=
  congrArg String.mk (rstripList_idem (fun c => c = '/') s.toList)

/-! ### Deduplication and tool-list sanitization facts -/

theorem dedupKeep_of_nodup {α : Type} [DecidableEq α] : ∀ (n : Nat) (l : List α),
    l.length ≤ n → l.Nodup → dedupKeep l = l := by
  intro n
  induction n with
  | zero =>
      intro l hl _
      rw [List.eq_nil_of_length_eq_zero (Nat.le_zero.mp hl)]
      rfl
  | succ n ih =>
      intro l hl hnd
      cases l with
      | nil => rfl
      | cons x xs =>
          have hlen : xs.length ≤ n := by
            simpa using Nat.le_of_succ_le_succ (by simpa using hl)
          rw [dedupKeep_cons]
          have hfx : xs.filter (fun y => decide (y ≠ x)) = xs := by
            apply filter_eq_self_of_all
            intro a ha
            exact decide_eq_true (fun hc => (List.nodup_cons.mp hnd).1 (hc ▸ ha))
          rw [hfx, ih xs hlen (List.Nodup.of_cons hnd)]

theorem dedupKeep_nodup {α : Type} [DecidableEq α] : ∀ (n : Nat) (l : List α),
    l.length ≤ n → (dedupKeep l).Nodup := by
  intro n
  induction n with
  | zero =>
      intro l hl
      rw [List.eq_nil_of_length_eq_zero (Nat.le_zero.mp hl)]
      exact List.nodup_nil
  | succ n ih =>
      intro l hl
      cases l with
      | nil => exact List.nodup_nil
      | cons x xs =>
          have hlen : xs.length ≤ n := by
            simpa using Nat.le_of_succ_le_succ (by simpa using hl)
          rw [dedupKeep_cons]
          rw [List.nodup_cons]
          constructor
          · intro hm
            have h2 := mem_dedupKeep x (xs.filter (fun y => decide (y ≠ x))).length
              _ (Nat.le_refl _) hm
            have h3 := List.of_mem_filter h2
            simp at h3
          · exact ih _ (Nat.le_trans (List.length_filter_le _ _) hlen)

theorem sanitizeToolsList_ok_spec : ∀ (items : List PyVal) (ts : List String),
    sanitizeToolsList items = .ok ts → ∀ t ∈ ts, stripWS t = t ∧ t ≠ "" := by
  intro items
  induction items with
  | nil =>
      intro ts h t ht
      rw [show sanitizeToolsList [] = .ok [] from rfl] at h
      rw [← Except.ok.inj h] at ht
      exact absurd ht (by simp)
  | cons x xs ih =>
      intro ts h t ht
      cases x with
      | str s =>
          by_cases hs : stripWS s = ""
          · rw [show sanitizeToolsList (PyVal.str s :: xs)
                = (if stripWS s = "" then .error "MCPO_TOOLS entries must be non-empty strings"
                   else match sanitizeToolsList xs with
                     | .ok ts => .ok (stripWS s :: ts)
                     | .error e => .error e) from rfl, if_pos hs] at h
            exact Except.noConfusion h
          · rw [show sanitizeToolsList (PyVal.str s :: xs)
                = (if stripWS s = "" then .error "MCPO_TOOLS entries must be non-empty strings"
                   else match sanitizeToolsList xs with
                     | .ok ts => .ok (stripWS s :: ts)
                     | .error e => .error e) from rfl, if_neg hs] at h
            rcases hx : sanitizeToolsList xs with e | ts0
            · rw [hx] at h
              exact Except.noConfusion h
            · rw [hx] at h
              rw [← Except.ok.inj h] at ht
              rcases List.mem_cons.mp ht with h2 | h2
              · subst h2
                exact ⟨stripWS_idem s, hs⟩
              · exact ih ts0 hx t h2
      | none => exact Except.noConfusion h
      | bool b => exact Except.noConfusion h
      | int n => exact Except.noConfusion h
      | float q => exact Except.noConfusion h
      | list ys => exact Except.noConfusion h
      | dict kvs => exact Except.noConfusion h

theorem sanitizeToolsList_map_str : ∀ (ts : List String),
    (∀ t ∈ ts, stripWS t = t ∧ t ≠ "") →
    sanitizeToolsList (ts.map PyVal.str) = .ok ts := by
  intro ts
  induction ts with
  | nil => intro _; rfl
  | cons t ts0 ih =>
      intro h
      have ht := h t (by simp)
      rw [List.map_cons]
      rw [show sanitizeToolsList (PyVal.str t :: ts0.map PyVal.str)
          = (if stripWS t = "" then .error "MCPO_TOOLS entries must be non-empty strings"
             else match sanitizeToolsList (ts0.map PyVal.str) with
               | .ok ts => .ok (stripWS t :: ts)
               | .error e => .error e) from rfl]
      rw [if_neg (by rw [ht.1]; exact ht.2)]
      rw [ih (fun a ha => h a (List.mem_cons_of_mem _ ha))]
      rw [ht.1]

/-! ### Validator stage characterizations (first pass) -/

theorem filter_eq_nil_of_all_false {α : Type} (p : α → Bool) : ∀ (l : List α),
    (∀ a ∈ l, p a = false) → l.filter p = [] := by
  intro l
  induction l with
  | nil => intro _; rfl
  | cons a l' ih =>
      intro h
      rw [List.filter_cons, if_neg (by simp [h a (by simp)])]
      exact ih (fun b hb => h b (List.mem_cons_of_mem _ hb))

theorem all_true_of_filter_eq_nil {α : Type} (p : α → Bool) : ∀ (l : List α),
    l.filter p = [] → ∀ a ∈ l, p a = false := by
  intro l
  induction l with
  | nil => intro _ a ha; exact absurd ha (by simp)
  | cons b l' ih =>
      intro h a ha
      rw [List.filter_cons] at h
      by_cases hpb : p b = true
      · rw [if_pos hpb] at h
        exact List.noConfusion h
      · rw [if_neg hpb] at h
        rcases List.mem_cons.mp ha with h2 | h2
        · subst h2
          exact Bool.eq_false_iff.mpr hpb
        · exact ih h a h2

theorem dedupKeep_eq_nil {α : Type} [DecidableEq α] (l : List α)
    (h : dedupKeep l = []) : l = [] := by
  cases l with
  | nil => rfl
  | cons x xs =>
      rw [dedupKeep_cons] at h
      exact List.noConfusion h

theorem unexpected_ok (c c' : PyDict) (h : mcpoCheckUnexpected c = .ok c') :
    c' = c ∧ ∀ k ∈ keysOf c, k ∈ mcpoRequiredKeys ++ mcpoOptionalKeys := by
  simp only [mcpoCheckUnexpected] at h
  by_cases hu : dedupKeep ((keysOf c).filter
      (fun k => decide (k ∉ mcpoRequiredKeys ++ mcpoOptionalKeys))) = []
  · constructor
    · rw [if_neg (fun hx => hx hu)] at h
      exact (Except.ok.inj h).symm
    · intro k hk
      have hf := all_true_of_filter_eq_nil _ _ (dedupKeep_eq_nil _ hu) k hk
      exact not_not.mp (of_decide_eq_false hf)
  · rw [if_pos hu] at h
    exact Except.noConfusion h

theorem unexpected_id (c : PyDict)
    (hall : ∀ k ∈ keysOf c, k ∈ mcpoRequiredKeys ++ mcpoOptionalKeys) :
    mcpoCheckUnexpected c = .ok c := by
  simp only [mcpoCheckUnexpected]
  rw [filter_eq_nil_of_all_false _ (keysOf c)
    (fun a ha => decide_eq_false (not_not.mpr (hall a ha)))]
  rw [show dedupKeep ([] : List String) = [] from rfl]
  rw [if_neg (fun hx => hx rfl)]

theorem missing_ok (c c' : PyDict) (h : mcpoCheckMissing c = .ok c') : c' = c := by
  simp only [mcpoCheckMissing] at h
  by_cases hm : mcpoRequiredKeys.filter (fun k => (getKey c k).isNone) = []
  · rw [if_neg (fun hx => hx hm)] at h
    exact (Except.ok.inj h).symm
  · rw [if_pos hm] at h
    exact Except.noConfusion h

theorem missing_id (c : PyDict) (hb : ∃ v, getKey c "MCPO_BASE_URL" = some v)
    (hs : ∃ v, getKey c "MCPO_SERVER" = some v) : mcpoCheckMissing c = .ok c := by
  obtain ⟨vb, hvb⟩ := hb
  obtain ⟨vs, hvs⟩ := hs
  simp only [mcpoCheckMissing]
  have hf : mcpoRequiredKeys.filter (fun k => (getKey c k).isNone) = [] := by
    unfold mcpoRequiredKeys
    rw [List.filter_cons, if_neg (by rw [hvb]; simp)]
    rw [List.filter_cons, if_neg (by rw [hvs]; simp)]
    rfl
  rw [hf, if_neg (fun hx => hx rfl)]

theorem baseStage_ok (c c' : PyDict) (h : mcpoBaseStage c = .ok c') :
    ∃ s, stripWS s ≠ "" ∧ getKey c "MCPO_BASE_URL" = some (.str s) ∧
      c' = setKey c "MCPO_BASE_URL" (.str (rstripSlash (stripWS s))) := by
  unfold mcpoBaseStage at h
  rcases hg : getKey c "MCPO_BASE_URL" with _ | v
  · rw [hg] at h
    exact Except.noConfusion h
  · rw [hg] at h
    cases v with
    | str s =>
        have h2 : (if stripWS s = "" then
            (.error "MCPO_BASE_URL must be a non-empty string" : Except String PyDict)
          else .ok (setKey c "MCPO_BASE_URL" (.str (rstripSlash (stripWS s))))) = .ok c' := h
        by_cases hs : stripWS s = ""
        · rw [if_pos hs] at h2
          exact Except.noConfusion h2
        · rw [if_neg hs] at h2
          exact ⟨s, hs, rfl, (Except.ok.inj h2).symm⟩
    | none => exact Except.noConfusion h
    | bool b => exact Except.noConfusion h
    | int n => exact Except.noConfusion h
    | float q => exact Except.noConfusion h
    | list xs => exact Except.noConfusion h
    | dict kvs => exact Except.noConfusion h

theorem baseStage_id (c : PyDict) (b : String)
    (hg : getKey c "MCPO_BASE_URL" = some (.str b))
    (h1 : stripWS b = b) (h2 : b ≠ "") (h3 : rstripSlash b = b) :
    mcpoBaseStage c = .ok c := by
  unfold mcpoBaseStage
  rw [hg]
  show (if stripWS b = "" then
      (.error "MCPO_BASE_URL must be a non-empty string" : Except String PyDict)
    else .ok (setKey c "MCPO_BASE_URL" (.str (rstripSlash (stripWS b))))) = .ok c
  rw [h1, if_neg h2, h3, setKey_of_getKey_eq c _ _ hg]

theorem serverStage_ok (c c' : PyDict) (h : mcpoServerStage c = .ok c') :
    ∃ s, stripWS s ≠ "" ∧ getKey c "MCPO_SERVER" = some (.str s) ∧
      c' = setKey c "MCPO_SERVER" (.str (stripSlash (stripWS s))) := by
  unfold mcpoServerStage at h
  rcases hg : getKey c "MCPO_SERVER" with _ | v
  · rw [hg] at h
    exact Except.noConfusion h
  · rw [hg] at h
    cases v with
    | str s =>
        have h2 : (if stripWS s = "" then
            (.error "MCPO_SERVER must be a non-empty string" : Except String PyDict)
          else .ok (setKey c "MCPO_SERVER" (.str (stripSlash (stripWS s))))) = .ok c' := h
        by_cases hs : stripWS s = ""
        · rw [if_pos hs] at h2
          exact Except.noConfusion h2
        · rw [if_neg hs] at h2
          exact ⟨s, hs, rfl, (Except.ok.inj h2).symm⟩
    | none => exact Except.noConfusion h
    | bool b => exact Except.noConfusion h
    | int n => exact Except.noConfusion h
    | float q => exact Except.noConfusion h
    | list xs => exact Except.noConfusion h
    | dict kvs => exact Except.noConfusion h

theorem serverStage_id (c : PyDict) (b : String)
    (hg : getKey c "MCPO_SERVER" = some (.str b))
    (h1 : stripWS b = b) (h2 : b ≠ "") (h3 : stripSlash b = b) :
    mcpoServerStage c = .ok c := by
  unfold mcpoServerStage
  rw [hg]
  show (if stripWS b = "" then
      (.error "MCPO_SERVER must be a non-empty string" : Except String PyDict)
    else .ok (setKey c "MCPO_SERVER" (.str (stripSlash (stripWS b))))) = .ok c
  rw [h1, if_neg h2, h3, setKey_of_getKey_eq c _ _ hg]

theorem openapiStage_ok (c c' : PyDict) (h : mcpoOpenapiStage c = .ok c') :
    c' = popKey c "MCPO_OPENAPI_URL" ∨
      ∃ s, stripWS s ≠ "" ∧ c' = setKey c "MCPO_OPENAPI_URL" (.str (stripWS s)) := by
  simp only [mcpoOpenapiStage] at h
  unfold dictGet at h
  rcases hg : getKey c "MCPO_OPENAPI_URL" with _ | v
  · rw [hg] at h
    exact Or.inl (Except.ok.inj h).symm
  · rw [hg] at h
    cases v with
    | none => exact Or.inl (Except.ok.inj h).symm
    | str s =>
        by_cases hse : s = ""
        · subst hse
          exact Or.inl (Except.ok.inj h).symm
        · have h2 : (if (s == "") = true then
              (.ok (popKey c "MCPO_OPENAPI_URL") : Except String PyDict)
            else if stripWS s ≠ "" then
              .ok (setKey c "MCPO_OPENAPI_URL" (.str (stripWS s)))
            else .ok (popKey c "MCPO_OPENAPI_URL")) = .ok c' := h
          rw [if_neg (by simp [hse])] at h2
          by_cases hst : stripWS s = ""
          · rw [if_neg (fun hx => hx hst)] at h2
            exact Or.inl (Except.ok.inj h2).symm
          · rw [if_pos hst] at h2
            exact Or.inr ⟨s, hst, (Except.ok.inj h2).symm⟩
    | bool b => exact Except.noConfusion h
    | int n => exact Except.noConfusion h
    | float q => exact Except.noConfusion h
    | list xs => exact Except.noConfusion h
    | dict kvs => exact Except.noConfusion h

theorem openapiStage_id (c : PyDict)
    (hK : getKey c "MCPO_OPENAPI_URL" = Option.none ∨
      ∃ s, getKey c "MCPO_OPENAPI_URL" = some (.str s) ∧ stripWS s = s ∧ s ≠ "") :
    mcpoOpenapiStage c = .ok c := by
  simp only [mcpoOpenapiStage]
  unfold dictGet
  rcases hK with hg | ⟨s, hg, hst, hne⟩
  · rw [hg]
    show (.ok (popKey c "MCPO_OPENAPI_URL") : Except String PyDict) = .ok c
    rw [popKey_of_getKey_none c _ hg]
  · rw [hg]
    show (if (s == "") = true then
        (.ok (popKey c "MCPO_OPENAPI_URL") : Except String PyDict)
      else if stripWS s ≠ "" then .ok (setKey c "MCPO_OPENAPI_URL" (.str (stripWS s)))
      else .ok (popKey c "MCPO_OPENAPI_URL")) = .ok c
    rw [if_neg (by simp [hne]), hst, if_pos hne, setKey_of_getKey_eq c _ _ hg]

theorem staticStage_ok (c c' : PyDict) (h : mcpoStaticStage c = .ok c') :
    ∃ kvs, c' = setKey c "MCPO_STATIC_ARGS" (.dict kvs) := by
  simp only [mcpoStaticStage] at h
  unfold dictGet at h
  rcases hg : getKey c "MCPO_STATIC_ARGS" with _ | v
  · rw [hg] at h
    exact ⟨[], (Except.ok.inj h).symm⟩
  · rw [hg] at h
    cases v with
    | none => exact ⟨[], (Except.ok.inj h).symm⟩
    | str s =>
        by_cases hse : s = ""
        · subst hse
          exact ⟨[], (Except.ok.inj h).symm⟩
        · have h2 : (if (s == "") = true then
              (.ok (setKey c "MCPO_STATIC_ARGS" (.dict [])) : Except String PyDict)
            else match jsonLoads s with
              | Option.none => .error "MCPO_STATIC_ARGS must be a valid JSON object string"
              | some (.dict kvs) => .ok (setKey c "MCPO_STATIC_ARGS" (.dict kvs))
              | some _ => .error "MCPO_STATIC_ARGS must decode to a JSON object") = .ok c' := h
          rw [if_neg (by simp [hse])] at h2
          rcases hjl : jsonLoads s with _ | jv
          · rw [hjl] at h2
            exact Except.noConfusion h2
          · rw [hjl] at h2
            cases jv with
            | dict kvs => exact ⟨kvs, (Except.ok.inj h2).symm⟩
            | none => exact Except.noConfusion h2
            | bool b => exact Except.noConfusion h2
            | int n => exact Except.noConfusion h2
            | float q => exact Except.noConfusion h2
            | str s2 => exact Except.noConfusion h2
            | list xs => exact Except.noConfusion h2
    | dict kvs => exact ⟨kvs, (Except.ok.inj h).symm⟩
    | bool b => exact Except.noConfusion h
    | int n => exact Except.noConfusion h
    | float q => exact Except.noConfusion h
    | list xs => exact Except.noConfusion h

theorem staticStage_id (c : PyDict) (kvs : PyDict)
    (hg : getKey c "MCPO_STATIC_ARGS" = some (.dict kvs)) :
    mcpoStaticStage c = .ok c := by
  simp only [mcpoStaticStage]
  unfold dictGet
  rw [hg]
  show (.ok (setKey c "MCPO_STATIC_ARGS" (.dict kvs)) : Except String PyDict) = .ok c
  rw [setKey_of_getKey_eq c _ _ hg]

theorem resultPathStage_ok (c c' : PyDict) (h : mcpoResultPathStage c = .ok c') :
    (c' = c ∧ (getKey c "MCPO_RESULT_PATH" = Option.none ∨
        getKey c "MCPO_RESULT_PATH" = some PyVal.none)) ∨
    (∃ s, stripWS s ≠ "" ∧ c' = setKey c "MCPO_RESULT_PATH" (.str (stripWS s))) ∨
    c' = popKey c "MCPO_RESULT_PATH" := by
  simp only [mcpoResultPathStage] at h
  unfold dictGet at h
  rcases hg : getKey c "MCPO_RESULT_PATH" with _ | v
  · rw [hg] at h
    exact Or.inl ⟨(Except.ok.inj h).symm, Or.inl rfl⟩
  · rw [hg] at h
    cases v with
    | none => exact Or.inl ⟨(Except.ok.inj h).symm, Or.inr rfl⟩
    | str s =>
        have h2 : (if stripWS s ≠ "" then
            (.ok (setKey c "MCPO_RESULT_PATH" (.str (stripWS s))) : Except String PyDict)
          else .ok (popKey c "MCPO_RESULT_PATH")) = .ok c' := h
        by_cases hst : stripWS s = ""
        · rw [if_neg (fun hx => hx hst)] at h2
          exact Or.inr (Or.inr (Except.ok.inj h2).symm)
        · rw [if_pos hst] at h2
          exact Or.inr (Or.inl ⟨s, hst, (Except.ok.inj h2).symm⟩)
    | bool b => exact Except.noConfusion h
    | int n => exact Except.noConfusion h
    | float q => exact Except.noConfusion h
    | list xs => exact Except.noConfusion h
    | dict kvs => exact Except.noConfusion h

theorem resultPathStage_id (c : PyDict)
    (hK : getKey c "MCPO_RESULT_PATH" = Option.none ∨
      getKey c "MCPO_RESULT_PATH" = some PyVal.none ∨
      ∃ s, getKey c "MCPO_RESULT_PATH" = some (.str s) ∧ stripWS s = s ∧ s ≠ "") :
    mcpoResultPathStage c = .ok c := by
  simp only [mcpoResultPathStage]
  unfold dictGet
  rcases hK with hg | hg | ⟨s, hg, hst, hne⟩
  · rw [hg]
    rfl
  · rw [hg]
    rfl
  · rw [hg]
    show (if stripWS s ≠ "" then
        (.ok (setKey c "MCPO_RESULT_PATH" (.str (stripWS s))) : Except String PyDict)
      else .ok (popKey c "MCPO_RESULT_PATH")) = .ok c
    rw [hst, if_pos hne, setKey_of_getKey_eq c _ _ hg]

theorem queryParamStage_ok (c c' : PyDict) (h : mcpoQueryParamStage c = .ok c') :
    (c' = c ∧ (getKey c "MCPO_QUERY_PARAM" = Option.none ∨
        getKey c "MCPO_QUERY_PARAM" = some PyVal.none)) ∨
    (∃ v, (v = PyVal.none ∨ ∃ s, v = .str s ∧ stripWS s = s ∧ s ≠ "") ∧
      c' = setKey c "MCPO_QUERY_PARAM" v) := by
  simp only [mcpoQueryParamStage] at h
  unfold dictGet at h
  rcases hg : getKey c "MCPO_QUERY_PARAM" with _ | v
  · rw [hg] at h
    exact Or.inl ⟨(Except.ok.inj h).symm, Or.inl rfl⟩
  · rw [hg] at h
    cases v with
    | none => exact Or.inl ⟨(Except.ok.inj h).symm, Or.inr rfl⟩
    | str s =>
        have h2 : (.ok (setKey c "MCPO_QUERY_PARAM"
            (if stripWS s ≠ "" then .str (stripWS s) else .none)) : Except String PyDict)
            = .ok c' := h
        by_cases hst : stripWS s = ""
        · rw [if_neg (fun hx => hx hst)] at h2
          exact Or.inr ⟨PyVal.none, Or.inl rfl, (Except.ok.inj h2).symm⟩
        · rw [if_pos hst] at h2
          exact Or.inr ⟨.str (stripWS s), Or.inr ⟨stripWS s, rfl, stripWS_idem s, hst⟩,
            (Except.ok.inj h2).symm⟩
    | bool b => exact Except.noConfusion h
    | int n => exact Except.noConfusion h
    | float q => exact Except.noConfusion h
    | list xs => exact Except.noConfusion h
    | dict kvs => exact Except.noConfusion h

theorem queryParamStage_id (c : PyDict)
    (hK : getKey c "MCPO_QUERY_PARAM" = Option.none ∨
      getKey c "MCPO_QUERY_PARAM" = some PyVal.none ∨
      ∃ s, getKey c "MCPO_QUERY_PARAM" = some (.str s) ∧ stripWS s = s ∧ s ≠ "") :
    mcpoQueryParamStage c = .ok c := by
  simp only [mcpoQueryParamStage]
  unfold dictGet
  rcases hK with hg | hg | ⟨s, hg, hst, hne⟩
  · rw [hg]
    rfl
  · rw [hg]
    rfl
  · rw [hg]
    show (.ok (setKey c "MCPO_QUERY_PARAM"
        (if stripWS s ≠ "" then .str (stripWS s) else .none)) : Except String PyDict) = .ok c
    rw [hst, if_pos hne, setKey_of_getKey_eq c _ _ hg]

theorem timeoutStage_ok (c c' : PyDict) (h : mcpoTimeoutStage c = .ok c') :
    c' = popKey c "MCPO_TIMEOUT" ∨ ∃ q, c' = setKey c "MCPO_TIMEOUT" (.float q) := by
  simp only [mcpoTimeoutStage] at h
  unfold dictGet at h
  rcases hg : getKey c "MCPO_TIMEOUT" with _ | v
  · rw [hg] at h
    exact Or.inl (Except.ok.inj h).symm
  · rw [hg] at h
    have hcase : ∀ w : PyVal, (if isNoneOrEmptyStr w = true then
        (.ok (popKey c "MCPO_TIMEOUT") : Except String PyDict)
      else match pyFloat w with
        | some q => .ok (setKey c "MCPO_TIMEOUT" (.float q))
        | Option.none => .error "MCPO_TIMEOUT must be a number") = .ok c' →
        c' = popKey c "MCPO_TIMEOUT" ∨ ∃ q, c' = setKey c "MCPO_TIMEOUT" (.float q) := by
      intro w hw
      by_cases hne : isNoneOrEmptyStr w = true
      · rw [if_pos hne] at hw
        exact Or.inl (Except.ok.inj hw).symm
      · rw [if_neg hne] at hw
        rcases hpf : pyFloat w with _ | q
        · rw [hpf] at hw
          exact Except.noConfusion hw
        · rw [hpf] at hw
          exact Or.inr ⟨q, (Except.ok.inj hw).symm⟩
    exact hcase v h

theorem timeoutStage_id (c : PyDict)
    (hK : getKey c "MCPO_TIMEOUT" = Option.none ∨
      ∃ q, getKey c "MCPO_TIMEOUT" = some (.float q)) :
    mcpoTimeoutStage c = .ok c := by
  simp only [mcpoTimeoutStage]
  unfold dictGet
  rcases hK with hg | ⟨q, hg⟩
  · rw [hg]
    show (.ok (popKey c "MCPO_TIMEOUT") : Except String PyDict) = .ok c
    rw [popKey_of_getKey_none c _ hg]
  · rw [hg]
    show (.ok (setKey c "MCPO_TIMEOUT" (.float q)) : Except String PyDict) = .ok c
    rw [setKey_of_getKey_eq c _ _ hg]

theorem toolsBody_ok (c c' : PyDict) (ts0 : List String)
    (hnd : (keysOf c).Nodup)
    (helem : ∀ t ∈ ts0, stripWS t = t ∧ t ≠ "")
    (h : toolsFinish c ts0 = .ok c') :
    ∃ ts c2, (c2 = c ∨ c2 = popKey c "MCPO_TOOL") ∧
      (∀ v, getKey c2 "MCPO_TOOL" = some v → isNoneOrEmptyStr v = true) ∧
      (∀ k, k ≠ "MCPO_TOOL" → getKey c2 k = getKey c k) ∧
      (keysOf c2).Nodup ∧ (∀ k', k' ∈ keysOf c2 → k' ∈ keysOf c) ∧
      (∀ t ∈ ts, stripWS t = t ∧ t ≠ "") ∧ ts.Nodup ∧
      ((ts ≠ [] ∧ c' = setKey c2 "MCPO_TOOLS" (.list (ts.map PyVal.str))) ∨
        (ts = [] ∧ c' = popKey c2 "MCPO_TOOLS")) := by
  simp only [toolsFinish] at h
  have hfinish : ∀ (m1 : List String) (c2 : PyDict),
      (c2 = c ∨ c2 = popKey c "MCPO_TOOL") →
      (∀ v, getKey c2 "MCPO_TOOL" = some v → isNoneOrEmptyStr v = true) →
      (∀ t ∈ m1, stripWS t = t ∧ t ≠ "") →
      (if dedupKeep m1 ≠ [] then
        .ok (setKey c2 "MCPO_TOOLS" (.list ((dedupKeep m1).map PyVal.str)))
      else (.ok (popKey c2 "MCPO_TOOLS") : Except String PyDict)) = .ok c' →
      ∃ ts c2b, (c2b = c ∨ c2b = popKey c "MCPO_TOOL") ∧
        (∀ v, getKey c2b "MCPO_TOOL" = some v → isNoneOrEmptyStr v = true) ∧
        (∀ k, k ≠ "MCPO_TOOL" → getKey c2b k = getKey c k) ∧
        (keysOf c2b).Nodup ∧ (∀ k', k' ∈ keysOf c2b → k' ∈ keysOf c) ∧
        (∀ t ∈ ts, stripWS t = t ∧ t ≠ "") ∧ ts.Nodup ∧
        ((ts ≠ [] ∧ c' = setKey c2b "MCPO_TOOLS" (.list (ts.map PyVal.str))) ∨
          (ts = [] ∧ c' = popKey c2b "MCPO_TOOLS")) := by
    intro m1 c2 hc2 htool hm1 hif
    have hframe : ∀ k, k ≠ "MCPO_TOOL" → getKey c2 k = getKey c k := by
      rcases hc2 with rfl | rfl
      · intro k _; rfl
      · intro k hk
        exact getKey_popKey_ne c "MCPO_TOOL" k hk
    have hnd2 : (keysOf c2).Nodup := by
      rcases hc2 with rfl | rfl
      · exact hnd
      · exact nodup_keysOf_popKey c "MCPO_TOOL" hnd
    have hkeys2 : ∀ k', k' ∈ keysOf c2 → k' ∈ keysOf c := by
      rcases hc2 with rfl | rfl
      · intro k' hk'; exact hk'
      · intro k' hk'
        exact mem_keysOf_popKey c "MCPO_TOOL" k' hk'
    refine ⟨dedupKeep m1, c2, hc2, htool, hframe, hnd2, hkeys2, ?_, ?_, ?_⟩
    · intro t ht
      exact hm1 t (mem_dedupKeep t m1.length m1 (Nat.le_refl _) ht)
    · exact dedupKeep_nodup m1.length m1 (Nat.le_refl _)
    · by_cases hdn : dedupKeep m1 = []
      · rw [if_neg (fun hx => hx hdn)] at hif
        exact Or.inr ⟨hdn, (Except.ok.inj hif).symm⟩
      · rw [if_pos hdn] at hif
        exact Or.inl ⟨hdn, (Except.ok.inj hif).symm⟩
  rcases hgt : getKey c "MCPO_TOOL" with _ | tv
  · rw [hgt] at h
    exact hfinish ts0 c (Or.inl rfl)
      (fun v hv => by rw [hgt] at hv; exact Option.noConfusion hv) helem h
  · rw [hgt] at h
    simp only [] at h
    by_cases htv : isNoneOrEmptyStr tv = true
    · rw [htv] at h
      have h2 : (if dedupKeep ts0 ≠ [] then
          .ok (setKey c "MCPO_TOOLS" (.list ((dedupKeep ts0).map PyVal.str)))
        else (.ok (popKey c "MCPO_TOOLS") : Except String PyDict)) = .ok c' := h
      exact hfinish ts0 c (Or.inl rfl)
        (fun v hv => by rw [hgt] at hv; rw [← Option.some.inj hv]; exact htv) helem h2
    · have htv2 : isNoneOrEmptyStr tv = false := Bool.eq_false_iff.mpr htv
      rw [htv2] at h
      have htoolpost : ∀ v, getKey (popKey c "MCPO_TOOL") "MCPO_TOOL" = some v →
          isNoneOrEmptyStr v = true := by
        intro v hv
        rw [getKey_popKey_self c "MCPO_TOOL" hnd] at hv
        exact Option.noConfusion hv
      have h3 : (if dedupKeep (if stripWS (pyStr tv) ≠ ""
            then ts0 ++ [stripWS (pyStr tv)] else ts0) ≠ [] then
          .ok (setKey (popKey c "MCPO_TOOL") "MCPO_TOOLS"
            (.list ((dedupKeep (if stripWS (pyStr tv) ≠ ""
              then ts0 ++ [stripWS (pyStr tv)] else ts0)).map PyVal.str)))
        else (.ok (popKey (popKey c "MCPO_TOOL") "MCPO_TOOLS")
          : Except String PyDict)) = .ok c' := h
      by_cases htn : stripWS (pyStr tv) = ""
      · rw [show (if stripWS (pyStr tv) ≠ "" then ts0 ++ [stripWS (pyStr tv)] else ts0)
            = ts0 from if_neg (fun hx => hx htn)] at h3
        exact hfinish ts0 (popKey c "MCPO_TOOL") (Or.inr rfl) htoolpost helem h3
      · rw [show (if stripWS (pyStr tv) ≠ "" then ts0 ++ [stripWS (pyStr tv)] else ts0)
            = ts0 ++ [stripWS (pyStr tv)] from if_pos htn] at h3
        refine hfinish (ts0 ++ [stripWS (pyStr tv)]) (popKey c "MCPO_TOOL")
          (Or.inr rfl) htoolpost ?_ h3
        intro t ht
        rcases List.mem_append.mp ht with h4 | h4
        · exact helem t h4
        · rw [List.mem_singleton.mp h4]
          exact ⟨stripWS_idem (pyStr tv), htn⟩

theorem toolsStage_ok (c c' : PyDict) (hnd : (keysOf c).Nodup)
    (h : mcpoToolsStage c = .ok c') :
    ∃ ts c2, (c2 = c ∨ c2 = popKey c "MCPO_TOOL") ∧
      (∀ v, getKey c2 "MCPO_TOOL" = some v → isNoneOrEmptyStr v = true) ∧
      (∀ k, k ≠ "MCPO_TOOL" → getKey c2 k = getKey c k) ∧
      (keysOf c2).Nodup ∧ (∀ k', k' ∈ keysOf c2 → k' ∈ keysOf c) ∧
      (∀ t ∈ ts, stripWS t = t ∧ t ≠ "") ∧ ts.Nodup ∧
      ((ts ≠ [] ∧ c' = setKey c2 "MCPO_TOOLS" (.list (ts.map PyVal.str))) ∨
        (ts = [] ∧ c' = popKey c2 "MCPO_TOOLS")) := by
  simp only [mcpoToolsStage] at h
  unfold dictGet at h
  rcases hgv : getKey c "MCPO_TOOLS" with _ | v
  · rw [hgv] at h
    exact toolsBody_ok c c' [] hnd (fun t ht => absurd ht (by simp)) h
  · rw [hgv] at h
    cases v with
    | none => exact toolsBody_ok c c' [] hnd (fun t ht => absurd ht (by simp)) h
    | str s =>
        by_cases hse : s = ""
        · subst hse
          exact toolsBody_ok c c' [] hnd (fun t ht => absurd ht (by simp)) h
        · rw [show isNoneOrEmptyStr (Option.getD (some (PyVal.str s)) PyVal.none)
              = (s == "") from rfl] at h
          rw [if_neg (by simp [hse])] at h
          have h2 : (match (match jsonLoads s with
              | Option.none =>
                  (.error "MCPO_TOOLS must be a JSON array of tool names"
                    : Except String (List String))
              | some (.list items) => sanitizeToolsList items
              | some _ => .error "MCPO_TOOLS must be a JSON array of tool names") with
            | .error e => (.error e : Except String PyDict)
            | .ok ts0 => toolsFinish c ts0) = .ok c' := h
          rcases hjl : jsonLoads s with _ | jv
          · rw [hjl] at h2
            exact Except.noConfusion h2
          · rw [hjl] at h2
            cases jv with
            | list items =>
                have h3 : (match sanitizeToolsList items with
                  | .error e => (.error e : Except String PyDict)
                  | .ok ts0 => toolsFinish c ts0) = .ok c' := h2
                rcases hsl : sanitizeToolsList items with e | ts0
                · rw [hsl] at h3
                  exact Except.noConfusion h3
                · rw [hsl] at h3
                  exact toolsBody_ok c c' ts0 hnd
                    (sanitizeToolsList_ok_spec items ts0 hsl) h3
            | none => exact Except.noConfusion h2
            | bool b => exact Except.noConfusion h2
            | int n => exact Except.noConfusion h2
            | float q => exact Except.noConfusion h2
            | str s2 => exact Except.noConfusion h2
            | dict kvs => exact Except.noConfusion h2
    | list items =>
        have h3 : (match sanitizeToolsList items with
          | .error e => (.error e : Except String PyDict)
          | .ok ts0 => toolsFinish c ts0) = .ok c' := h
        rcases hsl : sanitizeToolsList items with e | ts0
        · rw [hsl] at h3
          exact Except.noConfusion h3
        · rw [hsl] at h3
          exact toolsBody_ok c c' ts0 hnd
            (sanitizeToolsList_ok_spec items ts0 hsl) h3
    | bool b => exact Except.noConfusion h
    | int n => exact Except.noConfusion h
    | float q => exact Except.noConfusion h
    | dict kvs => exact Except.noConfusion h

theorem toolsStage_id (c : PyDict) (hnd : (keysOf c).Nodup)
    (hTools : getKey c "MCPO_TOOLS" = Option.none ∨
      ∃ ts, getKey c "MCPO_TOOLS" = some (.list (ts.map PyVal.str)) ∧ ts ≠ [] ∧
        ts.Nodup ∧ ∀ t ∈ ts, stripWS t = t ∧ t ≠ "")
    (hTool : ∀ v, getKey c "MCPO_TOOL" = some v → isNoneOrEmptyStr v = true) :
    mcpoToolsStage c = .ok c := by
  simp only [mcpoToolsStage]
  unfold dictGet
  rcases hTools with hg | ⟨ts, hg, hne, hndts, hel⟩
  · rw [hg]
    rcases hgt : getKey c "MCPO_TOOL" with _ | tv
    · show (.ok (popKey c "MCPO_TOOLS") : Except String PyDict) = .ok c
      rw [popKey_of_getKey_none c _ hg]
    · have htv := hTool tv hgt
      simp only []
      rw [htv]
      show (.ok (popKey c "MCPO_TOOLS") : Except String PyDict) = .ok c
      rw [popKey_of_getKey_none c _ hg]
  · rw [hg]
    rcases hgt : getKey c "MCPO_TOOL" with _ | tv
    · show (match sanitizeToolsList (ts.map PyVal.str) with
        | .error e => (.error e : Except String PyDict)
        | .ok ts2 =>
            if dedupKeep ts2 ≠ [] then
              .ok (setKey c "MCPO_TOOLS" (.list ((dedupKeep ts2).map PyVal.str)))
            else .ok (popKey c "MCPO_TOOLS")) = .ok c
      rw [sanitizeToolsList_map_str ts hel]
      show (if dedupKeep ts ≠ [] then
          .ok (setKey c "MCPO_TOOLS" (.list ((dedupKeep ts).map PyVal.str)))
        else (.ok (popKey c "MCPO_TOOLS") : Except String PyDict)) = .ok c
      rw [dedupKeep_of_nodup ts.length ts (Nat.le_refl _) hndts]
      rw [if_pos hne, setKey_of_getKey_eq c _ _ hg]
    · have htv := hTool tv hgt
      simp only []
      rw [htv]
      show (match sanitizeToolsList (ts.map PyVal.str) with
        | .error e => (.error e : Except String PyDict)
        | .ok ts2 =>
            if dedupKeep ts2 ≠ [] then
              .ok (setKey c "MCPO_TOOLS" (.list ((dedupKeep ts2).map PyVal.str)))
            else .ok (popKey c "MCPO_TOOLS")) = .ok c
      rw [sanitizeToolsList_map_str ts hel]
      show (if dedupKeep ts ≠ [] then
          .ok (setKey c "MCPO_TOOLS" (.list ((dedupKeep ts).map PyVal.str)))
        else (.ok (popKey c "MCPO_TOOLS") : Except String PyDict)) = .ok c
      rw [dedupKeep_of_nodup ts.length ts (Nat.le_refl _) hndts]
      rw [if_pos hne, setKey_of_getKey_eq c _ _ hg]

/-! ### Chaining the validator stages -/

theorem except_bind_ok {α β : Type} (x : Except String α) (f : α → Except String β) (b : β)
    (h : (x >>= f) = .ok b) : ∃ a, x = .ok a ∧ f a = .ok b := by
  cases x with
  | error e =>
      exfalso
      have h2 : (Except.error e : Except String β) = .ok b := h
      exact Except.noConfusion h2
  | ok a => exact ⟨a, rfl, h⟩

theorem bind_ok_step {α β : Type} (x : Except String α) (a : α) (hx : x = .ok a)
    (f : α → Except String β) : (x >>= f) = f a := by
  rw [hx]
  rfl

theorem validate_ok_invariant (cfg c1 : PyDict) (hnd : (keysOf cfg).Nodup)
    (h : validateMCPOConfig cfg = .ok c1) :
    (keysOf c1).Nodup ∧
    (∀ k ∈ keysOf c1, k ∈ mcpoRequiredKeys ++ mcpoOptionalKeys) ∧
    (∃ b, getKey c1 "MCPO_BASE_URL" = some (.str b) ∧ rstripSlash b = b) ∧
    (∃ s, getKey c1 "MCPO_SERVER" = some (.str s) ∧ stripSlash s = s) ∧
    (getKey c1 "MCPO_OPENAPI_URL" = Option.none ∨
      ∃ s, getKey c1 "MCPO_OPENAPI_URL" = some (.str s) ∧ stripWS s = s ∧ s ≠ "") ∧
    (∃ kvs, getKey c1 "MCPO_STATIC_ARGS" = some (.dict kvs)) ∧
    (getKey c1 "MCPO_RESULT_PATH" = Option.none ∨
      getKey c1 "MCPO_RESULT_PATH" = some PyVal.none ∨
      ∃ s, getKey c1 "MCPO_RESULT_PATH" = some (.str s) ∧ stripWS s = s ∧ s ≠ "") ∧
    (getKey c1 "MCPO_QUERY_PARAM" = Option.none ∨
      getKey c1 "MCPO_QUERY_PARAM" = some PyVal.none ∨
      ∃ s, getKey c1 "MCPO_QUERY_PARAM" = some (.str s) ∧ stripWS s = s ∧ s ≠ "") ∧
    (getKey c1 "MCPO_TIMEOUT" = Option.none ∨
      ∃ q, getKey c1 "MCPO_TIMEOUT" = some (.float q)) ∧
    (getKey c1 "MCPO_TOOLS" = Option.none ∨
      ∃ ts, getKey c1 "MCPO_TOOLS" = some (.list (ts.map PyVal.str)) ∧ ts ≠ [] ∧
        ts.Nodup ∧ ∀ t ∈ ts, stripWS t = t ∧ t ≠ "") ∧
    (∀ v, getKey c1 "MCPO_TOOL" = some v → isNoneOrEmptyStr v = true) := by
  simp only [validateMCPOConfig] at h
  obtain ⟨c2, h1, h⟩ := except_bind_ok _ _ _ h
  obtain ⟨c3, h2, h⟩ := except_bind_ok _ _ _ h
  obtain ⟨c4, h3, h⟩ := except_bind_ok _ _ _ h
  obtain ⟨c5, h4, h⟩ := except_bind_ok _ _ _ h
  obtain ⟨c6, h5, h⟩ := except_bind_ok _ _ _ h
  obtain ⟨c7, h6, h⟩ := except_bind_ok _ _ _ h
  obtain ⟨c8, h7, h⟩ := except_bind_ok _ _ _ h
  obtain ⟨c9, h8, h⟩ := except_bind_ok _ _ _ h
  obtain ⟨c10, h9, h⟩ := except_bind_ok _ _ _ h
  obtain ⟨hc2, hall2⟩ := unexpected_ok cfg c2 h1
  have hc3 := missing_ok c2 c3 h2
  rw [hc3, hc2] at h3
  -- base stage
  obtain ⟨bs, hbne, hbget, hc4⟩ := baseStage_ok cfg c4 h3
  have hB4 : getKey c4 "MCPO_BASE_URL"
      = some (.str (rstripSlash (stripWS bs))) := by
    rw [hc4]
    exact getKey_setKey_self _ _ _
  have f4 : ∀ k, k ≠ "MCPO_BASE_URL" → getKey c4 k = getKey cfg k := by
    intro k hk
    rw [hc4]
    exact getKey_setKey_ne _ _ _ _ hk
  have nd4 : (keysOf c4).Nodup := by
    rw [hc4]
    exact nodup_keysOf_setKey _ _ _ hnd
  have al4 : ∀ k ∈ keysOf c4, k ∈ mcpoRequiredKeys ++ mcpoOptionalKeys := by
    intro k hk
    rw [hc4] at hk
    rcases mem_keysOf_setKey _ _ _ _ hk with hq | hq
    · rw [hq]; decide
    · exact hall2 k hq
  -- server stage
  obtain ⟨ss, hsne, hsget, hc5⟩ := serverStage_ok c4 c5 h4
  have hS5 : getKey c5 "MCPO_SERVER" = some (.str (stripSlash (stripWS ss))) := by
    rw [hc5]
    exact getKey_setKey_self _ _ _
  have f5 : ∀ k, k ≠ "MCPO_SERVER" → getKey c5 k = getKey c4 k := by
    intro k hk
    rw [hc5]
    exact getKey_setKey_ne _ _ _ _ hk
  have nd5 : (keysOf c5).Nodup := by
    rw [hc5]
    exact nodup_keysOf_setKey _ _ _ nd4
  have al5 : ∀ k ∈ keysOf c5, k ∈ mcpoRequiredKeys ++ mcpoOptionalKeys := by
    intro k hk
    rw [hc5] at hk
    rcases mem_keysOf_setKey _ _ _ _ hk with hq | hq
    · rw [hq]; decide
    · exact al4 k hq
  -- openapi stage
  have hOfacts : (getKey c6 "MCPO_OPENAPI_URL" = Option.none ∨
      ∃ s, getKey c6 "MCPO_OPENAPI_URL" = some (.str s) ∧ stripWS s = s ∧ s ≠ "") ∧
      (∀ k, k ≠ "MCPO_OPENAPI_URL" → getKey c6 k = getKey c5 k) ∧
      (keysOf c6).Nodup ∧
      (∀ k ∈ keysOf c6, k ∈ mcpoRequiredKeys ++ mcpoOptionalKeys) := by
    rcases openapiStage_ok c5 c6 h5 with hc6 | ⟨s, hsne2, hc6⟩
    · refine ⟨Or.inl ?_, ?_, ?_, ?_⟩
      · rw [hc6]
        exact getKey_popKey_self _ _ nd5
      · intro k hk
        rw [hc6]
        exact getKey_popKey_ne _ _ _ hk
      · rw [hc6]
        exact nodup_keysOf_popKey _ _ nd5
      · intro k hk
        rw [hc6] at hk
        exact al5 k (mem_keysOf_popKey _ _ _ hk)
    · refine ⟨Or.inr ⟨stripWS s, ?_, stripWS_idem s, hsne2⟩, ?_, ?_, ?_⟩
      · rw [hc6]
        exact getKey_setKey_self _ _ _
      · intro k hk
        rw [hc6]
        exact getKey_setKey_ne _ _ _ _ hk
      · rw [hc6]
        exact nodup_keysOf_setKey _ _ _ nd5
      · intro k hk
        rw [hc6] at hk
        rcases mem_keysOf_setKey _ _ _ _ hk with hq | hq
        · rw [hq]; decide
        · exact al5 k hq
  obtain ⟨hO6, f6, nd6, al6⟩ := hOfacts
  -- static stage
  obtain ⟨kvs, hc7⟩ := staticStage_ok c6 c7 h6
  have hST7 : getKey c7 "MCPO_STATIC_ARGS" = some (.dict kvs) := by
    rw [hc7]
    exact getKey_setKey_self _ _ _
  have f7 : ∀ k, k ≠ "MCPO_STATIC_ARGS" → getKey c7 k = getKey c6 k := by
    intro k hk
    rw [hc7]
    exact getKey_setKey_ne _ _ _ _ hk
  have nd7 : (keysOf c7).Nodup := by
    rw [hc7]
    exact nodup_keysOf_setKey _ _ _ nd6
  have al7 : ∀ k ∈ keysOf c7, k ∈ mcpoRequiredKeys ++ mcpoOptionalKeys := by
    intro k hk
    rw [hc7] at hk
    rcases mem_keysOf_setKey _ _ _ _ hk with hq | hq
    · rw [hq]; decide
    · exact al6 k hq
  -- result-path stage
  have hRfacts : (getKey c8 "MCPO_RESULT_PATH" = Option.none ∨
      getKey c8 "MCPO_RESULT_PATH" = some PyVal.none ∨
      ∃ s, getKey c8 "MCPO_RESULT_PATH" = some (.str s) ∧ stripWS s = s ∧ s ≠ "") ∧
      (∀ k, k ≠ "MCPO_RESULT_PATH" → getKey c8 k = getKey c7 k) ∧
      (keysOf c8).Nodup ∧
      (∀ k ∈ keysOf c8, k ∈ mcpoRequiredKeys ++ mcpoOptionalKeys) := by
    rcases resultPathStage_ok c7 c8 h7 with ⟨hc8, hcase⟩ | ⟨s, hsne2, hc8⟩ | hc8
    · subst hc8
      refine ⟨?_, fun k _ => rfl, nd7, al7⟩
      rcases hcase with hq | hq
      · exact Or.inl hq
      · exact Or.inr (Or.inl hq)
    · refine ⟨Or.inr (Or.inr ⟨stripWS s, ?_, stripWS_idem s, hsne2⟩), ?_, ?_, ?_⟩
      · rw [hc8]
        exact getKey_setKey_self _ _ _
      · intro k hk
        rw [hc8]
        exact getKey_setKey_ne _ _ _ _ hk
      · rw [hc8]
        exact nodup_keysOf_setKey _ _ _ nd7
      · intro k hk
        rw [hc8] at hk
        rcases mem_keysOf_setKey _ _ _ _ hk with hq | hq
        · rw [hq]; decide
        · exact al7 k hq
    · refine ⟨Or.inl ?_, ?_, ?_, ?_⟩
      · rw [hc8]
        exact getKey_popKey_self _ _ nd7
      · intro k hk
        rw [hc8]
        exact getKey_popKey_ne _ _ _ hk
      · rw [hc8]
        exact nodup_keysOf_popKey _ _ nd7
      · intro k hk
        rw [hc8] at hk
        exact al7 k (mem_keysOf_popKey _ _ _ hk)
  obtain ⟨hRP8, f8, nd8, al8⟩ := hRfacts
  -- query-param stage
  have hQfacts : (getKey c9 "MCPO_QUERY_PARAM" = Option.none ∨
      getKey c9 "MCPO_QUERY_PARAM" = some PyVal.none ∨
      ∃ s, getKey c9 "MCPO_QUERY_PARAM" = some (.str s) ∧ stripWS s = s ∧ s ≠ "") ∧
      (∀ k, k ≠ "MCPO_QUERY_PARAM" → getKey c9 k = getKey c8 k) ∧
      (keysOf c9).Nodup ∧
      (∀ k ∈ keysOf c9, k ∈ mcpoRequiredKeys ++ mcpoOptionalKeys) := by
    rcases queryParamStage_ok c8 c9 h8 with ⟨hc9, hcase⟩ | ⟨v, hvgood, hc9⟩
    · subst hc9
      refine ⟨?_, fun k _ => rfl, nd8, al8⟩
      rcases hcase with hq | hq
      · exact Or.inl hq
      · exact Or.inr (Or.inl hq)
    · refine ⟨?_, ?_, ?_, ?_⟩
      · rcases hvgood with rfl | ⟨s, rfl, hstable, hne2⟩
        · refine Or.inr (Or.inl ?_)
          rw [hc9]
          exact getKey_setKey_self _ _ _
        · refine Or.inr (Or.inr ⟨s, ?_, hstable, hne2⟩)
          rw [hc9]
          exact getKey_setKey_self _ _ _
      · intro k hk
        rw [hc9]
        exact getKey_setKey_ne _ _ _ _ hk
      · rw [hc9]
        exact nodup_keysOf_setKey _ _ _ nd8
      · intro k hk
        rw [hc9] at hk
        rcases mem_keysOf_setKey _ _ _ _ hk with hq | hq
        · rw [hq]; decide
        · exact al8 k hq
  obtain ⟨hQP9, f9, nd9, al9⟩ := hQfacts
  -- timeout stage
  have hTfacts : (getKey c10 "MCPO_TIMEOUT" = Option.none ∨
      ∃ q, getKey c10 "MCPO_TIMEOUT" = some (.float q)) ∧
      (∀ k, k ≠ "MCPO_TIMEOUT" → getKey c10 k = getKey c9 k) ∧
      (keysOf c10).Nodup ∧
      (∀ k ∈ keysOf c10, k ∈ mcpoRequiredKeys ++ mcpoOptionalKeys) := by
    rcases timeoutStage_ok c9 c10 h9 with hc10 | ⟨q, hc10⟩
    · refine ⟨Or.inl ?_, ?_, ?_, ?_⟩
      · rw [hc10]
        exact getKey_popKey_self _ _ nd9
      · intro k hk
        rw [hc10]
        exact getKey_popKey_ne _ _ _ hk
      · rw [hc10]
        exact nodup_keysOf_popKey _ _ nd9
      · intro k hk
        rw [hc10] at hk
        exact al9 k (mem_keysOf_popKey _ _ _ hk)
    · refine ⟨Or.inr ⟨q, ?_⟩, ?_, ?_, ?_⟩
      · rw [hc10]
        exact getKey_setKey_self _ _ _
      · intro k hk
        rw [hc10]
        exact getKey_setKey_ne _ _ _ _ hk
      · rw [hc10]
        exact nodup_keysOf_setKey _ _ _ nd9
      · intro k hk
        rw [hc10] at hk
        rcases mem_keysOf_setKey _ _ _ _ hk with hq | hq
        · rw [hq]; decide
        · exact al9 k hq
  obtain ⟨hTM10, f10, nd10, al10⟩ := hTfacts
  -- tools stage
  obtain ⟨ts, ct, hct, htoolct, ftool, ndct, alct, hts, hndts, hfin⟩ :=
    toolsStage_ok c10 c1 nd10 h
  have alct2 : ∀ k ∈ keysOf ct, k ∈ mcpoRequiredKeys ++ mcpoOptionalKeys :=
    fun k hk => al10 k (alct k hk)
  have hTL1 : getKey c1 "MCPO_TOOLS" = Option.none ∨
      ∃ ts2, getKey c1 "MCPO_TOOLS" = some (.list (ts2.map PyVal.str)) ∧ ts2 ≠ [] ∧
        ts2.Nodup ∧ ∀ t ∈ ts2, stripWS t = t ∧ t ≠ "" := by
    rcases hfin with ⟨htsne, hc1⟩ | ⟨htsnil, hc1⟩
    · refine Or.inr ⟨ts, ?_, htsne, hndts, hts⟩
      rw [hc1]
      exact getKey_setKey_self _ _ _
    · refine Or.inl ?_
      rw [hc1]
      exact getKey_popKey_self _ _ ndct
  have ftools : ∀ k, k ≠ "MCPO_TOOLS" → k ≠ "MCPO_TOOL" → getKey c1 k = getKey c10 k := by
    intro k hk1 hk2
    have hstep : getKey c1 k = getKey ct k := by
      rcases hfin with ⟨-, hc1⟩ | ⟨-, hc1⟩
      · rw [hc1]
        exact getKey_setKey_ne _ _ _ _ hk1
      · rw [hc1]
        exact getKey_popKey_ne _ _ _ hk1
    rw [hstep]
    exact ftool k hk2
  have hT1 : ∀ v, getKey c1 "MCPO_TOOL" = some v → isNoneOrEmptyStr v = true := by
    intro v hv
    have hstep : getKey c1 "MCPO_TOOL" = getKey ct "MCPO_TOOL" := by
      rcases hfin with ⟨-, hc1⟩ | ⟨-, hc1⟩
      · rw [hc1]
        exact getKey_setKey_ne _ _ _ _ (by decide)
      · rw [hc1]
        exact getKey_popKey_ne _ _ _ (by decide)
    rw [hstep] at hv
    exact htoolct v hv
  have nd1 : (keysOf c1).Nodup := by
    rcases hfin with ⟨-, hc1⟩ | ⟨-, hc1⟩
    · rw [hc1]
      exact nodup_keysOf_setKey _ _ _ ndct
    · rw [hc1]
      exact nodup_keysOf_popKey _ _ ndct
  have al1 : ∀ k ∈ keysOf c1, k ∈ mcpoRequiredKeys ++ mcpoOptionalKeys := by
    intro k hk
    rcases hfin with ⟨-, hc1⟩ | ⟨-, hc1⟩
    · rw [hc1] at hk
      rcases mem_keysOf_setKey _ _ _ _ hk with hq | hq
      · rw [hq]; decide
      · exact alct2 k hq
    · rw [hc1] at hk
      exact alct2 k (mem_keysOf_popKey _ _ _ hk)
  -- transport the per-key facts to c1
  have gB : getKey c1 "MCPO_BASE_URL" = getKey c4 "MCPO_BASE_URL" := by
    rw [ftools _ (by decide) (by decide), f10 _ (by decide), f9 _ (by decide),
      f8 _ (by decide), f7 _ (by decide), f6 _ (by decide), f5 _ (by decide)]
  have gS : getKey c1 "MCPO_SERVER" = getKey c5 "MCPO_SERVER" := by
    rw [ftools _ (by decide) (by decide), f10 _ (by decide), f9 _ (by decide),
      f8 _ (by decide), f7 _ (by decide), f6 _ (by decide)]
  have gO : getKey c1 "MCPO_OPENAPI_URL" = getKey c6 "MCPO_OPENAPI_URL" := by
    rw [ftools _ (by decide) (by decide), f10 _ (by decide), f9 _ (by decide),
      f8 _ (by decide), f7 _ (by decide)]
  have gST : getKey c1 "MCPO_STATIC_ARGS" = getKey c7 "MCPO_STATIC_ARGS" := by
    rw [ftools _ (by decide) (by decide), f10 _ (by decide), f9 _ (by decide),
      f8 _ (by decide)]
  have gRP : getKey c1 "MCPO_RESULT_PATH" = getKey c8 "MCPO_RESULT_PATH" := by
    rw [ftools _ (by decide) (by decide), f10 _ (by decide), f9 _ (by decide)]
  have gQP : getKey c1 "MCPO_QUERY_PARAM" = getKey c9 "MCPO_QUERY_PARAM" := by
    rw [ftools _ (by decide) (by decide), f10 _ (by decide)]
  have gTM : getKey c1 "MCPO_TIMEOUT" = getKey c10 "MCPO_TIMEOUT" := by
    rw [ftools _ (by decide) (by decide)]
  refine ⟨nd1, al1, ?_, ?_, ?_, ?_, ?_, ?_, ?_, hTL1, hT1⟩
  · exact ⟨rstripSlash (stripWS bs), by rw [gB]; exact hB4,
      rstripSlash_idem (stripWS bs)⟩
  · exact ⟨stripSlash (stripWS ss), by rw [gS]; exact hS5,
      stripSlash_idem (stripWS ss)⟩
  · rw [gO]
    exact hO6
  · rw [gST]
    exact ⟨kvs, hST7⟩
  · rw [gRP]
    exact hRP8
  · rw [gQP]
    exact hQP9
  · rw [gTM]
    exact hTM10

/-- C9 (amended): on a duplicate-free configuration map accepted by the MCPO
branch of the validator, whenever the sanitized base-address and server
values are additionally stable under whitespace trimming (an accepting run
can emit values whose slash-trimming exposes trailing whitespace, which a
second run would trim further), re-running the validator on its own output
returns it unchanged. -/
theorem validator_idempotent (cfg c1 : PyDict)
    (hnd : (keysOf cfg).Nodup)
    (h : validateMCPOConfig cfg = .ok c1)
    (hbase : ∀ b, getKey c1 "MCPO_BASE_URL" = some (.str b) → stripWS b = b ∧ b ≠ "")
    (hserver : ∀ s, getKey c1 "MCPO_SERVER" = some (.str s) → stripWS s = s ∧ s ≠ "") :
    validateMCPOConfig c1 = .ok c1 := by
  obtain ⟨nd1, al1, ⟨b, hbg, hb3⟩, ⟨s, hsg, hs3⟩, hO, hST, hRP, hQP, hTM, hTL, hT1⟩ :=
    validate_ok_invariant cfg c1 hnd h
  obtain ⟨kvs, hstg⟩ := hST
  obtain ⟨hb1, hb2⟩ := hbase b hbg
  obtain ⟨hs1, hs2⟩ := hserver s hsg
  simp only [validateMCPOConfig,
    bind_ok_step _ _ (unexpected_id c1 al1),
    bind_ok_step _ _ (missing_id c1 ⟨_, hbg⟩ ⟨_, hsg⟩),
    bind_ok_step _ _ (baseStage_id c1 b hbg hb1 hb2 hb3),
    bind_ok_step _ _ (serverStage_id c1 s hsg hs1 hs2 hs3),
    bind_ok_step _ _ (openapiStage_id c1 hO),
    bind_ok_step _ _ (staticStage_id c1 kvs hstg),
    bind_ok_step _ _ (resultPathStage_id c1 hRP),
    bind_ok_step _ _ (queryParamStage_id c1 hQP),
    bind_ok_step _ _ (timeoutStage_id c1 hTM)]
  exact toolsStage_id c1 nd1 hTL hT1

/-- C9 counterexample: the validator accepts `MCPO_BASE_URL = "h /"`,
storing `"h "` (trimming the trailing slash exposes a trailing space), and
a second run on that output trims further to `"h"`: sanitization is not
idempotent. -/
theorem validator_idempotent_cex :
    validateMCPOConfig [("MCPO_BASE_URL", PyVal.str "h /"), ("MCPO_SERVER", PyVal.str "s")]
      = .ok [("MCPO_BASE_URL", PyVal.str "h "), ("MCPO_SERVER", PyVal.str "s"),
        ("MCPO_STATIC_ARGS", PyVal.dict [])] ∧
    validateMCPOConfig [("MCPO_BASE_URL", PyVal.str "h "), ("MCPO_SERVER", PyVal.str "s"),
        ("MCPO_STATIC_ARGS", PyVal.dict [])]
      = .ok [("MCPO_BASE_URL", PyVal.str "h"), ("MCPO_SERVER", PyVal.str "s"),
        ("MCPO_STATIC_ARGS", PyVal.dict [])] ∧
    ([("MCPO_BASE_URL", PyVal.str "h "), ("MCPO_SERVER", PyVal.str "s"),
        ("MCPO_STATIC_ARGS", PyVal.dict [])] : PyDict)
      ≠ [("MCPO_BASE_URL", PyVal.str "h"), ("MCPO_SERVER", PyVal.str "s"),
        ("MCPO_STATIC_ARGS", PyVal.dict [])] := by
  refine ⟨rfl, rfl, fun hc => ?_⟩
  have h2 := congrArg (fun l => getKey l "MCPO_BASE_URL") hc
  simp only [] at h2
  rw [show getKey [("MCPO_BASE_URL", PyVal.str "h "), ("MCPO_SERVER", PyVal.str "s"),
      ("MCPO_STATIC_ARGS", PyVal.dict [])] "MCPO_BASE_URL" = some (PyVal.str "h ") from rfl,
    show getKey [("MCPO_BASE_URL", PyVal.str "h"), ("MCPO_SERVER", PyVal.str "s"),
      ("MCPO_STATIC_ARGS", PyVal.dict [])] "MCPO_BASE_URL" = some (PyVal.str "h") from rfl]
    at h2
  injection h2 with h3
  injection h3 with h4
  exact absurd h4 (by decide)

theorem validator_idempotent_witness :
    validateMCPOConfig [("MCPO_BASE_URL", PyVal.str "http://h"),
        ("MCPO_SERVER", PyVal.str "s"), ("MCPO_STATIC_ARGS", PyVal.dict [])]
      = .ok [("MCPO_BASE_URL", PyVal.str "http://h"),
        ("MCPO_SERVER", PyVal.str "s"), ("MCPO_STATIC_ARGS", PyVal.dict [])] := by
  refine validator_idempotent
    [("MCPO_BASE_URL", PyVal.str "http://h"), ("MCPO_SERVER", PyVal.str "s")]
    _ (by decide) rfl ?_ ?_
  · intro b hb
    rw [show getKey [("MCPO_BASE_URL", PyVal.str "http://h"),
        ("MCPO_SERVER", PyVal.str "s"), ("MCPO_STATIC_ARGS", PyVal.dict [])]
        "MCPO_BASE_URL" = some (PyVal.str "http://h") from rfl] at hb
    injection hb with hb2
    injection hb2 with hb3
    subst hb3
    exact ⟨by decide, by decide⟩
  · intro s hs
    rw [show getKey [("MCPO_BASE_URL", PyVal.str "http://h"),
        ("MCPO_SERVER", PyVal.str "s"), ("MCPO_STATIC_ARGS", PyVal.dict [])]
        "MCPO_SERVER" = some (PyVal.str "s") from rfl] at hs
    injection hs with hs2
    injection hs2 with hs3
    subst hs3
    exact ⟨by decide, by decide⟩

end SurfSense
